import Mathlib

/-!
# Fadechat: message lifetime, activity windows, cipher envelopes and expiry

A shallow embedding of the message lifecycle core of Fadechat
(`src/utils/cleanup.js`, `src/utils/encrypt.js`, `src/server.js`) together with the
properties its specification states.  Definitions come first, theorems follow.
-/

namespace Fadechat

/-! ## Numbers (src/utils/cleanup.js, src/server.js)

JavaScript numbers are IEEE-754 binary64 values.  The program only divides, adds
and floors finite values, so a number is kept here as a sign-free exact fraction
together with the round-to-nearest-even step that every arithmetic operation ends
with.  The exponent range (overflow to `Infinity`, subnormals) is not modelled:
the operands in play are array lengths and millisecond differences. -/

/-- Number of binary digits of `n`, computed with `fuel` halvings. -/
def bitLengthAux : Nat → Nat → Nat
  | 0, _ => 0
  | fuel + 1, n => if n = 0 then 0 else bitLengthAux fuel (n / 2) + 1

/-- Number of binary digits of `n` (`0` for `n = 0`). -/
def bitLength (n : Nat) : Nat := bitLengthAux n n

/-- Quotient `n / d` rounded to the nearest integer, ties to even. -/
def roundHalfEven (n d : Nat) : Nat :=
  let q := n / d
  let r := n % d
  if 2 * r < d then q
  else if d < 2 * r then q + 1
  else if q % 2 = 0 then q else q + 1

/-- A finite non-negative JavaScript number, held as the exact fraction `num / den`. -/
structure JSNumber where
  num : Nat
  den : Nat
deriving DecidableEq, Repr

/-- The binary64 value nearest to `n / d` (round to nearest, ties to even, 53-bit
significand): the quotient is scaled by the power of two that brings it into
`[2^52, 2^53)`, rounded to an integer significand and scaled back. -/
def JSNumber.round (n d : Nat) : JSNumber :=
  if n = 0 then ⟨0, 1⟩
  else if d ≤ n then
    let e := bitLength (n / d) - 1
    ⟨roundHalfEven (n * 2 ^ 52) (d * 2 ^ e) * 2 ^ e, 2 ^ 52⟩
  else
    let e := bitLength ((d - 1) / n)
    ⟨roundHalfEven (n * 2 ^ (52 + e)) d, 2 ^ (52 + e)⟩

/-- An integer-valued number: a literal, an array length, a millisecond count. -/
def JSNumber.ofNat (n : Nat) : JSNumber := JSNumber.round n 1

/-- JavaScript `a / b` on non-negative numbers (`b` non-zero). -/
def JSNumber.div (a b : JSNumber) : JSNumber :=
  JSNumber.round (a.num * b.den) (a.den * b.num)

/-- JavaScript `a + b` on non-negative numbers. -/
def JSNumber.add (a b : JSNumber) : JSNumber :=
  JSNumber.round (a.num * b.den + b.num * a.den) (a.den * b.den)

/-- `Math.floor` on a non-negative number. -/
def JSNumber.floor (a : JSNumber) : Nat := a.num / a.den

/-- `Math.ceil` on a non-negative number. -/
def JSNumber.ceil (a : JSNumber) : Nat := (a.num + a.den - 1) / a.den

/-- `Math.floor(x / d)` for an integer `x` of either sign and a positive integer
literal `d`: binary64 division is symmetric in the sign, and `floor (-v) = -ceil v`. -/
def floorDiv (x : Int) (d : Nat) : Int :=
  if 0 ≤ x then
    ((JSNumber.div (JSNumber.ofNat x.toNat) (JSNumber.ofNat d)).floor : Int)
  else
    -((JSNumber.div (JSNumber.ofNat (-x).toNat) (JSNumber.ofNat d)).ceil : Int)

/-! ## Lifetime computation (src/utils/cleanup.js) -/

/-- Source constant `BASE_LIFETIME`: 600 seconds. -/
def BASE_LIFETIME : Nat := 600

/-- Lines 41-45 of `calculateLifetime`:
`Math.max(1, Math.floor(BASE_LIFETIME / (1 + messagesSentLast5Min / 10)))`. -/
def lifetimeOfCount (messagesSentLast5Min : Nat) : Nat :=
  let lifetime := JSNumber.div (JSNumber.ofNat BASE_LIFETIME)
    (JSNumber.add (JSNumber.ofNat 1)
      (JSNumber.div (JSNumber.ofNat messagesSentLast5Min) (JSNumber.ofNat 10)))
  max 1 (JSNumber.floor lifetime)

/-- Evaluation of `lifetimeOfCount` against the closed form on the `2 ^ depth`
counts starting at `lo`. -/
def lifetimeCheck (lo : Nat) : Nat → Bool
  | 0 => lifetimeOfCount lo == max 1 (6000 / (10 + lo))
  | k + 1 => lifetimeCheck lo k && lifetimeCheck (lo + 2 ^ k) k

/-- Evaluation of `floorDiv x 1000` against integer division on the `2 ^ depth`
non-negative differences starting at `lo`. -/
def floorDivCheck (lo : Nat) : Nat → Bool
  | 0 => floorDiv (lo : Int) 1000 == ((lo / 1000 : Nat) : Int)
  | k + 1 => floorDivCheck lo k && floorDivCheck (lo + 2 ^ k) k

/-! ## JavaScript `Map` with string keys

A `Map` keeps its entries in insertion order and holds every key at most once. -/

/-- Entries of a `Map`, oldest insertion first. -/
abbrev JSMap (β : Type) := List (String × β)

/-- Keys are unique: the invariant every JavaScript `Map` satisfies. -/
def JSMap.WF {β : Type} (m : JSMap β) : Prop := (m.map Prod.fst).Nodup

/-- `m.has(k)`. -/
def JSMap.has {β : Type} (m : JSMap β) (k : String) : Bool :=
  m.any (fun kv => kv.1 == k)

/-- `m.get(k)`; `none` stands for `undefined`. -/
def JSMap.get {β : Type} (m : JSMap β) (k : String) : Option β :=
  (m.find? (fun kv => kv.1 == k)).map Prod.snd

/-- `m.set(k, v)`: an existing key keeps its position, a new key goes last. -/
def JSMap.set {β : Type} (m : JSMap β) (k : String) (v : β) : JSMap β :=
  if JSMap.has m k then m.map (fun kv => if kv.1 == k then (k, v) else kv)
  else m ++ [(k, v)]

/-- `m.delete(k)`. -/
def JSMap.delete {β : Type} (m : JSMap β) (k : String) : JSMap β :=
  m.filter (fun kv => kv.1 != k)

/-! ## Rate tracker (src/utils/cleanup.js) -/

/-- One recorded send, `{ timestamp: now }`: milliseconds since the epoch. -/
structure Entry where
  timestamp : Int
deriving DecidableEq, Repr

/-- The `messageCounts` map: per username, the array of recorded sends. -/
abbrev MessageCounts := JSMap (List Entry)

/-- The horizon `5 * 60 * 1000` milliseconds. -/
def FIVE_MINUTES : Int := 5 * 60 * 1000

/-- The predicate `entry => entry.timestamp >= fiveMinutesAgo`. -/
def isRecent (fiveMinutesAgo : Int) (entry : Entry) : Bool :=
  decide (entry.timestamp ≥ fiveMinutesAgo)

/-- Function `calculateLifetime(username, messageCounts)` with `Date.now()` passed in
as `now`; returns the lifetime in seconds and the updated map. -/
def calculateLifetime (username : String) (messageCounts : MessageCounts) (now : Int) :
    Nat × MessageCounts :=
  let fiveMinutesAgo := now - FIVE_MINUTES
  -- Get or initialize message counts for this user
  let messageCounts :=
    if !JSMap.has messageCounts username then JSMap.set messageCounts username []
    else messageCounts
  let userMessages := (JSMap.get messageCounts username).getD []
  -- Filter messages from last 5 minutes
  let recentMessages := userMessages.filter (isRecent fiveMinutesAgo)
  -- Count messages sent in last 5 minutes
  let messagesSentLast5Min := recentMessages.length
  -- Add current message timestamp
  let recentMessages := recentMessages ++ [{ timestamp := now }]
  -- Update stored message counts (only keep last 5 minutes worth)
  let messageCounts := JSMap.set messageCounts username recentMessages
  (lifetimeOfCount messagesSentLast5Min, messageCounts)

/-- Successive calls of `calculateLifetime` for one sender at the instants `nows`:
the lifetimes returned, in call order, and the final map. -/
def calculateLifetimes (username : String) :
    MessageCounts → List Int → List Nat × MessageCounts
  | messageCounts, [] => ([], messageCounts)
  | messageCounts, now :: rest =>
    let first := calculateLifetime username messageCounts now
    let others := calculateLifetimes username first.2 rest
    (first.1 :: others.1, others.2)

/-- The `forEach` callback inside `startCleanup`, applied to the map `acc` for the
visited entry `(username, entries)`. -/
def cleanupEntry (fiveMinutesAgo : Int) (acc : MessageCounts)
    (visited : String × List Entry) : MessageCounts :=
  let filtered := visited.2.filter (isRecent fiveMinutesAgo)
  if filtered.length = 0 then JSMap.delete acc visited.1
  else JSMap.set acc visited.1 filtered

/-- One run of the interval callback of `startCleanup(messageCounts)` at `now`.
`forEach` visits the entries in insertion order; the callback only deletes or
overwrites the entry being visited, so every original entry is visited once with
its original value. -/
def startCleanup (messageCounts : MessageCounts) (now : Int) : MessageCounts :=
  let fiveMinutesAgo := now - FIVE_MINUTES
  messageCounts.foldl (cleanupEntry fiveMinutesAgo) messageCounts

/-- Contract of section 4.2 in the spec's words:
`seconds = floor(max(1, BASE / (1 + recentCount/10)))` in exact arithmetic. -/
def specLifetime (recentCount : Nat) : Int :=
  ⌊max (1 : ℚ) (600 / (1 + (recentCount : ℚ) / 10))⌋

/-- The sender's stored window (`[]` when the sender has none). -/
def windowOf (messageCounts : MessageCounts) (username : String) : List Entry :=
  (JSMap.get messageCounts username).getD []

/-- Number of the sender's stored timestamps within the trailing five minutes. -/
def recentCount (messageCounts : MessageCounts) (username : String) (now : Int) : Nat :=
  ((windowOf messageCounts username).filter (isRecent (now - FIVE_MINUTES))).length

/-- What one visit of the sweep leaves of an entry: nothing when no timestamp is
recent, otherwise the entry with its recent timestamps. -/
def sweptEntry (fiveMinutesAgo : Int) (visited : String × List Entry) :
    Option (String × List Entry) :=
  if (visited.2.filter (isRecent fiveMinutesAgo)).length = 0 then none
  else some (visited.1, visited.2.filter (isRecent fiveMinutesAgo))

/-- A small activity map: one stale sender, one sender with a stale and a recent
send, one sender with an empty window. -/
def sampleCounts : MessageCounts :=
  [("bob", [⟨5⟩]), ("al", [⟨1⟩, ⟨700000⟩]), ("c", [])]

/-! ## Strings and buffers

A JavaScript string is a sequence of UTF-16 code units (each below `65536`); a
`Buffer` is a sequence of bytes (each below `256`). -/

/-- JavaScript string: its UTF-16 code units. -/
abbrev JSString := List Nat

/-- Node `Buffer`: its bytes. -/
abbrev Buffer := List Nat

/-- Every element is a byte. -/
def Buffer.Valid (b : Buffer) : Prop := ∀ x ∈ b, x < 256

/-- High (leading) surrogate code unit. -/
def isHighSurrogate (u : Nat) : Bool := decide (0xD800 ≤ u ∧ u < 0xDC00)

/-- Low (trailing) surrogate code unit. -/
def isLowSurrogate (u : Nat) : Bool := decide (0xDC00 ≤ u ∧ u < 0xE000)

/-- Well-formed UTF-16: 16-bit code units, every surrogate part of a high-low pair. -/
def wellFormed : JSString → Bool
  | [] => true
  | u :: rest =>
    if isHighSurrogate u then
      match rest with
      | l :: rest2 => isLowSurrogate l && wellFormed rest2
      | [] => false
    else !isLowSurrogate u && decide (u < 0x10000) && wellFormed rest

/-- The three bytes of U+FFFD, written in place of an unpaired surrogate. -/
def replacementBytes : Buffer := [0xEF, 0xBF, 0xBD]

/-- The bytes Node writes for a string under the `'utf8'` encoding
(`Buffer.from(s, 'utf8')`, `cipher.update(s, 'utf8')`): a surrogate pair gives the
four bytes of its code point, an unpaired surrogate gives U+FFFD. -/
def utf8Encode : JSString → Buffer
  | [] => []
  | u :: rest =>
    let tail := fun (_ : Unit) => utf8Encode rest
    if u < 0x80 then u :: tail ()
    else if u < 0x800 then (0xC0 + u / 64) :: (0x80 + u % 64) :: tail ()
    else if isHighSurrogate u then
      match rest with
      | l :: rest2 =>
        if isLowSurrogate l then
          let cp := 0x10000 + (u - 0xD800) * 1024 + (l - 0xDC00)
          (0xF0 + cp / 262144) :: (0x80 + cp / 4096 % 64) :: (0x80 + cp / 64 % 64)
            :: (0x80 + cp % 64) :: utf8Encode rest2
        else replacementBytes ++ tail ()
      | [] => replacementBytes
    else if isLowSurrogate u then replacementBytes ++ tail ()
    else (0xE0 + u / 4096) :: (0x80 + u / 64 % 64) :: (0x80 + u % 64) :: tail ()

/-- UTF-8 continuation byte. -/
def isContinuation (b : Nat) : Bool := decide (0x80 ≤ b ∧ b < 0xC0)

/-- The string Node reads from bytes under the `'utf8'` encoding
(`decipher.update(.., 'utf8') + decipher.final('utf8')`): well-formed sequences give
their code point, a byte that starts no well-formed sequence gives U+FFFD. -/
def utf8Decode : Buffer → JSString
  | [] => []
  | b0 :: rest =>
    let tail := fun (_ : Unit) => utf8Decode rest
    if b0 < 0x80 then b0 :: tail ()
    else if 0xC2 ≤ b0 ∧ b0 < 0xE0 then
      match rest with
      | b1 :: rest1 =>
        if isContinuation b1 then ((b0 - 0xC0) * 64 + (b1 - 0x80)) :: utf8Decode rest1
        else 0xFFFD :: tail ()
      | [] => [0xFFFD]
    else if 0xE0 ≤ b0 ∧ b0 < 0xF0 then
      match rest with
      | b1 :: b2 :: rest2 =>
        let cp := (b0 - 0xE0) * 4096 + (b1 - 0x80) * 64 + (b2 - 0x80)
        if isContinuation b1 ∧ isContinuation b2 ∧ 0x800 ≤ cp
            ∧ ¬ (0xD800 ≤ cp ∧ cp < 0xE000) then
          cp :: utf8Decode rest2
        else 0xFFFD :: tail ()
      | _ => 0xFFFD :: tail ()
    else if 0xF0 ≤ b0 ∧ b0 < 0xF5 then
      match rest with
      | b1 :: b2 :: b3 :: rest3 =>
        let cp := (b0 - 0xF0) * 262144 + (b1 - 0x80) * 4096 + (b2 - 0x80) * 64 + (b3 - 0x80)
        if isContinuation b1 ∧ isContinuation b2 ∧ isContinuation b3
            ∧ 0x10000 ≤ cp ∧ cp < 0x110000 then
          (0xD800 + (cp - 0x10000) / 1024) :: (0xDC00 + (cp - 0x10000) % 1024)
            :: utf8Decode rest3
        else 0xFFFD :: tail ()
      | _ => 0xFFFD :: tail ()
    else 0xFFFD :: tail ()

/-- The base64 digit for a 6-bit value: `A-Z`, `a-z`, `0-9`, `+`, `/`. -/
def base64Char (v : Nat) : Nat :=
  if v < 26 then 65 + v
  else if v < 52 then 97 + (v - 26)
  else if v < 62 then 48 + (v - 52)
  else if v = 62 then 43
  else 47

/-- The 6-bit value of a base64 digit; Node also reads the URL-safe digits `-` and
`_`.  `none` for any other code unit. -/
def base64Value (c : Nat) : Option Nat :=
  if 65 ≤ c ∧ c ≤ 90 then some (c - 65)
  else if 97 ≤ c ∧ c ≤ 122 then some (c - 71)
  else if 48 ≤ c ∧ c ≤ 57 then some (c + 4)
  else if c = 43 ∨ c = 45 then some 62
  else if c = 47 ∨ c = 95 then some 63
  else none

/-- Text of a buffer under the `'base64'` encoding (`buf.toString('base64')`):
three bytes give four digits, a short tail is padded with `=`. -/
def toBase64 : Buffer → JSString
  | a :: b :: c :: rest =>
    base64Char (a / 4) :: base64Char (a % 4 * 16 + b / 16)
      :: base64Char (b % 16 * 4 + c / 64) :: base64Char (c % 64) :: toBase64 rest
  | [a, b] =>
    [base64Char (a / 4), base64Char (a % 4 * 16 + b / 16), base64Char (b % 16 * 4), 61]
  | [a] => [base64Char (a / 4), base64Char (a % 4 * 16), 61, 61]
  | [] => []

/-- The 6-bit values Node's decoder reads from a string: it stops at the first `=`
and skips every code unit that is not a base64 digit. -/
def base64Digits : JSString → List Nat
  | [] => []
  | c :: rest =>
    if c = 61 then []
    else
      match base64Value c with
      | some v => v :: base64Digits rest
      | none => base64Digits rest

/-- Bytes of a sequence of 6-bit values: four values give three bytes, two or three
trailing values give one or two bytes. -/
def bytesOfDigits : List Nat → Buffer
  | w :: x :: y :: z :: rest =>
    (w * 4 + x / 16) :: (x % 16 * 16 + y / 4) :: (y % 4 * 64 + z) :: bytesOfDigits rest
  | [w, x, y] => [w * 4 + x / 16, x % 16 * 16 + y / 4]
  | [w, x] => [w * 4 + x / 16]
  | _ => []

/-- Bytes of a string under the `'base64'` encoding (`Buffer.from(s, 'base64')`);
never throws. -/
def fromBase64 (s : JSString) : Buffer := bytesOfDigits (base64Digits s)

/-- JavaScript `s.split(sep)` for a one-unit separator. -/
def split (sep : Nat) : JSString → List JSString
  | [] => [[]]
  | c :: rest =>
    if c = sep then [] :: split sep rest
    else
      match split sep rest with
      | part :: parts => (c :: part) :: parts
      | [] => [[c]]

/-! ## Cipher (src/utils/encrypt.js) -/

/-- Source constant `KEY_LENGTH`: 256 bits. -/
def KEY_LENGTH : Nat := 32

/-- Source constant `IV_LENGTH`: 128 bits. -/
def IV_LENGTH : Nat := 16

/-- The code unit of `':'`. -/
def COLON : Nat := 58

/-- The ways OpenSSL rejects data in `decipher.update` and `decipher.final`. -/
inductive CipherFailure where
  | badDecrypt
  | wrongFinalBlockLength
deriving DecidableEq, Repr

/-- The message of the error Node throws for an OpenSSL rejection. -/
def CipherFailure.message : CipherFailure → String
  | .badDecrypt => "error:1C800064:Provider routines::bad decrypt"
  | .wrongFinalBlockLength => "error:1C80006B:Provider routines::wrong final block length"

/-- The block cipher behind `crypto.createCipheriv('aes-256-cbc', key, iv)` and
`crypto.createDecipheriv`: OpenSSL's AES-256 in CBC mode with PKCS#7 padding, taken
as given.  `encrypt key iv data` is the output of `update(data)` followed by
`final()`; `decrypt` is the same for a decipher and may be rejected. -/
structure BlockCipher where
  encrypt : Buffer → Buffer → Buffer → Buffer
  decrypt : Buffer → Buffer → Buffer → Except CipherFailure Buffer

/-- What is assumed of the block cipher: under a 32-byte key and a 16-byte IV a
ciphertext is a byte sequence and decrypts to the data it was made from. -/
def BlockCipher.Lawful (aes : BlockCipher) : Prop :=
  ∀ key iv data, key.length = KEY_LENGTH → iv.length = IV_LENGTH →
    Buffer.Valid key → Buffer.Valid iv → Buffer.Valid data →
    Buffer.Valid (aes.encrypt key iv data) ∧
    aes.decrypt key iv (aes.encrypt key iv data) = .ok data

/-- The argument checks of `createCipheriv` and `createDecipheriv` for
`aes-256-cbc`: Node throws on a key that is not 32 bytes or an IV that is not 16. -/
def checkCipherArgs (keyBuffer iv : Buffer) : Except String Unit :=
  if keyBuffer.length ≠ KEY_LENGTH then .error "Invalid key length"
  else if iv.length ≠ IV_LENGTH then .error "Invalid initialization vector"
  else .ok ()

/-- Function `generateKey()`, with the bytes drawn by `crypto.randomBytes(KEY_LENGTH)`
passed in. -/
def generateKey (randomBytes : Buffer) : JSString := toBase64 randomBytes

/-- The `try` block of `encryptMessage`; an `error` is the message of the error
thrown inside it. -/
def encryptMessageTry (aes : BlockCipher) (text key : JSString) (iv : Buffer) :
    Except String JSString :=
  -- Convert key from base64 to buffer
  let keyBuffer := fromBase64 key
  -- Create cipher
  match checkCipherArgs keyBuffer iv with
  | .error message => .error message
  | .ok () =>
    -- Encrypt the message
    let encrypted := toBase64 (aes.encrypt keyBuffer iv (utf8Encode text))
    -- Combine IV and encrypted data (IV:encrypted)
    let result := toBase64 iv ++ COLON :: encrypted
    .ok result

/-- Function `encryptMessage(text, key)`, with the bytes drawn by
`crypto.randomBytes(IV_LENGTH)` passed in as `iv`.  An `error` result is the message
of the `Error` thrown. -/
def encryptMessage (aes : BlockCipher) (text key : JSString) (iv : Buffer) :
    Except String JSString :=
  match encryptMessageTry aes text key iv with
  | .ok result => .ok result
  | .error message => .error ("Encryption failed: " ++ message)

/-- The `try` block of `decryptMessage`; an `error` is the message of the error
thrown inside it. -/
def decryptMessageTry (aes : BlockCipher) (encryptedData key : JSString) :
    Except String JSString :=
  -- Convert key from base64 to buffer
  let keyBuffer := fromBase64 key
  -- Split IV and encrypted data
  let parts := split COLON encryptedData
  if parts.length ≠ 2 then .error "Invalid encrypted data format"
  else
    let iv := fromBase64 (parts.getD 0 [])
    let encrypted := parts.getD 1 []
    -- Create decipher
    match checkCipherArgs keyBuffer iv with
    | .error message => .error message
    | .ok () =>
      -- Decrypt the message
      match aes.decrypt keyBuffer iv (fromBase64 encrypted) with
      | .error failure => .error failure.message
      | .ok decrypted => .ok (utf8Decode decrypted)

/-- Function `decryptMessage(encryptedData, key)`.  An `error` result is the message
of the `Error` thrown. -/
def decryptMessage (aes : BlockCipher) (encryptedData key : JSString) :
    Except String JSString :=
  match decryptMessageTry aes encryptedData key with
  | .ok decrypted => .ok decrypted
  | .error message => .error ("Decryption failed: " ++ message)

/-- The message of the error `decryptMessage` raises for an envelope that is not two
`':'`-separated parts. -/
def malformedEnvelopeError : String := "Decryption failed: Invalid encrypted data format"

/-- A stand-in block cipher for evaluating the model on concrete inputs: it appends a
marker byte, shifts every byte by the sum of the key and IV bytes modulo 256, and on
decryption rejects data whose marker is wrong. -/
def toyCipher : BlockCipher where
  encrypt key iv data := (data ++ [1]).map (fun b => (b + (key.sum + iv.sum)) % 256)
  decrypt key iv data :=
    match (data.map (fun c => (c + 256 - (key.sum + iv.sum) % 256) % 256)).reverse with
    | [] => .error .wrongFinalBlockLength
    | marker :: revData =>
      if marker = 1 then .ok revData.reverse else .error .badDecrypt

/-- Thirty-two key bytes for examples. -/
def sampleKeyBytes : Buffer := List.replicate 32 7

/-- Sixteen IV bytes for examples. -/
def sampleIV : Buffer := List.replicate 16 9

/-- The text `"hé€"` followed by the surrogate pair of U+1F600. -/
def sampleText : JSString := [0x68, 0xE9, 0x20AC, 0xD83D, 0xDE00]

/-! ## Message store and expiry (src/server.js) -/

/-- A document of `messagesDb`.  `id` is the `_id` the datastore assigns; `createdAt`
is the `Date`, in milliseconds since the epoch; `lifetime` is in seconds. -/
structure Message where
  id : String
  username : String
  encryptedContent : JSString
  encryptionKey : JSString
  createdAt : Int
  lifetime : Nat
deriving DecidableEq, Repr

/-- Contents of `messagesDb`, in the order `find({})` returns them. -/
abbrev MessagesDb := List Message

/-- Ids are unique: the invariant the datastore keeps for `_id`. -/
def MessagesDb.WF (db : MessagesDb) : Prop := (db.map (fun msg => msg.id)).Nodup

/-- `expiresAt`: `new Date(createdAt.getTime() + msg.lifetime * 1000)`, in
milliseconds. -/
def expiresAt (createdAt : Int) (lifetime : Nat) : Int := createdAt + lifetime * 1000

/-- `remaining` of the read path (`GET /api/messages`, and `startMessageTimer` in the
client): `Math.max(0, Math.floor((expiresAt - now) / 1000))`. -/
def remainingSeconds (createdAt : Int) (lifetime : Nat) (now : Int) : Int :=
  max 0 (floorDiv (expiresAt createdAt lifetime - now) 1000)

/-- `remaining` of the periodic cleanup: `Math.floor((expiresAt - now) / 1000)`. -/
def sweepRemaining (msg : Message) (now : Int) : Int :=
  floorDiv (expiresAt msg.createdAt msg.lifetime - now) 1000

/-- `messagesDb.remove({ _id: id }, {}, callback)` when it succeeds. -/
def MessagesDb.remove (db : MessagesDb) (id : String) : MessagesDb :=
  db.filter (fun msg => msg.id != id)

/-- The errors the datastore reports during one sweep: whether `find` fails, and the
ids whose `remove` fails. -/
structure DbFaults where
  findFails : Bool
  removeFails : String → Bool

/-- A datastore that reports no error. -/
def DbFaults.none : DbFaults := { findFails := false, removeFails := fun _ => false }

/-- What one sweep has done so far: the store, and the ids whose `message-expired`
notification has been sent, oldest first. -/
structure SweepState where
  db : MessagesDb
  expired : List String
deriving DecidableEq, Repr

/-- The `forEach` callback of the periodic cleanup for one message of the `find`
result: an expired message is removed and, when the removal reported no error,
announced. -/
def sweepMessage (faults : DbFaults) (now : Int) (state : SweepState) (msg : Message) :
    SweepState :=
  let remaining := sweepRemaining msg now
  -- If message expired, delete it and notify clients
  if remaining ≤ 0 then
    if faults.removeFails msg.id then state
    else { db := MessagesDb.remove state.db msg.id, expired := state.expired ++ [msg.id] }
  else state

/-- One run of the periodic cleanup (the `setInterval` callback) at `now`. -/
def expirySweep (faults : DbFaults) (db : MessagesDb) (now : Int) : SweepState :=
  if faults.findFails then { db := db, expired := [] }
  else db.foldl (sweepMessage faults now) { db := db, expired := [] }

/-- A message created at instant 0 with a lifetime of one second. -/
def sampleMessage : Message :=
  { id := "m1", username := "alice", encryptedContent := [], encryptionKey := [],
    createdAt := 0, lifetime := 1 }

/-- A message created at instant 0 with a lifetime of ten minutes. -/
def sampleLongMessage : Message :=
  { id := "m2", username := "bob", encryptedContent := [], encryptionKey := [],
    createdAt := 0, lifetime := 600 }

/-- The document the chat handler hands to `messagesDb.insert` (the datastore adds
`_id`). -/
structure NewMessage where
  username : String
  encryptedContent : JSString
  encryptionKey : JSString
  createdAt : Int
  lifetime : Nat
deriving DecidableEq, Repr

/-- Lines 480-498 of the chat handler for an authenticated `username` and a text
string: lifetime, key, envelope and the document to insert.  `now` is the
`Date.now()` read by `calculateLifetime`, `createdAt` the later `new Date()`,
`keyBytes` and `iv` the random bytes drawn.  The activity map is updated even when
the encryption throws. -/
def chatNewMessage (aes : BlockCipher) (username : String) (text : JSString)
    (messageCounts : MessageCounts) (now createdAt : Int) (keyBytes iv : Buffer) :
    MessageCounts × Except String NewMessage :=
  -- Calculate lifetime based on message count
  let sent := calculateLifetime username messageCounts now
  let lifetime := sent.1
  -- Generate encryption key for this message
  let encryptionKey := generateKey keyBytes
  -- Encrypt message
  match encryptMessage aes text encryptionKey iv with
  | .error message => (sent.2, .error message)
  | .ok encryptedContent =>
    -- Store message in database
    (sent.2, .ok { username := username, encryptedContent := encryptedContent,
                   encryptionKey := encryptionKey, createdAt := createdAt,
                   lifetime := lifetime })

/-! ## Broadcast hub (src/server.js) -/

/-- A WebSocket connection object `ws`, named by a number. -/
abbrev ChannelId := Nat

/-- The constant `WebSocket.OPEN`. -/
def WebSocket.OPEN : Nat := 1

/-- The constant `WebSocket.CLOSED`. -/
def WebSocket.CLOSED : Nat := 3

/-- The payloads the server sends with `ws.send(JSON.stringify(..))`. -/
inductive ServerEvent where
  | authSuccess (username : String)
  | error (message : String)
  | newMessage (id : String) (username : String) (message : JSString) (createdAt : Int)
      (lifetime : Nat) (expiresAt : Int) (remaining : Nat)
  | messageExpired (id : String)
deriving DecidableEq, Repr

/-- One call of `send` on a connection. -/
abbrev Delivery := ChannelId × ServerEvent

/-- The map `activeConnections`: per username, the `Set` of its connections.  A `Set`
keeps its elements in insertion order. -/
abbrev ActiveConnections := JSMap (List ChannelId)

/-- `set.add(ws)`: an element already present is not added again. -/
def JSSet.add (set : List ChannelId) (ws : ChannelId) : List ChannelId :=
  if set.contains ws then set else set ++ [ws]

/-- `set.delete(ws)`. -/
def JSSet.delete (set : List ChannelId) (ws : ChannelId) : List ChannelId :=
  set.filter (fun client => client != ws)

/-- The broadcast loop of lines 525-532 and 585-591: `activeConnections.forEach` over
the usernames, `connections.forEach` over each set, `client.send` when
`client.readyState === WebSocket.OPEN`.  Returns the sends in order. -/
def broadcast (activeConnections : ActiveConnections) (readyState : ChannelId → Nat)
    (event : ServerEvent) : List Delivery :=
  activeConnections.flatMap (fun entry =>
    (entry.2.filter (fun client => readyState client == WebSocket.OPEN)).map
      (fun client => (client, event)))

/-- Every connection of the registry, once per username it is registered under. -/
def registrations (activeConnections : ActiveConnections) : List ChannelId :=
  activeConnections.flatMap (fun entry => entry.2)

/-! ## WebSocket handlers (src/server.js, `wss.on('connection')`) -/

/-- The state the handlers work on: the three global stores and, per connection, the
closure variable `username` (`none` is `null`). -/
structure Server where
  messageCounts : MessageCounts
  activeConnections : ActiveConnections
  messagesDb : MessagesDb
  username : ChannelId → Option String

/-- The server before any connection. -/
def Server.init : Server :=
  { messageCounts := [], activeConnections := [], messagesDb := [], username := fun _ => none }

/-- What the handler sees of `JSON.parse(data.toString())`: the parse throwing, the
value `null` (reading `message.type` throws), an object of type `'auth'` with a
string username, an object of type `'chat'` with its `text` when that is a string,
or any other value (a number, string, boolean or array, or an object of another
type).  An `'auth'` whose username is not a string is outside the model. -/
inductive Parsed where
  | syntaxError
  | null
  | auth (username : String)
  | chat (text : Option JSString)
  | other
deriving DecidableEq, Repr

/-- What a chat message draws from outside the handler: the two clock readings, the
random bytes, and the outcome of `messagesDb.insert` (`none` for an error, else the
`_id` given to the document). -/
structure ChatInputs where
  now : Int
  createdAt : Int
  keyBytes : Buffer
  iv : Buffer
  insertResult : Option String

/-- JavaScript truthiness of the closure variable `username`. -/
def truthy : Option String → Bool
  | some username => username != ""
  | none => false

/-- The `'auth'` branch of the message handler (lines 467-476). -/
def onAuth (ws : ChannelId) (username : String) (server : Server) : Server × List Delivery :=
  let activeConnections :=
    if !JSMap.has server.activeConnections username then
      JSMap.set server.activeConnections username []
    else server.activeConnections
  let connections := (JSMap.get activeConnections username).getD []
  let activeConnections := JSMap.set activeConnections username (JSSet.add connections ws)
  ({ server with
      username := Function.update server.username ws (some username),
      activeConnections := activeConnections },
    [(ws, .authSuccess username)])

/-- The `'chat'` branch of the message handler (lines 478-536) for a connection whose
`username` is truthy.  A `text` that is not a string makes `encryptMessage` throw
after `calculateLifetime` has run; the handler's `catch` then reports to the sender. -/
def onChat (aes : BlockCipher) (readyState : ChannelId → Nat) (inputs : ChatInputs)
    (ws : ChannelId) (username : String) (text : Option JSString) (server : Server) :
    Server × List Delivery :=
  match text with
  | none =>
    ({ server with
        messageCounts := (calculateLifetime username server.messageCounts inputs.now).2 },
      [(ws, .error "Invalid message format")])
  | some text =>
    let built := chatNewMessage aes username text server.messageCounts inputs.now
      inputs.createdAt inputs.keyBytes inputs.iv
    match built.2 with
    | .error _ =>
      ({ server with messageCounts := built.1 }, [(ws, .error "Invalid message format")])
    | .ok newMessage =>
      match inputs.insertResult with
      | none =>
        ({ server with messageCounts := built.1 }, [(ws, .error "Failed to send message")])
      | some id =>
        let insertedMessage : Message :=
          { id := id, username := newMessage.username,
            encryptedContent := newMessage.encryptedContent,
            encryptionKey := newMessage.encryptionKey,
            createdAt := newMessage.createdAt, lifetime := newMessage.lifetime }
        -- Broadcast to all connected clients
        let messageToSend := ServerEvent.newMessage id username text
          insertedMessage.createdAt newMessage.lifetime
          (expiresAt insertedMessage.createdAt newMessage.lifetime) newMessage.lifetime
        ({ server with
            messageCounts := built.1,
            messagesDb := server.messagesDb ++ [insertedMessage] },
          broadcast server.activeConnections readyState messageToSend)

/-- The handler `ws.on('message')` of connection `ws` (lines 463-541). -/
def onMessage (aes : BlockCipher) (readyState : ChannelId → Nat) (inputs : ChatInputs)
    (ws : ChannelId) (parsed : Parsed) (server : Server) : Server × List Delivery :=
  match parsed with
  | .syntaxError => (server, [(ws, .error "Invalid message format")])
  | .null => (server, [(ws, .error "Invalid message format")])
  | .auth username => onAuth ws username server
  | .chat text =>
    match server.username ws with
    | some username =>
      if truthy (some username) then onChat aes readyState inputs ws username text server
      else (server, [])
    | none => (server, [])
  | .other => (server, [])

/-- The handler `ws.on('close')` of connection `ws` (lines 543-551). -/
def onClose (ws : ChannelId) (server : Server) : Server :=
  match server.username ws with
  | some username =>
    if truthy (some username) && JSMap.has server.activeConnections username then
      let connections :=
        JSSet.delete ((JSMap.get server.activeConnections username).getD []) ws
      let activeConnections := JSMap.set server.activeConnections username connections
      if connections.length = 0 then
        { server with activeConnections := JSMap.delete activeConnections username }
      else { server with activeConnections := activeConnections }
    else server
  | none => server

/-- An event of the subscriber registry: a connection authenticates, or closes. -/
inductive HubEvent where
  | auth (ws : ChannelId) (username : String)
  | close (ws : ChannelId)
deriving DecidableEq, Repr

/-- The handler run for one registry event. -/
def hubStep (server : Server) : HubEvent → Server
  | .auth ws username => (onAuth ws username server).1
  | .close ws => onClose ws server

/-- The server after a sequence of registry events, starting with no connection. -/
def runHub (events : List HubEvent) : Server := events.foldl hubStep Server.init

/-! ## Expiry notifications (src/server.js, periodic cleanup) -/

/-- What the periodic cleanup does, in order: a document removed from the store, an
event sent on a connection. -/
inductive SweepEffect where
  | removed (id : String)
  | sent (channel : ChannelId) (event : ServerEvent)
deriving DecidableEq, Repr

/-- The `forEach` callback of the periodic cleanup with its notifications: an
expired message is removed and, in the callback of a removal that reported no
error, `message-expired` is broadcast. -/
def cleanupMessage (faults : DbFaults) (activeConnections : ActiveConnections)
    (readyState : ChannelId → Nat) (now : Int) (state : MessagesDb × List SweepEffect)
    (msg : Message) : MessagesDb × List SweepEffect :=
  let remaining := sweepRemaining msg now
  -- If message expired, delete it and notify clients
  if remaining ≤ 0 then
    if faults.removeFails msg.id then state
    else
      (MessagesDb.remove state.1 msg.id,
        state.2 ++ SweepEffect.removed msg.id ::
          (broadcast activeConnections readyState (.messageExpired msg.id)).map
            (fun delivery => SweepEffect.sent delivery.1 delivery.2))
  else state

/-- One run of the periodic cleanup at `now` with its notifications: the store
afterwards and the removals and sends in the order they happen. -/
def periodicCleanup (faults : DbFaults) (activeConnections : ActiveConnections)
    (readyState : ChannelId → Nat) (db : MessagesDb) (now : Int) :
    MessagesDb × List SweepEffect :=
  if faults.findFails then (db, [])
  else db.foldl (cleanupMessage faults activeConnections readyState now) (db, [])

/-- The sends among the effects of a sweep, in order. -/
def sentBy : List SweepEffect → List Delivery
  | [] => []
  | .sent channel event :: rest => (channel, event) :: sentBy rest
  | .removed _ :: rest => sentBy rest

/-! ## Initial load (src/server.js, `GET /api/messages`) -/

/-- An element of the response of `GET /api/messages`. -/
structure ActiveMessage where
  id : String
  username : String
  message : JSString
  createdAt : Int
  lifetime : Nat
  expiresAt : Int
  remaining : Int
deriving DecidableEq, Repr

/-- The `map` callback of `GET /api/messages` for one document, with the `new Date()`
it reads passed in as `now`; `none` is the `null` returned when `decryptMessage`
throws. -/
def viewMessage (aes : BlockCipher) (msg : Message) (now : Int) : Option ActiveMessage :=
  match decryptMessage aes msg.encryptedContent msg.encryptionKey with
  | .ok decrypted =>
    some { id := msg.id, username := msg.username, message := decrypted,
           createdAt := msg.createdAt, lifetime := msg.lifetime,
           expiresAt := expiresAt msg.createdAt msg.lifetime,
           remaining := remainingSeconds msg.createdAt msg.lifetime now }
  | .error _ => none

/-- The `filter` predicate of `GET /api/messages`: `msg !== null && msg.remaining > 0`. -/
def isActive (view : Option ActiveMessage) : Bool :=
  match view with
  | some active => decide (active.remaining > 0)
  | none => false

/-- The handler of `GET /api/messages` (`listActive`): `clock i` is the `new Date()`
read while mapping the `i`-th document.  An `error` is the body of the 500 response. -/
def listActive (aes : BlockCipher) (faults : DbFaults) (db : MessagesDb)
    (clock : Nat → Int) : Except String (List ActiveMessage) :=
  if faults.findFails then .error "Failed to fetch messages"
  else
    -- Decrypt messages and calculate remaining time
    let decryptedMessages :=
      (db.enum.map (fun indexed => viewMessage aes indexed.2 (clock indexed.1))).filter
        isActive
    .ok decryptedMessages.reduceOption

/-! ## Sample data -/

/-- Every connection is open. -/
def allOpen : ChannelId → Nat := fun _ => WebSocket.OPEN

/-- Three connections registered under three usernames. -/
def threeChannels : ActiveConnections := [("alice", [1]), ("bob", [2]), ("carol", [3])]

/-- The effects announcing the removed ids `ids`: each removal followed by the
broadcast of its `message-expired`. -/
def announcements (activeConnections : ActiveConnections) (readyState : ChannelId → Nat)
    (ids : List String) : List SweepEffect :=
  ids.flatMap (fun id => SweepEffect.removed id ::
    (broadcast activeConnections readyState (.messageExpired id)).map
      (fun delivery => SweepEffect.sent delivery.1 delivery.2))

/-- What `GET /api/messages` returns for one document read at `now`: nothing when
decryption throws or no whole second is left. -/
def activeView (aes : BlockCipher) (now : Int) (msg : Message) : Option ActiveMessage :=
  match viewMessage aes msg now with
  | some active => if active.remaining > 0 then some active else none
  | none => none

/-- A stored message whose envelope decrypts: `sampleText` under `sampleKeyBytes` and
`sampleIV`, created at instant 0 with a lifetime of ten minutes. -/
def sampleStored : Message :=
  { id := "m3", username := "alice",
    encryptedContent := toBase64 sampleIV ++ COLON ::
      toBase64 (toyCipher.encrypt sampleKeyBytes sampleIV (utf8Encode sampleText)),
    encryptionKey := generateKey sampleKeyBytes, createdAt := 0, lifetime := 600 }

/-- A datastore whose `remove` fails for the id `"m1"` only. -/
def failingRemove : DbFaults :=
  { findFails := false, removeFails := fun id => id == "m1" }

/-- A server with connection 1 authenticated as `alice` and connection 2 as `bob`. -/
def sampleServer : Server := runHub [.auth 1 "alice", .auth 2 "bob"]

/-- Inputs of a chat message whose insert fails. -/
def failingInsert : ChatInputs :=
  { now := 0, createdAt := 5, keyBytes := sampleKeyBytes, iv := sampleIV,
    insertResult := none }

/-- Sixteen other IV bytes for examples. -/
def sampleIV2 : Buffer := List.replicate 16 3

/-- Inputs of a chat message whose insert succeeds and gives the document the `_id`
"m9". -/
def sampleInputs : ChatInputs :=
  { now := 0, createdAt := 5, keyBytes := sampleKeyBytes, iv := sampleIV,
    insertResult := some "m9" }

/-! # Theorems -/

/-! ## Rounding lemmas -/

theorem bitLengthAux_pow_le (fuel n : Nat) (hn : n ≠ 0) :
    2 ^ bitLengthAux fuel n ≤ 2 * n := by
  induction fuel generalizing n with
  | zero => simp [bitLengthAux]; omega
  | succ f ih =>
    simp only [bitLengthAux, if_neg hn]
    by_cases h2 : n / 2 = 0
    · have h0 : bitLengthAux f (n / 2) = 0 := by
        rw [h2]; cases f <;> simp [bitLengthAux]
      rw [h0]; simp; omega
    · have := ih (n / 2) h2
      rw [Nat.pow_succ]; omega

theorem lt_pow_bitLengthAux (fuel n : Nat) (hn : n ≤ fuel) :
    n < 2 ^ bitLengthAux fuel n := by
  induction fuel generalizing n with
  | zero =>
    have : n = 0 := by omega
    subst this; simp [bitLengthAux]
  | succ f ih =>
    by_cases h0 : n = 0
    · subst h0; simp [bitLengthAux]
    · simp only [bitLengthAux, if_neg h0]
      have := ih (n / 2) (by omega)
      rw [Nat.pow_succ]; omega

theorem pow_bitLength_pred_le (n : Nat) (hn : n ≠ 0) : 2 ^ (bitLength n - 1) ≤ n := by
  have h := bitLengthAux_pow_le n n hn
  unfold bitLength
  rcases Nat.eq_zero_or_pos (bitLengthAux n n) with h0 | hpos
  · rw [h0]; simp; omega
  · have e : bitLengthAux n n = (bitLengthAux n n - 1) + 1 := by omega
    rw [e, Nat.pow_succ] at h
    omega

theorem lt_pow_bitLength (n : Nat) : n < 2 ^ bitLength n :=
  lt_pow_bitLengthAux n n (Nat.le_refl n)

theorem div_le_roundHalfEven (n d : Nat) : n / d ≤ roundHalfEven n d := by
  unfold roundHalfEven
  simp only
  split
  · exact Nat.le_refl _
  · split
    · exact Nat.le_succ _
    · split
      · exact Nat.le_refl _
      · exact Nat.le_succ _

theorem roundHalfEven_le (n d J : Nat) (hd : 0 < d) (h : n ≤ J * d) :
    roundHalfEven n d ≤ J := by
  have hq : n / d ≤ J := Nat.div_le_of_le_mul (by rw [Nat.mul_comm]; exact h)
  have hstep : 0 < n % d → n / d + 1 ≤ J := by
    intro hr
    have hlt : n / d < J := by
      by_contra hge
      have hJ : J = n / d := by omega
      have := Nat.div_add_mod n d
      rw [hJ, Nat.mul_comm] at h
      omega
    omega
  unfold roundHalfEven
  simp only
  split
  · exact hq
  · split
    · exact hstep (by omega)
    · split
      · exact hq
      · exact hstep (by omega)

theorem round_den_pos (n d : Nat) : 0 < (JSNumber.round n d).den := by
  unfold JSNumber.round
  split
  · exact Nat.one_pos
  · split <;> exact Nat.pos_pow_of_pos _ (by decide)

/-- Rounding never goes below an integer `K < 2^53` that the exact quotient reaches. -/
theorem round_ge (n d K : Nat) (hd : 0 < d) (hK : K < 2 ^ 53) (h : K * d ≤ n) :
    K * (JSNumber.round n d).den ≤ (JSNumber.round n d).num := by
  unfold JSNumber.round
  by_cases h0 : n = 0
  · have : K = 0 := by
      subst h0
      rcases Nat.eq_zero_or_pos K with hk | hk
      · exact hk
      · have := Nat.mul_pos hk hd; omega
    subst this; simp
  · rw [if_neg h0]
    by_cases hdn : d ≤ n
    · rw [if_pos hdn]
      simp only
      have hq : n / d ≠ 0 := by
        have := Nat.div_pos hdn hd; omega
      have he := pow_bitLength_pred_le (n / d) hq
      generalize bitLength (n / d) - 1 = e at he
      have hde : d * 2 ^ e ≤ n :=
        le_trans (Nat.mul_le_mul_left d he) (Nat.mul_div_le n d)
      have hpe : 0 < 2 ^ e := Nat.pos_pow_of_pos _ (by decide)
      have hm := div_le_roundHalfEven (n * 2 ^ 52) (d * 2 ^ e)
      rcases le_or_lt e 52 with hle | hgt
      · -- the bound is an integer at this scale
        have hJ : K * 2 ^ (52 - e) ≤ n * 2 ^ 52 / (d * 2 ^ e) := by
          rw [Nat.le_div_iff_mul_le (Nat.mul_pos hd hpe)]
          have e52 : 2 ^ 52 = 2 ^ (52 - e) * 2 ^ e := by
            rw [← Nat.pow_add]; congr 1; omega
          calc K * 2 ^ (52 - e) * (d * 2 ^ e) = (K * d) * (2 ^ (52 - e) * 2 ^ e) := by ring
            _ = (K * d) * 2 ^ 52 := by rw [← e52]
            _ ≤ n * 2 ^ 52 := Nat.mul_le_mul_right _ h
        have e52 : 2 ^ 52 = 2 ^ (52 - e) * 2 ^ e := by
          rw [← Nat.pow_add]; congr 1; omega
        calc K * 2 ^ 52 = K * 2 ^ (52 - e) * 2 ^ e := by rw [e52]; ring
          _ ≤ roundHalfEven (n * 2 ^ 52) (d * 2 ^ e) * 2 ^ e :=
            Nat.mul_le_mul_right _ (le_trans hJ hm)
      · -- the significand alone already exceeds the bound
        have h52 : 2 ^ 52 ≤ n * 2 ^ 52 / (d * 2 ^ e) := by
          rw [Nat.le_div_iff_mul_le (Nat.mul_pos hd hpe)]
          calc 2 ^ 52 * (d * 2 ^ e) = (d * 2 ^ e) * 2 ^ 52 := by ring
            _ ≤ n * 2 ^ 52 := Nat.mul_le_mul_right _ hde
        have hKe : K ≤ 2 ^ e := by
          have : 2 ^ 53 ≤ 2 ^ e := Nat.pow_le_pow_right (by decide) hgt
          omega
        calc K * 2 ^ 52 ≤ 2 ^ e * 2 ^ 52 := Nat.mul_le_mul_right _ hKe
          _ = 2 ^ 52 * 2 ^ e := by ring
          _ ≤ roundHalfEven (n * 2 ^ 52) (d * 2 ^ e) * 2 ^ e :=
            Nat.mul_le_mul_right _ (le_trans h52 hm)
    · rw [if_neg hdn]
      have : K = 0 := by
        rcases Nat.eq_zero_or_pos K with hk | hk
        · exact hk
        · have : d ≤ K * d := Nat.le_mul_of_pos_left d hk
          omega
      subst this; simp

/-- Rounding never goes above an integer `K < 2^53` that bounds the exact quotient. -/
theorem round_le (n d K : Nat) (hd : 0 < d) (hK : K < 2 ^ 53) (h : n ≤ K * d) :
    (JSNumber.round n d).num ≤ K * (JSNumber.round n d).den := by
  unfold JSNumber.round
  by_cases h0 : n = 0
  · rw [if_pos h0]; simp
  · rw [if_neg h0]
    by_cases hdn : d ≤ n
    · rw [if_pos hdn]
      simp only
      have hq : n / d ≠ 0 := by
        have := Nat.div_pos hdn hd; omega
      have he := pow_bitLength_pred_le (n / d) hq
      generalize bitLength (n / d) - 1 = e at he
      have hde : d * 2 ^ e ≤ n :=
        le_trans (Nat.mul_le_mul_left d he) (Nat.mul_div_le n d)
      have hpe : 0 < 2 ^ e := Nat.pos_pow_of_pos _ (by decide)
      have hle : e ≤ 52 := by
        by_contra hgt
        have h53 : 2 ^ 53 ≤ 2 ^ e := Nat.pow_le_pow_right (by decide) (by omega)
        have h1 : d * 2 ^ 53 ≤ d * 2 ^ e := Nat.mul_le_mul_left d h53
        have h2 : K * d < 2 ^ 53 * d := Nat.mul_lt_mul_of_pos_right hK hd
        have h3 : d * 2 ^ 53 = 2 ^ 53 * d := Nat.mul_comm _ _
        omega
      have e52 : 2 ^ 52 = 2 ^ (52 - e) * 2 ^ e := by
        rw [← Nat.pow_add]; congr 1; omega
      have hm : roundHalfEven (n * 2 ^ 52) (d * 2 ^ e) ≤ K * 2 ^ (52 - e) := by
        apply roundHalfEven_le _ _ _ (Nat.mul_pos hd hpe)
        calc n * 2 ^ 52 ≤ (K * d) * 2 ^ 52 := Nat.mul_le_mul_right _ h
          _ = (K * d) * (2 ^ (52 - e) * 2 ^ e) := by rw [← e52]
          _ = K * 2 ^ (52 - e) * (d * 2 ^ e) := by ring
      calc roundHalfEven (n * 2 ^ 52) (d * 2 ^ e) * 2 ^ e
          ≤ K * 2 ^ (52 - e) * 2 ^ e := Nat.mul_le_mul_right _ hm
        _ = K * 2 ^ 52 := by rw [e52]; ring
    · rw [if_neg hdn]
      simp only
      apply roundHalfEven_le _ _ _ hd
      calc n * 2 ^ (52 + bitLength ((d - 1) / n))
          ≤ (K * d) * 2 ^ (52 + bitLength ((d - 1) / n)) := Nat.mul_le_mul_right _ h
        _ = K * 2 ^ (52 + bitLength ((d - 1) / n)) * d := by ring

/-! ## Accuracy of the rounding step -/

/-- The rounded quotient is within one half of the exact quotient. -/
theorem roundHalfEven_near (n d : Nat) (hd : 0 < d) :
    2 * n ≤ 2 * (roundHalfEven n d * d) + d ∧ 2 * (roundHalfEven n d * d) ≤ 2 * n + d := by
  have hdm := Nat.div_add_mod n d
  have hr := Nat.mod_lt n hd
  have hq : n / d * d = d * (n / d) := Nat.mul_comm _ _
  have hq1 : (n / d + 1) * d = d * (n / d) + d := by ring
  unfold roundHalfEven
  simp only
  split
  · rw [hq]; omega
  · split
    · rw [hq1]; omega
    · split
      · rw [hq]; omega
      · rw [hq1]; omega

theorem le_mul_pow_bitLength (n d : Nat) (hn : 0 < n) :
    d ≤ n * 2 ^ bitLength ((d - 1) / n) := by
  have h := lt_pow_bitLength ((d - 1) / n)
  generalize 2 ^ bitLength ((d - 1) / n) = p at h
  have h1 : (d - 1) / n + 1 ≤ p := h
  have h2 : d - 1 < n * ((d - 1) / n + 1) := by
    have := Nat.div_add_mod (d - 1) n
    have := Nat.mod_lt (d - 1) hn
    rw [Nat.mul_add, Nat.mul_one]
    omega
  have h3 : n * ((d - 1) / n + 1) ≤ n * p := Nat.mul_le_mul_left n h1
  omega

/-- The standard model of binary64 arithmetic: the rounded value `r` of `n / d`
satisfies `|r - n/d| <= 2^-53 * (n/d)`, stated without division or subtraction. -/
theorem round_relative_error (n d : Nat) (hd : 0 < d) :
    2 ^ 53 * ((JSNumber.round n d).num * d)
        ≤ 2 ^ 53 * (n * (JSNumber.round n d).den) + n * (JSNumber.round n d).den
      ∧ 2 ^ 53 * (n * (JSNumber.round n d).den)
        ≤ 2 ^ 53 * ((JSNumber.round n d).num * d) + n * (JSNumber.round n d).den := by
  unfold JSNumber.round
  by_cases h0 : n = 0
  · rw [if_pos h0]; subst h0; simp
  · rw [if_neg h0]
    by_cases hdn : d ≤ n
    · rw [if_pos hdn]
      simp only
      have hq : n / d ≠ 0 := by
        have := Nat.div_pos hdn hd; omega
      have he := pow_bitLength_pred_le (n / d) hq
      generalize bitLength (n / d) - 1 = e at he
      have hde : d * 2 ^ e ≤ n :=
        le_trans (Nat.mul_le_mul_left d he) (Nat.mul_div_le n d)
      have hpe : 0 < 2 ^ e := Nat.pos_pow_of_pos _ (by decide)
      obtain ⟨hlo, hhi⟩ := roundHalfEven_near (n * 2 ^ 52) (d * 2 ^ e) (Nat.mul_pos hd hpe)
      generalize roundHalfEven (n * 2 ^ 52) (d * 2 ^ e) = m at hlo hhi
      have e1 : m * 2 ^ e * d = m * (d * 2 ^ e) := by ring
      have hscale : 2 ^ 52 * (d * 2 ^ e) ≤ n * 2 ^ 52 := by
        rw [Nat.mul_comm]; exact Nat.mul_le_mul_right _ hde
      rw [e1]
      generalize m * (d * 2 ^ e) = md at *
      generalize n * 2 ^ 52 = N at *
      generalize d * 2 ^ e = D at *
      have h53 : (2 : Nat) ^ 53 = 2 * 2 ^ 52 := by norm_num
      have h52 : (2 : Nat) ^ 52 = 4503599627370496 := by norm_num
      rw [h53]
      rw [h52] at hscale ⊢
      constructor <;> omega
    · rw [if_neg hdn]
      simp only
      have hn : 0 < n := Nat.pos_of_ne_zero h0
      have hle := le_mul_pow_bitLength n d hn
      generalize bitLength ((d - 1) / n) = e at hle
      obtain ⟨hlo, hhi⟩ := roundHalfEven_near (n * 2 ^ (52 + e)) d hd
      generalize roundHalfEven (n * 2 ^ (52 + e)) d = m at hlo hhi
      have hscale : 2 ^ 52 * d ≤ n * 2 ^ (52 + e) := by
        rw [Nat.pow_add]
        calc 2 ^ 52 * d ≤ 2 ^ 52 * (n * 2 ^ e) := Nat.mul_le_mul_left _ hle
          _ = n * (2 ^ 52 * 2 ^ e) := by ring
      generalize m * d = md at *
      generalize n * 2 ^ (52 + e) = N at *
      have h53 : (2 : Nat) ^ 53 = 2 * 2 ^ 52 := by norm_num
      have h52 : (2 : Nat) ^ 52 = 4503599627370496 := by norm_num
      rw [h53]
      rw [h52] at hscale ⊢
      constructor <;> omega

/-! ## The lifetime formula -/

theorem ofNat_ge (n K : Nat) (hK : K < 2 ^ 53) (h : K ≤ n) :
    K * (JSNumber.ofNat n).den ≤ (JSNumber.ofNat n).num :=
  round_ge n 1 K Nat.one_pos hK (by omega)

theorem ofNat_le (n K : Nat) (hK : K < 2 ^ 53) (h : n ≤ K) :
    (JSNumber.ofNat n).num ≤ K * (JSNumber.ofNat n).den :=
  round_le n 1 K Nat.one_pos hK (by omega)

theorem ofNat_den_pos (n : Nat) : 0 < (JSNumber.ofNat n).den := round_den_pos n 1

theorem ofNat_num_pos (n : Nat) (hn : 0 < n) : 0 < (JSNumber.ofNat n).num := by
  have h := ofNat_ge n 1 (by norm_num) hn
  have := ofNat_den_pos n
  omega

/-- From 5990 recent messages on, the computed quotient is at most 1 and the floor of
one second applies. -/
theorem lifetimeOfCount_tail (c : Nat) (hc : 5990 ≤ c) : lifetimeOfCount c = 1 := by
  unfold lifetimeOfCount JSNumber.floor
  simp only
  -- the operands
  have hbase := ofNat_le BASE_LIFETIME 600 (by norm_num) (by decide)
  have hbd := ofNat_den_pos BASE_LIFETIME
  have hone := ofNat_ge 1 1 (by norm_num) (Nat.le_refl 1)
  have hod := ofNat_den_pos 1
  have hcn := ofNat_ge c 5990 (by norm_num) hc
  have hcd := ofNat_den_pos c
  have hten := ofNat_le 10 10 (by norm_num) (Nat.le_refl 10)
  have htd := ofNat_den_pos 10
  have htn := ofNat_num_pos 10 (by decide)
  generalize JSNumber.ofNat BASE_LIFETIME = b at *
  generalize JSNumber.ofNat 1 = u at *
  generalize JSNumber.ofNat c = cn at *
  generalize JSNumber.ofNat 10 = t at *
  -- messagesSentLast5Min / 10 is at least 599
  have hq : 599 * (JSNumber.div cn t).den ≤ (JSNumber.div cn t).num := by
    apply round_ge _ _ 599 (Nat.mul_pos hcd htn) (by norm_num)
    calc 599 * (cn.den * t.num) = 599 * cn.den * t.num := by ring
      _ ≤ 599 * cn.den * (10 * t.den) := Nat.mul_le_mul_left _ hten
      _ = 5990 * cn.den * t.den := by ring
      _ ≤ cn.num * t.den := Nat.mul_le_mul_right _ hcn
  have hqd : 0 < (JSNumber.div cn t).den := round_den_pos _ _
  generalize JSNumber.div cn t = q at *
  -- 1 + messagesSentLast5Min / 10 is at least 600
  have hs : 600 * (JSNumber.add u q).den ≤ (JSNumber.add u q).num := by
    apply round_ge _ _ 600 (Nat.mul_pos hod hqd) (by norm_num)
    have h1 : u.den * q.den ≤ u.num * q.den := by
      have := Nat.mul_le_mul_right q.den hone
      simpa using this
    have h2 : 599 * q.den * u.den ≤ q.num * u.den := Nat.mul_le_mul_right _ hq
    calc 600 * (u.den * q.den) = u.den * q.den + 599 * q.den * u.den := by ring
      _ ≤ u.num * q.den + q.num * u.den := Nat.add_le_add h1 h2
  have hsd : 0 < (JSNumber.add u q).den := round_den_pos _ _
  generalize JSNumber.add u q = s at *
  have hsn : 0 < s.num := by omega
  -- BASE_LIFETIME / (1 + messagesSentLast5Min / 10) is at most 1
  have hr : (JSNumber.div b s).num ≤ 1 * (JSNumber.div b s).den := by
    apply round_le _ _ 1 (Nat.mul_pos hbd hsn) (by norm_num)
    calc b.num * s.den ≤ 600 * b.den * s.den := Nat.mul_le_mul_right _ hbase
      _ = b.den * (600 * s.den) := by ring
      _ ≤ b.den * s.num := Nat.mul_le_mul_left _ hs
      _ = 1 * (b.den * s.num) := by ring
  have hrd : 0 < (JSNumber.div b s).den := round_den_pos _ _
  generalize JSNumber.div b s = r at *
  have hfl : r.num / r.den ≤ 1 := Nat.div_le_of_le_mul (by omega)
  exact max_eq_left hfl

theorem lifetimeCheck_sound (k : Nat) : ∀ lo, lifetimeCheck lo k = true →
    ∀ c, lo ≤ c → c < lo + 2 ^ k → lifetimeOfCount c = max 1 (6000 / (10 + c)) := by
  induction k with
  | zero =>
    intro lo h c h1 h2
    have hc : c = lo := by simp at h2; omega
    subst hc
    simpa [lifetimeCheck] using h
  | succ k ih =>
    intro lo h c h1 h2
    simp only [lifetimeCheck, Bool.and_eq_true] at h
    rcases Nat.lt_or_ge c (lo + 2 ^ k) with hlt | hge
    · exact ih lo h.1 c h1 hlt
    · exact ih (lo + 2 ^ k) h.2 c hge (by rw [Nat.pow_succ] at h2; omega)

theorem lifetimeCheck_low : lifetimeCheck 0 12 = true := by decide!

theorem lifetimeCheck_high : lifetimeCheck 4096 11 = true := by decide!

/-- The binary64 computation of lines 41-45 agrees with exact arithmetic at every
count. -/
theorem lifetimeOfCount_eq (c : Nat) : lifetimeOfCount c = max 1 (6000 / (10 + c)) := by
  rcases Nat.lt_or_ge c 4096 with h1 | h1
  · exact lifetimeCheck_sound 12 0 lifetimeCheck_low c (Nat.zero_le c) (by norm_num; omega)
  · rcases Nat.lt_or_ge c 6144 with h2 | h2
    · exact lifetimeCheck_sound 11 4096 lifetimeCheck_high c h1 (by norm_num; omega)
    · rw [lifetimeOfCount_tail c (by omega)]
      have : 6000 / (10 + c) = 0 := Nat.div_eq_of_lt (by omega)
      rw [this]; rfl

/-! ## `Math.floor(x / 1000)` -/

theorem floorDivCheck_sound (k : Nat) : ∀ lo, floorDivCheck lo k = true →
    ∀ x : Nat, lo ≤ x → x < lo + 2 ^ k → floorDiv (x : Int) 1000 = ((x / 1000 : Nat) : Int) := by
  induction k with
  | zero =>
    intro lo h x h1 h2
    have hx : x = lo := by simp at h2; omega
    subst hx
    simpa [floorDivCheck] using h
  | succ k ih =>
    intro lo h x h1 h2
    simp only [floorDivCheck, Bool.and_eq_true] at h
    rcases Nat.lt_or_ge x (lo + 2 ^ k) with hlt | hge
    · exact ih lo h.1 x h1 hlt
    · exact ih (lo + 2 ^ k) h.2 x hge (by rw [Nat.pow_succ] at h2; omega)

theorem floorDivCheck_small : floorDivCheck 0 10 = true := by decide!

/-- Below one second the floored quotient is zero. -/
theorem floorDiv_lt_thousand (x : Int) (h0 : 0 ≤ x) (h1 : x < 1000) :
    floorDiv x 1000 = 0 := by
  obtain ⟨n, rfl⟩ := Int.eq_ofNat_of_zero_le h0
  have hn : n < 1000 := by omega
  rw [floorDivCheck_sound 10 0 floorDivCheck_small n (Nat.zero_le n) (by norm_num; omega)]
  rw [Nat.div_eq_of_lt hn]
  rfl

/-- From one second on the floored quotient is at least one. -/
theorem floorDiv_ge_thousand (x : Int) (h : 1000 ≤ x) : 1 ≤ floorDiv x 1000 := by
  have h0 : 0 ≤ x := by omega
  obtain ⟨n, rfl⟩ := Int.eq_ofNat_of_zero_le h0
  have hn : 1000 ≤ n := by omega
  unfold floorDiv
  rw [if_pos h0, Int.toNat_ofNat]
  have ha := ofNat_ge n 1000 (by norm_num) hn
  have had := ofNat_den_pos n
  have hb := ofNat_le 1000 1000 (by norm_num) (Nat.le_refl _)
  have hbn := ofNat_num_pos 1000 (by decide)
  generalize JSNumber.ofNat n = a at *
  generalize JSNumber.ofNat 1000 = b at *
  have hq : 1 * (JSNumber.div a b).den ≤ (JSNumber.div a b).num := by
    apply round_ge _ _ 1 (Nat.mul_pos had hbn) (by norm_num)
    calc 1 * (a.den * b.num) = a.den * b.num := by ring
      _ ≤ a.den * (1000 * b.den) := Nat.mul_le_mul_left _ hb
      _ = 1000 * a.den * b.den := by ring
      _ ≤ a.num * b.den := Nat.mul_le_mul_right _ ha
  have hqd : 0 < (JSNumber.div a b).den := round_den_pos _ _
  generalize JSNumber.div a b = q at *
  have : 1 ≤ q.num / q.den := (Nat.le_div_iff_mul_le hqd).mpr hq
  unfold JSNumber.floor
  exact_mod_cast this

/-- A negative difference floors to a non-positive quotient. -/
theorem floorDiv_neg (x : Int) (h : x < 0) : floorDiv x 1000 ≤ 0 := by
  unfold floorDiv
  rw [if_neg (by omega)]
  have : (0 : Int) ≤ ((JSNumber.div (JSNumber.ofNat (-x).toNat) (JSNumber.ofNat 1000)).ceil : Int) :=
    Int.ofNat_nonneg _
  omega

theorem floorDiv_pos_iff (x : Int) : 0 < floorDiv x 1000 ↔ 1000 ≤ x := by
  constructor
  · intro hpos
    by_contra hlt
    rcases Int.lt_or_le x 0 with hneg | hnn
    · have := floorDiv_neg x hneg; omega
    · have := floorDiv_lt_thousand x hnn (by omega); omega
  · intro h
    have := floorDiv_ge_thousand x h; omega

/-! ## `Map` lemmas -/

theorem JSMap.has_eq_false_iff {β : Type} (m : JSMap β) (k : String) :
    JSMap.has m k = false ↔ ∀ kv ∈ m, kv.1 ≠ k := by
  simp [JSMap.has]

theorem JSMap.get_of_has_false {β : Type} (m : JSMap β) (k : String)
    (h : JSMap.has m k = false) : JSMap.get m k = none := by
  rw [JSMap.has_eq_false_iff] at h
  simp only [JSMap.get, Option.map_eq_none', List.find?_eq_none]
  intro kv hkv
  simpa using h kv hkv

theorem JSMap.get_set_self {β : Type} (m : JSMap β) (k : String) (v : β) :
    JSMap.get (JSMap.set m k v) k = some v := by
  unfold JSMap.set
  split
  · rename_i h
    induction m with
    | nil => simp [JSMap.has] at h
    | cons kv rest ih =>
      by_cases hk : kv.1 = k
      · simp [JSMap.get, hk]
      · have hrest : JSMap.has rest k = true := by
          simpa [JSMap.has, hk] using h
        have := ih hrest
        simpa [JSMap.get, hk] using this
  · rename_i h
    have h' : JSMap.has m k = false := by simpa using h
    rw [JSMap.has_eq_false_iff] at h'
    have hnone : List.find? (fun kv => kv.1 == k) m = none := by
      rw [List.find?_eq_none]
      intro kv hkv
      simpa using h' kv hkv
    simp [JSMap.get, List.find?_append, hnone]

theorem JSMap.has_set_self {β : Type} (m : JSMap β) (k : String) (v : β) :
    JSMap.has (JSMap.set m k v) k = true := by
  have h := JSMap.get_set_self m k v
  by_contra hc
  have hf : JSMap.has (JSMap.set m k v) k = false := by simpa using hc
  rw [JSMap.get_of_has_false _ _ hf] at h
  exact Option.noConfusion h

/-! ## `calculateLifetime` -/

/-- The window read at line 25, after the get-or-initialise step of lines 21-23. -/
theorem windowOf_init (m : MessageCounts) (u : String) :
    windowOf (if !JSMap.has m u then JSMap.set m u [] else m) u = windowOf m u := by
  by_cases h : JSMap.has m u = true
  · simp [h]
  · have hf : JSMap.has m u = false := by simpa using h
    simp [hf, windowOf, JSMap.get_set_self, JSMap.get_of_has_false _ _ hf]

theorem calculateLifetime_fst (u : String) (m : MessageCounts) (now : Int) :
    (calculateLifetime u m now).1 = lifetimeOfCount (recentCount m u now) := by
  have h := windowOf_init m u
  unfold windowOf at h
  simp only [calculateLifetime, recentCount, windowOf, h]

theorem calculateLifetime_window (u : String) (m : MessageCounts) (now : Int) :
    windowOf (calculateLifetime u m now).2 u =
      (windowOf m u).filter (isRecent (now - FIVE_MINUTES)) ++ [{ timestamp := now }] := by
  have h := windowOf_init m u
  unfold windowOf at h
  simp only [calculateLifetime, windowOf, JSMap.get_set_self, h, Option.getD_some]

/-! ## Exact-arithmetic form of the contract -/

theorem specLifetime_eq (c : Nat) : specLifetime c = ((max 1 (6000 / (10 + c)) : Nat) : Int) := by
  unfold specLifetime
  have hx : (600 : ℚ) / (1 + (c : ℚ) / 10) = ((6000 : ℕ) : ℚ) / ((10 + c : ℕ) : ℚ) := by
    have h1 : (10 : ℚ) + c ≠ 0 := by positivity
    have h2 : (1 : ℚ) + (c : ℚ) / 10 ≠ 0 := by positivity
    push_cast
    field_simp
    ring
  rw [hx]
  have hmax := (Int.floor_mono (α := ℚ)).map_max (a := (1 : ℚ))
    (b := ((6000 : ℕ) : ℚ) / ((10 + c : ℕ) : ℚ))
  rw [hmax]
  have hfl : ⌊((6000 : ℕ) : ℚ) / ((10 + c : ℕ) : ℚ)⌋ = ((6000 / (10 + c) : ℕ) : ℤ) := by
    rw [← Int.natCast_floor_eq_floor (by positivity), Nat.floor_div_eq_div]
  rw [hfl]
  simp

/-! ## Lifetime claims -/

/-- C1: for every activity map, sender and clock value, the lifetime returned by
`calculateLifetime` is `floor(max(1, 600 / (1 + c/10)))` in exact arithmetic, that is
`max(1, floor(6000 / (10 + c)))`, where `c` is the number of the sender's stored
timestamps within the trailing five minutes; it is 600 for `c = 0`, 300 for `c = 10`
and 60 for `c = 90`. -/
theorem calculateLifetime_exact (username : String) (messageCounts : MessageCounts)
    (now : Int) (c : Nat) :
    ((calculateLifetime username messageCounts now).1 : Int)
        = specLifetime (recentCount messageCounts username now)
      ∧ (calculateLifetime username messageCounts now).1
        = max 1 (6000 / (10 + recentCount messageCounts username now))
      ∧ (lifetimeOfCount c : Int) = specLifetime c
      ∧ lifetimeOfCount c = max 1 (6000 / (10 + c))
      ∧ lifetimeOfCount 0 = 600 ∧ lifetimeOfCount 10 = 300 ∧ lifetimeOfCount 90 = 60 := by
  refine ⟨?_, ?_, ?_, lifetimeOfCount_eq c, ?_, ?_, ?_⟩
  · rw [calculateLifetime_fst, specLifetime_eq, lifetimeOfCount_eq]
  · rw [calculateLifetime_fst, lifetimeOfCount_eq]
  · rw [specLifetime_eq, lifetimeOfCount_eq]
  · rw [lifetimeOfCount_eq]; decide
  · rw [lifetimeOfCount_eq]; decide
  · rw [lifetimeOfCount_eq]; decide

/-- C2: for every activity map, username and clock value `calculateLifetime` returns
a lifetime of at least one second, so every document the send path builds for
`messagesDb.insert` has a lifetime of at least one second. -/
theorem calculateLifetime_pos (username : String) (messageCounts : MessageCounts)
    (now : Int) :
    1 ≤ (calculateLifetime username messageCounts now).1
      ∧ ∀ (aes : BlockCipher) (text : JSString) (createdAt : Int) (keyBytes iv : Buffer)
          (stored : NewMessage),
          (chatNewMessage aes username text messageCounts now createdAt keyBytes iv).2
            = .ok stored → 1 ≤ stored.lifetime := by
  have hpos : 1 ≤ (calculateLifetime username messageCounts now).1 := by
    rw [calculateLifetime_fst]
    exact le_max_left 1 _
  refine ⟨hpos, ?_⟩
  intro aes text createdAt keyBytes iv stored hstored
  unfold chatNewMessage at hstored
  simp only at hstored
  split at hstored
  · exact Except.noConfusion hstored
  · have := Except.ok.inj hstored
    rw [← this]
    exact hpos

/-- C3: the computed lifetime is non-increasing in the recent-message count. -/
theorem lifetimeOfCount_antitone (c1 c2 : Nat) (h : c1 ≤ c2) :
    lifetimeOfCount c2 ≤ lifetimeOfCount c1 := by
  rw [lifetimeOfCount_eq, lifetimeOfCount_eq]
  exact max_le_max (Nat.le_refl 1) (Nat.div_le_div_left (by omega) (by omega))

theorem lifetimeOfCount_antitone_witness :
    3 ≤ 40 ∧ lifetimeOfCount 40 ≤ lifetimeOfCount 3 :=
  ⟨by decide, lifetimeOfCount_antitone 3 40 (by decide)⟩

/-! ## Bursts of sends -/

theorem calculateLifetimes_cons (u : String) (m : MessageCounts) (now : Int)
    (rest : List Int) :
    (calculateLifetimes u m (now :: rest)).1 =
      (calculateLifetime u m now).1 :: (calculateLifetimes u (calculateLifetime u m now).2 rest).1 :=
  rfl

theorem calculateLifetimes_fst (u : String) (ts : List Int) :
    ∀ (m : MessageCounts),
      (∀ e ∈ windowOf m u, ∀ t ∈ ts, t - FIVE_MINUTES ≤ e.timestamp) →
      (∀ a ∈ ts, ∀ b ∈ ts, b - FIVE_MINUTES ≤ a) →
      (calculateLifetimes u m ts).1 =
        (List.range ts.length).map (fun i => lifetimeOfCount ((windowOf m u).length + i)) := by
  induction ts with
  | nil => intro m _ _; simp [calculateLifetimes]
  | cons now rest ih =>
    intro m hw hts
    have hkeep : (windowOf m u).filter (isRecent (now - FIVE_MINUTES)) = windowOf m u := by
      rw [List.filter_eq_self]
      intro e he
      have := hw e he now (List.mem_cons_self _ _)
      simpa [isRecent] using this
    have hwin := calculateLifetime_window u m now
    rw [hkeep] at hwin
    have hcount : recentCount m u now = (windowOf m u).length := by
      unfold recentCount; rw [hkeep]
    have hrec := ih (calculateLifetime u m now).2
      (by
        intro e he t ht
        rw [hwin, List.mem_append] at he
        rcases he with he | he
        · exact hw e he t (List.mem_cons_of_mem _ ht)
        · have : e.timestamp = now := by
            simp at he; rw [he]
          rw [this]
          exact hts now (List.mem_cons_self _ _) t (List.mem_cons_of_mem _ ht))
      (fun a ha b hb => hts a (List.mem_cons_of_mem _ ha) b (List.mem_cons_of_mem _ hb))
    rw [calculateLifetimes_cons, hrec, calculateLifetime_fst, hcount, hwin,
      List.length_cons, List.range_succ_eq_map, List.map_cons, List.map_map, Nat.add_zero]
    refine congrArg (List.cons _) (List.map_congr_left ?_)
    intro i _
    simp only [Function.comp, List.length_append, List.length_singleton]
    rw [Nat.add_assoc, Nat.add_comm 1 i]

/-- C4: starting from a map with no window for the sender, in a burst of sends whose
instants all lie within five minutes of each other the `n`-th call of
`calculateLifetime` returns `max(1, floor(600 / (1 + (n-1)/10)))`: each send counts
the prior sends and not itself; the 1st send gets 600 seconds, the 11th gets 300. -/
theorem calculateLifetime_burst (username : String) (messageCounts : MessageCounts)
    (nows : List Int) (hnew : JSMap.has messageCounts username = false)
    (hburst : ∀ a ∈ nows, ∀ b ∈ nows, b - a ≤ 300000) :
    (∀ n, 1 ≤ n → n ≤ nows.length →
        (calculateLifetimes username messageCounts nows).1.get? (n - 1)
          = some (max 1 (6000 / (10 + (n - 1))))
        ∧ (((calculateLifetimes username messageCounts nows).1.get? (n - 1)).map
              (fun s => (s : Int))) = some (specLifetime (n - 1)))
      ∧ (1 ≤ nows.length →
          (calculateLifetimes username messageCounts nows).1.get? 0 = some 600)
      ∧ (11 ≤ nows.length →
          (calculateLifetimes username messageCounts nows).1.get? 10 = some 300) := by
  have hwin : windowOf messageCounts username = [] := by
    simp [windowOf, JSMap.get_of_has_false _ _ hnew]
  have hall := calculateLifetimes_fst username nows messageCounts
    (by rw [hwin]; intro e he; simp at he)
    (by intro a ha b hb; have := hburst a ha b hb; unfold FIVE_MINUTES; omega)
  rw [hwin] at hall
  have hget : ∀ i, i < nows.length →
      (calculateLifetimes username messageCounts nows).1.get? i
        = some (max 1 (6000 / (10 + i))) := by
    intro i hi
    rw [hall]
    simp [List.getElem?_range hi, hi, lifetimeOfCount_eq]
  refine ⟨?_, ?_, ?_⟩
  · intro n h1 hn
    have := hget (n - 1) (by omega)
    refine ⟨this, ?_⟩
    rw [this, specLifetime_eq]; rfl
  · intro h; exact hget 0 (by omega)
  · intro h; exact hget 10 (by omega)

theorem calculateLifetime_burst_witness :
    (∀ n, 1 ≤ n → n ≤ [0, 1000, 2000, 300000].length →
        (calculateLifetimes "alice" [("bob", [⟨5⟩])] [0, 1000, 2000, 300000]).1.get? (n - 1)
          = some (max 1 (6000 / (10 + (n - 1))))
        ∧ (((calculateLifetimes "alice" [("bob", [⟨5⟩])] [0, 1000, 2000, 300000]).1.get?
              (n - 1)).map (fun s => (s : Int))) = some (specLifetime (n - 1)))
      ∧ (1 ≤ [0, 1000, 2000, 300000].length →
          (calculateLifetimes "alice" [("bob", [⟨5⟩])] [0, 1000, 2000, 300000]).1.get? 0
            = some 600)
      ∧ (11 ≤ [0, 1000, 2000, 300000].length →
          (calculateLifetimes "alice" [("bob", [⟨5⟩])] [0, 1000, 2000, 300000]).1.get? 10
            = some 300) :=
  calculateLifetime_burst "alice" [("bob", [⟨5⟩])] [0, 1000, 2000, 300000]
    (by decide) (by decide)

/-- C5: after `calculateLifetime(sender)` runs at `now`, the sender's stored window is
exactly the previously stored entries with timestamp `>= now - 5 minutes`, in their
original order, followed by one new entry with timestamp `now`; so no stored entry of
that sender is older than five minutes and the window is not empty. -/
theorem calculateLifetime_updates_window (username : String)
    (messageCounts : MessageCounts) (now : Int) :
    JSMap.get (calculateLifetime username messageCounts now).2 username
        = some ((windowOf messageCounts username).filter
            (fun entry => decide (entry.timestamp ≥ now - 5 * 60 * 1000))
            ++ [{ timestamp := now }])
      ∧ (∀ entry ∈ windowOf (calculateLifetime username messageCounts now).2 username,
          now - 5 * 60 * 1000 ≤ entry.timestamp)
      ∧ windowOf (calculateLifetime username messageCounts now).2 username ≠ [] := by
  have hwin := calculateLifetime_window username messageCounts now
  refine ⟨?_, ?_, ?_⟩
  · have h := windowOf_init messageCounts username
    unfold windowOf at h
    simp only [calculateLifetime, JSMap.get_set_self, h]
    rfl
  · intro entry he
    rw [hwin, List.mem_append] at he
    rcases he with he | he
    · have := (List.mem_filter.mp he).2
      simpa [isRecent, FIVE_MINUTES] using this
    · have : entry.timestamp = now := by simp at he; rw [he]
      omega
  · rw [hwin]; simp

/-! ## The janitor sweep -/

theorem JSMap.delete_append {β : Type} (a b : JSMap β) (k : String) :
    JSMap.delete (a ++ b) k = JSMap.delete a k ++ JSMap.delete b k := by
  simp [JSMap.delete]

theorem JSMap.delete_of_not_mem {β : Type} (m : JSMap β) (k : String)
    (h : ∀ kv ∈ m, kv.1 ≠ k) : JSMap.delete m k = m := by
  unfold JSMap.delete
  rw [List.filter_eq_self]
  intro kv hkv
  simpa using h kv hkv

theorem JSMap.map_replace_of_not_mem {β : Type} (m : JSMap β) (k : String) (v : β)
    (h : ∀ kv ∈ m, kv.1 ≠ k) :
    m.map (fun kv => if kv.1 == k then (k, v) else kv) = m := by
  conv_rhs => rw [← List.map_id m]
  apply List.map_congr_left
  intro kv hkv
  simp [h kv hkv]

theorem cleanupEntry_visit (fiveMinutesAgo : Int) (done rest : MessageCounts)
    (kv : String × List Entry)
    (hdone : ∀ kv' ∈ done, kv'.1 ≠ kv.1) (hrest : ∀ kv' ∈ rest, kv'.1 ≠ kv.1) :
    cleanupEntry fiveMinutesAgo (done ++ kv :: rest) kv =
      if (kv.2.filter (isRecent fiveMinutesAgo)).length = 0 then done ++ rest
      else done ++ (kv.1, kv.2.filter (isRecent fiveMinutesAgo)) :: rest := by
  unfold cleanupEntry
  simp only
  split
  · rw [JSMap.delete_append, JSMap.delete_of_not_mem done _ hdone]
    have : JSMap.delete (kv :: rest) kv.1 = rest := by
      have h := JSMap.delete_of_not_mem rest _ hrest
      unfold JSMap.delete at h ⊢
      simp [List.filter_cons, h]
    rw [this]
  · have hhas : JSMap.has (done ++ kv :: rest) kv.1 = true := by
      simp [JSMap.has]
    unfold JSMap.set
    rw [if_pos hhas, List.map_append, List.map_cons,
      JSMap.map_replace_of_not_mem done _ _ hdone,
      JSMap.map_replace_of_not_mem rest _ _ hrest]
    simp

theorem sweptEntry_none (fiveMinutesAgo : Int) (kv : String × List Entry)
    (h : (kv.2.filter (isRecent fiveMinutesAgo)).length = 0) :
    sweptEntry fiveMinutesAgo kv = none := if_pos h

theorem sweptEntry_some (fiveMinutesAgo : Int) (kv : String × List Entry)
    (h : ¬ (kv.2.filter (isRecent fiveMinutesAgo)).length = 0) :
    sweptEntry fiveMinutesAgo kv = some (kv.1, kv.2.filter (isRecent fiveMinutesAgo)) :=
  if_neg h

theorem cleanup_fold (fiveMinutesAgo : Int) (rest : MessageCounts) :
    ∀ done : MessageCounts,
      (∀ kv ∈ rest, ∀ kv' ∈ done, kv'.1 ≠ kv.1) → JSMap.WF rest →
      rest.foldl (cleanupEntry fiveMinutesAgo) (done ++ rest) =
        done ++ rest.filterMap (sweptEntry fiveMinutesAgo) := by
  induction rest with
  | nil => intro done _ _; simp
  | cons kv rest ih =>
    intro done hdone hwf
    unfold JSMap.WF at hwf
    rw [List.map_cons, List.nodup_cons] at hwf
    have hrest : ∀ kv' ∈ rest, kv'.1 ≠ kv.1 := by
      intro kv' hkv' heq
      exact hwf.1 (heq ▸ List.mem_map_of_mem Prod.fst hkv')
    have hd : ∀ kv' ∈ done, kv'.1 ≠ kv.1 := hdone kv (List.mem_cons_self _ _)
    rw [List.foldl_cons, cleanupEntry_visit _ _ _ _ hd hrest]
    by_cases hlen : (kv.2.filter (isRecent fiveMinutesAgo)).length = 0
    · rw [if_pos hlen, ih done (fun kv2 h2 => hdone kv2 (List.mem_cons_of_mem _ h2)) hwf.2,
        List.filterMap_cons_none (sweptEntry_none _ _ hlen)]
    · rw [if_neg hlen]
      have hstep := ih (done ++ [(kv.1, kv.2.filter (isRecent fiveMinutesAgo))])
        (by
          intro kv2 h2 kv' hkv'
          rw [List.mem_append] at hkv'
          rcases hkv' with h | h
          · exact hdone kv2 (List.mem_cons_of_mem _ h2) kv' h
          · rw [List.mem_singleton] at h
            rw [h]; exact fun heq => hrest kv2 h2 heq.symm)
        hwf.2
      simp only [List.append_assoc, List.singleton_append] at hstep
      rw [hstep, List.filterMap_cons_some (sweptEntry_some _ _ hlen)]

theorem startCleanup_eq (m : MessageCounts) (now : Int) (hwf : JSMap.WF m) :
    startCleanup m now = m.filterMap (sweptEntry (now - FIVE_MINUTES)) := by
  have h := cleanup_fold (now - FIVE_MINUTES) m [] (by intro _ _ kv' h; simp at h) hwf
  simpa [startCleanup] using h

theorem JSMap.get_eq_none_of_not_mem {β : Type} (m : JSMap β) (k : String)
    (h : ∀ kv ∈ m, kv.1 ≠ k) : JSMap.get m k = none :=
  JSMap.get_of_has_false m k ((JSMap.has_eq_false_iff m k).mpr h)

theorem JSMap.has_eq_isSome_get {β : Type} (m : JSMap β) (k : String) :
    JSMap.has m k = (JSMap.get m k).isSome := by
  induction m with
  | nil => rfl
  | cons kv rest ih =>
    by_cases hk : kv.1 = k
    · simp [JSMap.has, JSMap.get, hk]
    · simp only [JSMap.has, JSMap.get] at ih ⊢
      simp [hk, ih]

theorem JSMap.get_cons_self {β : Type} (kv : String × β) (rest : JSMap β) :
    JSMap.get (kv :: rest) kv.1 = some kv.2 := by
  simp [JSMap.get]

theorem JSMap.get_cons_of_ne {β : Type} (kv : String × β) (rest : JSMap β) (k : String)
    (h : kv.1 ≠ k) : JSMap.get (kv :: rest) k = JSMap.get rest k := by
  simp [JSMap.get, h]

theorem get_startCleanup (m : MessageCounts) (now : Int) (hwf : JSMap.WF m) (u : String) :
    JSMap.get (startCleanup m now) u =
      (JSMap.get m u).bind (fun es =>
        if (es.filter (isRecent (now - FIVE_MINUTES))).length = 0 then none
        else some (es.filter (isRecent (now - FIVE_MINUTES)))) := by
  rw [startCleanup_eq m now hwf]
  induction m with
  | nil => rfl
  | cons kv rest ih =>
    unfold JSMap.WF at hwf
    rw [List.map_cons, List.nodup_cons] at hwf
    have ih' := ih hwf.2
    by_cases hk : kv.1 = u
    · have hnot : ∀ kv' ∈ rest, kv'.1 ≠ u := by
        intro kv' hkv' heq
        exact hwf.1 (hk ▸ heq ▸ List.mem_map_of_mem Prod.fst hkv')
      rw [JSMap.get_eq_none_of_not_mem rest u hnot] at ih'
      subst hk
      rw [JSMap.get_cons_self, Option.some_bind]
      by_cases hlen : (kv.2.filter (isRecent (now - FIVE_MINUTES))).length = 0
      · rw [List.filterMap_cons_none (sweptEntry_none _ _ hlen), if_pos hlen]
        exact ih'
      · rw [List.filterMap_cons_some (sweptEntry_some _ _ hlen), if_neg hlen]
        exact JSMap.get_cons_self (kv.1, kv.2.filter (isRecent (now - FIVE_MINUTES))) _
    · rw [JSMap.get_cons_of_ne kv rest u hk, ← ih']
      by_cases hlen : (kv.2.filter (isRecent (now - FIVE_MINUTES))).length = 0
      · rw [List.filterMap_cons_none (sweptEntry_none _ _ hlen)]
      · rw [List.filterMap_cons_some (sweptEntry_some _ _ hlen)]
        exact JSMap.get_cons_of_ne (kv.1, kv.2.filter (isRecent (now - FIVE_MINUTES))) _ u hk

/-- C6: one run of the janitor sweep at `now` keeps a sender if and only if it had
an entry with timestamp `>= now - 5 minutes`, and each remaining sender's window is
exactly its previous entries with timestamp `>= now - 5 minutes`; no remaining window
is empty or holds a stale entry. -/
theorem startCleanup_sweep (messageCounts : MessageCounts) (now : Int)
    (hwf : JSMap.WF messageCounts) :
    (∀ username, JSMap.has (startCleanup messageCounts now) username = true ↔
        ∃ entry ∈ windowOf messageCounts username, entry.timestamp ≥ now - 5 * 60 * 1000)
      ∧ (∀ username, JSMap.has (startCleanup messageCounts now) username = true →
          JSMap.has messageCounts username = true
          ∧ JSMap.get (startCleanup messageCounts now) username
            = some ((windowOf messageCounts username).filter
                (fun entry => decide (entry.timestamp ≥ now - 5 * 60 * 1000))))
      ∧ (∀ username entries,
          JSMap.get (startCleanup messageCounts now) username = some entries →
          entries ≠ [] ∧ ∀ entry ∈ entries, entry.timestamp ≥ now - 5 * 60 * 1000) := by
  have hfun : (fun entry : Entry => decide (entry.timestamp ≥ now - 5 * 60 * 1000))
      = isRecent (now - FIVE_MINUTES) := by
    funext entry; simp [isRecent, FIVE_MINUTES]
  have hrec : ∀ e : Entry, isRecent (now - FIVE_MINUTES) e = true ↔
      e.timestamp ≥ now - 5 * 60 * 1000 := by
    intro e; simp [isRecent, FIVE_MINUTES]
  have key := get_startCleanup messageCounts now hwf
  have hchar : ∀ username, JSMap.has (startCleanup messageCounts now) username = true →
      JSMap.has messageCounts username = true
      ∧ (windowOf messageCounts username).filter (isRecent (now - FIVE_MINUTES)) ≠ []
      ∧ JSMap.get (startCleanup messageCounts now) username
        = some ((windowOf messageCounts username).filter (isRecent (now - FIVE_MINUTES))) := by
    intro u hu
    rw [JSMap.has_eq_isSome_get, key u] at hu
    rw [JSMap.has_eq_isSome_get, key u]
    unfold windowOf
    cases hg : JSMap.get messageCounts u with
    | none => rw [hg, Option.none_bind] at hu; exact absurd hu Bool.false_ne_true
    | some es =>
      rw [hg, Option.some_bind] at hu
      rw [Option.some_bind, Option.getD_some]
      by_cases hlen : (es.filter (isRecent (now - FIVE_MINUTES))).length = 0
      · rw [if_pos hlen] at hu; exact absurd hu Bool.false_ne_true
      · rw [if_neg hlen]
        exact ⟨rfl, fun h => hlen (by rw [h]; rfl), rfl⟩
  refine ⟨?_, ?_, ?_⟩
  · intro u
    constructor
    · intro hu
      obtain ⟨_, hne, _⟩ := hchar u hu
      obtain ⟨e, he⟩ := List.exists_mem_of_ne_nil _ hne
      rw [List.mem_filter] at he
      exact ⟨e, he.1, (hrec e).mp he.2⟩
    · rintro ⟨e, he, hfresh⟩
      rw [JSMap.has_eq_isSome_get, key u]
      unfold windowOf at he
      cases hg : JSMap.get messageCounts u with
      | none => rw [hg] at he; exact absurd he (List.not_mem_nil e)
      | some es =>
        rw [hg, Option.getD_some] at he
        have hmem : e ∈ es.filter (isRecent (now - FIVE_MINUTES)) :=
          List.mem_filter.mpr ⟨he, (hrec e).mpr hfresh⟩
        have hlen : ¬ (es.filter (isRecent (now - FIVE_MINUTES))).length = 0 := by
          intro h
          rw [List.length_eq_zero] at h
          rw [h] at hmem
          exact absurd hmem (List.not_mem_nil e)
        rw [Option.some_bind, if_neg hlen]
        rfl
  · intro u hu
    obtain ⟨h1, _, h3⟩ := hchar u hu
    rw [hfun]
    exact ⟨h1, h3⟩
  · intro u entries hget
    have hu : JSMap.has (startCleanup messageCounts now) u = true := by
      rw [JSMap.has_eq_isSome_get, hget]; rfl
    obtain ⟨_, hne, h3⟩ := hchar u hu
    rw [hget] at h3
    have hent : entries = (windowOf messageCounts u).filter (isRecent (now - FIVE_MINUTES)) :=
      Option.some.inj h3
    refine ⟨hent ▸ hne, ?_⟩
    intro entry he
    rw [hent, List.mem_filter] at he
    exact (hrec entry).mp he.2

theorem startCleanup_sweep_witness :
    (∀ username, JSMap.has (startCleanup sampleCounts 1000000) username = true ↔
        ∃ entry ∈ windowOf sampleCounts username,
          entry.timestamp ≥ 1000000 - 5 * 60 * 1000)
      ∧ (∀ username, JSMap.has (startCleanup sampleCounts 1000000) username = true →
          JSMap.has sampleCounts username = true
          ∧ JSMap.get (startCleanup sampleCounts 1000000) username
            = some ((windowOf sampleCounts username).filter
                (fun entry => decide (entry.timestamp ≥ 1000000 - 5 * 60 * 1000))))
      ∧ (∀ username entries,
          JSMap.get (startCleanup sampleCounts 1000000) username = some entries →
          entries ≠ [] ∧ ∀ entry ∈ entries, entry.timestamp ≥ 1000000 - 5 * 60 * 1000) :=
  startCleanup_sweep sampleCounts 1000000 (by unfold JSMap.WF; decide)

/-! ## Base64 -/

theorem base64Value_base64Char (v : Nat) (h : v < 64) :
    base64Value (base64Char v) = some v := by
  unfold base64Char
  split
  · unfold base64Value; rw [if_pos (by omega)]; congr 1; omega
  · split
    · unfold base64Value
      rw [if_neg (by omega), if_pos (by omega)]; congr 1; omega
    · split
      · unfold base64Value
        rw [if_neg (by omega), if_neg (by omega), if_pos (by omega)]; congr 1; omega
      · split
        · rename_i h62; subst h62; rfl
        · have : v = 63 := by omega
          subst this; rfl

theorem base64Char_ne_pad (v : Nat) : base64Char v ≠ 61 := by
  unfold base64Char
  split
  · omega
  · split
    · omega
    · split
      · omega
      · split <;> omega

theorem base64Char_ne_colon (v : Nat) (h : v < 64) : base64Char v ≠ COLON := by
  unfold base64Char COLON
  split
  · omega
  · split
    · omega
    · split
      · omega
      · split <;> omega

theorem base64Digits_cons_char (v : Nat) (h : v < 64) (rest : JSString) :
    base64Digits (base64Char v :: rest) = v :: base64Digits rest := by
  simp only [base64Digits, if_neg (base64Char_ne_pad v), base64Value_base64Char v h]

theorem base64Digits_pad (rest : JSString) : base64Digits (61 :: rest) = [] := by
  simp [base64Digits]

/-- Decoding the base64 text of a byte sequence gives the bytes back. -/
theorem fromBase64_toBase64 (b : Buffer) (hb : Buffer.Valid b) :
    fromBase64 (toBase64 b) = b := by
  induction b using toBase64.induct with
  | case1 a b c rest ih =>
    have ha : a < 256 := hb a (by simp)
    have hb' : b < 256 := hb b (by simp)
    have hc : c < 256 := hb c (by simp)
    have hrest : Buffer.Valid rest := fun x hx => hb x (by simp [hx])
    have ih' := ih hrest
    unfold fromBase64 at ih' ⊢
    rw [toBase64, base64Digits_cons_char _ (by omega), base64Digits_cons_char _ (by omega),
      base64Digits_cons_char _ (by omega), base64Digits_cons_char _ (by omega),
      bytesOfDigits, ih']
    congr 1
    · omega
    · congr 1
      · omega
      · congr 1; omega
  | case2 a b =>
    have ha : a < 256 := hb a (by simp)
    have hb' : b < 256 := hb b (by simp)
    unfold fromBase64
    rw [toBase64, base64Digits_cons_char _ (by omega), base64Digits_cons_char _ (by omega),
      base64Digits_cons_char _ (by omega), base64Digits_pad, bytesOfDigits]
    congr 1
    · omega
    · congr 1; omega
  | case3 a =>
    have ha : a < 256 := hb a (by simp)
    unfold fromBase64
    rw [toBase64, base64Digits_cons_char _ (by omega), base64Digits_cons_char _ (by omega),
      base64Digits_pad, bytesOfDigits]
    congr 1; omega
  | case4 => rfl

/-- The base64 text of a byte sequence holds no `':'`. -/
theorem colon_not_mem_toBase64 (b : Buffer) (hb : Buffer.Valid b) :
    COLON ∉ toBase64 b := by
  induction b using toBase64.induct with
  | case1 a b c rest ih =>
    have ha : a < 256 := hb a (by simp)
    have hb' : b < 256 := hb b (by simp)
    have hc : c < 256 := hb c (by simp)
    have hrest : Buffer.Valid rest := fun x hx => hb x (by simp [hx])
    rw [toBase64]
    simp only [List.mem_cons, not_or]
    exact ⟨(base64Char_ne_colon _ (by omega)).symm, (base64Char_ne_colon _ (by omega)).symm,
      (base64Char_ne_colon _ (by omega)).symm, (base64Char_ne_colon _ (by omega)).symm,
      ih hrest⟩
  | case2 a b =>
    have ha : a < 256 := hb a (by simp)
    have hb' : b < 256 := hb b (by simp)
    rw [toBase64]
    simp only [List.mem_cons, not_or, List.mem_nil_iff, not_false_eq_true, and_true]
    exact ⟨(base64Char_ne_colon _ (by omega)).symm, (base64Char_ne_colon _ (by omega)).symm,
      (base64Char_ne_colon _ (by omega)).symm, by decide⟩
  | case3 a =>
    have ha : a < 256 := hb a (by simp)
    rw [toBase64]
    simp only [List.mem_cons, not_or, List.mem_nil_iff, not_false_eq_true, and_true]
    exact ⟨(base64Char_ne_colon _ (by omega)).symm, (base64Char_ne_colon _ (by omega)).symm,
      by decide, by decide⟩
  | case4 => simp [toBase64]

/-! ## `split` -/

theorem split_of_not_mem (sep : Nat) (s : JSString) (h : sep ∉ s) : split sep s = [s] := by
  induction s with
  | nil => rfl
  | cons c rest ih =>
    have hc : c ≠ sep := fun e => h (e ▸ List.mem_cons_self _ _)
    have hrest : sep ∉ rest := fun hm => h (List.mem_cons_of_mem _ hm)
    simp only [split, if_neg hc, ih hrest]

theorem split_append_sep (sep : Nat) (p q : JSString) (hp : sep ∉ p) (hq : sep ∉ q) :
    split sep (p ++ sep :: q) = [p, q] := by
  induction p with
  | nil => simp only [List.nil_append, split, if_true, split_of_not_mem sep q hq]
  | cons c rest ih =>
    have hc : c ≠ sep := fun e => hp (e ▸ List.mem_cons_self _ _)
    have hrest : sep ∉ rest := fun hm => hp (List.mem_cons_of_mem _ hm)
    have ih' := ih hrest
    rw [List.cons_append, split, if_neg hc, ih']

theorem split_length (sep : Nat) (s : JSString) :
    (split sep s).length = s.count sep + 1 := by
  induction s with
  | nil => rfl
  | cons c rest ih =>
    by_cases hc : c = sep
    · subst hc
      simp only [split, if_true, List.length_cons, ih, List.count_cons_self]
    · have hne : (split sep rest) ≠ [] := by
        intro h; rw [h] at ih; simp at ih
      obtain ⟨part, parts, hsp⟩ := List.exists_cons_of_ne_nil hne
      have hcount : List.count sep (c :: rest) = List.count sep rest := by
        rw [List.count_cons_of_ne]
        exact fun e => hc e.symm
      simp only [split, if_neg hc, hsp, List.length_cons, hcount]
      rw [hsp] at ih
      simpa using ih

/-! ## UTF-8 -/

theorem utf8Encode_cons (u : Nat) (rest : JSString) :
    utf8Encode (u :: rest) =
      if u < 0x80 then u :: utf8Encode rest
      else if u < 0x800 then (0xC0 + u / 64) :: (0x80 + u % 64) :: utf8Encode rest
      else if isHighSurrogate u then
        match rest with
        | l :: rest2 =>
          if isLowSurrogate l then
            (0xF0 + (0x10000 + (u - 0xD800) * 1024 + (l - 0xDC00)) / 262144)
              :: (0x80 + (0x10000 + (u - 0xD800) * 1024 + (l - 0xDC00)) / 4096 % 64)
              :: (0x80 + (0x10000 + (u - 0xD800) * 1024 + (l - 0xDC00)) / 64 % 64)
              :: (0x80 + (0x10000 + (u - 0xD800) * 1024 + (l - 0xDC00)) % 64)
              :: utf8Encode rest2
          else replacementBytes ++ utf8Encode rest
        | [] => replacementBytes
      else if isLowSurrogate u then replacementBytes ++ utf8Encode rest
      else (0xE0 + u / 4096) :: (0x80 + u / 64 % 64) :: (0x80 + u % 64) :: utf8Encode rest := by
  cases rest <;> rfl

theorem utf8Decode_cons (b0 : Nat) (rest : Buffer) :
    utf8Decode (b0 :: rest) =
      if b0 < 0x80 then b0 :: utf8Decode rest
      else if 0xC2 ≤ b0 ∧ b0 < 0xE0 then
        match rest with
        | b1 :: rest1 =>
          if isContinuation b1 then ((b0 - 0xC0) * 64 + (b1 - 0x80)) :: utf8Decode rest1
          else 0xFFFD :: utf8Decode rest
        | [] => [0xFFFD]
      else if 0xE0 ≤ b0 ∧ b0 < 0xF0 then
        match rest with
        | b1 :: b2 :: rest2 =>
          if isContinuation b1 ∧ isContinuation b2
              ∧ 0x800 ≤ (b0 - 0xE0) * 4096 + (b1 - 0x80) * 64 + (b2 - 0x80)
              ∧ ¬ (0xD800 ≤ (b0 - 0xE0) * 4096 + (b1 - 0x80) * 64 + (b2 - 0x80)
                ∧ (b0 - 0xE0) * 4096 + (b1 - 0x80) * 64 + (b2 - 0x80) < 0xE000) then
            ((b0 - 0xE0) * 4096 + (b1 - 0x80) * 64 + (b2 - 0x80)) :: utf8Decode rest2
          else 0xFFFD :: utf8Decode rest
        | _ => 0xFFFD :: utf8Decode rest
      else if 0xF0 ≤ b0 ∧ b0 < 0xF5 then
        match rest with
        | b1 :: b2 :: b3 :: rest3 =>
          if isContinuation b1 ∧ isContinuation b2 ∧ isContinuation b3
              ∧ 0x10000 ≤ (b0 - 0xF0) * 262144 + (b1 - 0x80) * 4096 + (b2 - 0x80) * 64
                + (b3 - 0x80)
              ∧ (b0 - 0xF0) * 262144 + (b1 - 0x80) * 4096 + (b2 - 0x80) * 64 + (b3 - 0x80)
                < 0x110000 then
            (0xD800 + ((b0 - 0xF0) * 262144 + (b1 - 0x80) * 4096 + (b2 - 0x80) * 64
                + (b3 - 0x80) - 0x10000) / 1024)
              :: (0xDC00 + ((b0 - 0xF0) * 262144 + (b1 - 0x80) * 4096 + (b2 - 0x80) * 64
                + (b3 - 0x80) - 0x10000) % 1024)
              :: utf8Decode rest3
          else 0xFFFD :: utf8Decode rest
        | _ => 0xFFFD :: utf8Decode rest
      else 0xFFFD :: utf8Decode rest := by
  rcases rest with _ | ⟨b1, _ | ⟨b2, _ | ⟨b3, rest3⟩⟩⟩ <;> rfl


theorem utf8Encode_ascii (u : Nat) (rest : JSString) (h : u < 0x80) :
    utf8Encode (u :: rest) = u :: utf8Encode rest := by
  rw [utf8Encode_cons]; simp only [if_pos h]

theorem utf8Encode_two (u : Nat) (rest : JSString) (h1 : ¬ u < 0x80) (h2 : u < 0x800) :
    utf8Encode (u :: rest) = (0xC0 + u / 64) :: (0x80 + u % 64) :: utf8Encode rest := by
  rw [utf8Encode_cons]; simp only [if_neg h1, if_pos h2]

theorem utf8Encode_pair (u l : Nat) (rest : JSString) (hu : isHighSurrogate u = true)
    (hl : isLowSurrogate l = true) :
    utf8Encode (u :: l :: rest) =
      (0xF0 + (0x10000 + (u - 0xD800) * 1024 + (l - 0xDC00)) / 262144)
        :: (0x80 + (0x10000 + (u - 0xD800) * 1024 + (l - 0xDC00)) / 4096 % 64)
        :: (0x80 + (0x10000 + (u - 0xD800) * 1024 + (l - 0xDC00)) / 64 % 64)
        :: (0x80 + (0x10000 + (u - 0xD800) * 1024 + (l - 0xDC00)) % 64)
        :: utf8Encode rest := by
  have hu' : 0xD800 ≤ u ∧ u < 0xDC00 := by simpa [isHighSurrogate] using hu
  rw [utf8Encode_cons]
  simp only [if_neg (show ¬ u < 0x80 by omega), if_neg (show ¬ u < 0x800 by omega), hu, hl,
    if_true]

theorem utf8Encode_three (u : Nat) (rest : JSString) (h2 : ¬ u < 0x800)
    (hh : isHighSurrogate u = false) (hl : isLowSurrogate u = false) :
    utf8Encode (u :: rest) =
      (0xE0 + u / 4096) :: (0x80 + u / 64 % 64) :: (0x80 + u % 64) :: utf8Encode rest := by
  rw [utf8Encode_cons]
  simp only [if_neg (show ¬ u < 0x80 by omega), if_neg h2, hh, hl, Bool.false_eq_true,
    if_false]

theorem utf8Decode_ascii (b : Nat) (rest : Buffer) (h : b < 0x80) :
    utf8Decode (b :: rest) = b :: utf8Decode rest := by
  rw [utf8Decode_cons]; simp only [if_pos h]

theorem utf8Decode_two (b0 b1 : Nat) (rest : Buffer) (h0 : 0xC2 ≤ b0 ∧ b0 < 0xE0)
    (h1 : isContinuation b1 = true) :
    utf8Decode (b0 :: b1 :: rest) = ((b0 - 0xC0) * 64 + (b1 - 0x80)) :: utf8Decode rest := by
  rw [utf8Decode_cons]
  simp only [if_neg (show ¬ b0 < 0x80 by omega), if_pos h0, h1, if_true]

theorem utf8Decode_three (b0 b1 b2 : Nat) (rest : Buffer) (h0 : 0xE0 ≤ b0 ∧ b0 < 0xF0)
    (h1 : isContinuation b1 = true) (h2 : isContinuation b2 = true)
    (hmin : 0x800 ≤ (b0 - 0xE0) * 4096 + (b1 - 0x80) * 64 + (b2 - 0x80))
    (hsur : ¬ (0xD800 ≤ (b0 - 0xE0) * 4096 + (b1 - 0x80) * 64 + (b2 - 0x80)
      ∧ (b0 - 0xE0) * 4096 + (b1 - 0x80) * 64 + (b2 - 0x80) < 0xE000)) :
    utf8Decode (b0 :: b1 :: b2 :: rest) =
      ((b0 - 0xE0) * 4096 + (b1 - 0x80) * 64 + (b2 - 0x80)) :: utf8Decode rest := by
  rw [utf8Decode_cons]
  simp only [if_neg (show ¬ b0 < 0x80 by omega),
    if_neg (show ¬ (0xC2 ≤ b0 ∧ b0 < 0xE0) by omega), if_pos h0]
  rw [if_pos ⟨h1, h2, hmin, hsur⟩]

theorem utf8Decode_four (b0 b1 b2 b3 : Nat) (rest : Buffer) (h0 : 0xF0 ≤ b0 ∧ b0 < 0xF5)
    (h1 : isContinuation b1 = true) (h2 : isContinuation b2 = true)
    (h3 : isContinuation b3 = true)
    (hmin : 0x10000 ≤ (b0 - 0xF0) * 262144 + (b1 - 0x80) * 4096 + (b2 - 0x80) * 64 + (b3 - 0x80))
    (hmax : (b0 - 0xF0) * 262144 + (b1 - 0x80) * 4096 + (b2 - 0x80) * 64 + (b3 - 0x80)
      < 0x110000) :
    utf8Decode (b0 :: b1 :: b2 :: b3 :: rest) =
      (0xD800 + ((b0 - 0xF0) * 262144 + (b1 - 0x80) * 4096 + (b2 - 0x80) * 64 + (b3 - 0x80)
          - 0x10000) / 1024)
        :: (0xDC00 + ((b0 - 0xF0) * 262144 + (b1 - 0x80) * 4096 + (b2 - 0x80) * 64
          + (b3 - 0x80) - 0x10000) % 1024)
        :: utf8Decode rest := by
  rw [utf8Decode_cons]
  simp only [if_neg (show ¬ b0 < 0x80 by omega),
    if_neg (show ¬ (0xC2 ≤ b0 ∧ b0 < 0xE0) by omega),
    if_neg (show ¬ (0xE0 ≤ b0 ∧ b0 < 0xF0) by omega), if_pos h0]
  rw [if_pos ⟨h1, h2, h3, hmin, hmax⟩]

theorem wellFormed_cons (u : Nat) (rest : JSString) :
    wellFormed (u :: rest) =
      if isHighSurrogate u then
        match rest with
        | l :: rest2 => isLowSurrogate l && wellFormed rest2
        | [] => false
      else !isLowSurrogate u && decide (u < 0x10000) && wellFormed rest := by
  cases rest <;> rfl

theorem isContinuation_of (b : Nat) (h : 0x80 ≤ b ∧ b < 0xC0) : isContinuation b = true := by
  simpa [isContinuation] using h

/-- On a well-formed string the UTF-8 bytes are bytes and decode to the string. -/
theorem utf8_roundtrip_aux (n : Nat) : ∀ s : JSString, s.length ≤ n → wellFormed s = true →
    utf8Decode (utf8Encode s) = s ∧ Buffer.Valid (utf8Encode s) := by
  induction n with
  | zero =>
    intro s hlen _
    have : s = [] := List.length_eq_zero.mp (by omega)
    subst this
    exact ⟨rfl, fun x hx => absurd hx (List.not_mem_nil x)⟩
  | succ n ih =>
    intro s hlen hwf
    cases s with
    | nil => exact ⟨rfl, fun x hx => absurd hx (List.not_mem_nil x)⟩
    | cons u rest =>
      have hlen' : rest.length ≤ n := by simp at hlen; omega
      by_cases hhigh : isHighSurrogate u = true
      · -- a surrogate pair
        cases rest with
        | nil =>
          rw [wellFormed_cons, if_pos hhigh] at hwf
          exact absurd hwf Bool.false_ne_true
        | cons l rest2 =>
          have hwf' : isLowSurrogate l = true ∧ wellFormed rest2 = true := by
            rw [wellFormed_cons, if_pos hhigh] at hwf
            simpa using hwf
          have hu : 0xD800 ≤ u ∧ u < 0xDC00 := by simpa [isHighSurrogate] using hhigh
          have hl : 0xDC00 ≤ l ∧ l < 0xE000 := by simpa [isLowSurrogate] using hwf'.1
          obtain ⟨ih1, ih2⟩ := ih rest2 (by simp at hlen'; omega) hwf'.2
          rw [utf8Encode_pair u l rest2 hhigh hwf'.1]
          constructor
          · rw [utf8Decode_four _ _ _ _ _ (by omega) (isContinuation_of _ (by omega))
              (isContinuation_of _ (by omega)) (isContinuation_of _ (by omega))
              (by omega) (by omega), ih1]
            exact List.cons_eq_cons.mpr ⟨by omega, List.cons_eq_cons.mpr ⟨by omega, rfl⟩⟩
          · intro x hx
            simp only [List.mem_cons] at hx
            rcases hx with h | h | h | h | h
            · omega
            · omega
            · omega
            · omega
            · exact ih2 x h
      · have hnh : isHighSurrogate u = false := by simpa using hhigh
        have hwf' : isLowSurrogate u = false ∧ u < 0x10000 ∧ wellFormed rest = true := by
          rw [wellFormed_cons, if_neg hhigh] at hwf
          simpa [and_assoc] using hwf
        obtain ⟨ih1, ih2⟩ := ih rest hlen' hwf'.2.2
        have hns : ¬ (0xD800 ≤ u ∧ u < 0xDC00) := by simpa [isHighSurrogate] using hnh
        have hnl : ¬ (0xDC00 ≤ u ∧ u < 0xE000) := by
          simpa [isLowSurrogate] using hwf'.1
        by_cases h1 : u < 0x80
        · rw [utf8Encode_ascii u rest h1]
          constructor
          · rw [utf8Decode_ascii u _ h1, ih1]
          · intro x hx
            simp only [List.mem_cons] at hx
            rcases hx with h | h
            · omega
            · exact ih2 x h
        · by_cases h2 : u < 0x800
          · rw [utf8Encode_two u rest h1 h2]
            constructor
            · rw [utf8Decode_two _ _ _ (by omega) (isContinuation_of _ (by omega)), ih1]
              exact List.cons_eq_cons.mpr ⟨by omega, rfl⟩
            · intro x hx
              simp only [List.mem_cons] at hx
              rcases hx with h | h | h
              · omega
              · omega
              · exact ih2 x h
          · rw [utf8Encode_three u rest h2 hnh hwf'.1]
            have hlt := hwf'.2.1
            constructor
            · rw [utf8Decode_three _ _ _ _ (by omega) (isContinuation_of _ (by omega))
                (isContinuation_of _ (by omega)) (by omega) (by omega), ih1]
              exact List.cons_eq_cons.mpr ⟨by omega, rfl⟩
            · intro x hx
              simp only [List.mem_cons] at hx
              rcases hx with h | h | h | h
              · omega
              · omega
              · omega
              · exact ih2 x h

theorem utf8Decode_utf8Encode (s : JSString) (h : wellFormed s = true) :
    utf8Decode (utf8Encode s) = s :=
  (utf8_roundtrip_aux s.length s (Nat.le_refl _) h).1

theorem utf8Encode_valid (s : JSString) (h : wellFormed s = true) :
    Buffer.Valid (utf8Encode s) :=
  (utf8_roundtrip_aux s.length s (Nat.le_refl _) h).2

/-! ## `encryptMessage` and `decryptMessage` -/

theorem toyCipher_lawful : toyCipher.Lawful := by
  intro key iv data _ _ _ _ hdata
  have hvalid : Buffer.Valid (data ++ [1]) := by
    intro x hx
    rw [List.mem_append, List.mem_singleton] at hx
    rcases hx with h | h
    · exact hdata x h
    · omega
  constructor
  · intro x hx
    simp only [toyCipher, List.mem_map] at hx
    obtain ⟨b, _, rfl⟩ := hx
    exact Nat.mod_lt _ (by decide)
  · have hback : ((data ++ [1]).map (fun b => (b + (key.sum + iv.sum)) % 256)).map
        (fun c => (c + 256 - (key.sum + iv.sum) % 256) % 256) = data ++ [1] := by
      rw [List.map_map]
      conv_rhs => rw [← List.map_id (data ++ [1])]
      apply List.map_congr_left
      intro b hb
      have := hvalid b hb
      simp only [Function.comp, id]
      omega
    simp only [toyCipher, hback, List.reverse_append, List.reverse_singleton,
      List.singleton_append, if_true, List.reverse_reverse]

theorem checkCipherArgs_ok (keyBuffer iv : Buffer) (hk : keyBuffer.length = KEY_LENGTH)
    (hiv : iv.length = IV_LENGTH) : checkCipherArgs keyBuffer iv = .ok () := by
  simp [checkCipherArgs, hk, hiv]

/-- With a key from `generateKey` and a 16-byte IV, encryption succeeds and decryption
of the envelope returns the text as read back from its UTF-8 bytes. -/
theorem decrypt_encrypt (aes : BlockCipher) (haes : aes.Lawful) (text : JSString)
    (keyBytes iv : Buffer) (hbytes : Buffer.Valid (utf8Encode text))
    (hk : keyBytes.length = 32) (hkv : Buffer.Valid keyBytes)
    (hiv : iv.length = 16) (hivv : Buffer.Valid iv) :
    encryptMessage aes text (generateKey keyBytes) iv
        = .ok (toBase64 iv ++ COLON :: toBase64 (aes.encrypt keyBytes iv (utf8Encode text)))
      ∧ decryptMessage aes
          (toBase64 iv ++ COLON :: toBase64 (aes.encrypt keyBytes iv (utf8Encode text)))
          (generateKey keyBytes) = .ok (utf8Decode (utf8Encode text)) := by
  obtain ⟨hct, hdec⟩ := haes keyBytes iv (utf8Encode text) hk hiv hkv hivv hbytes
  have hkey : fromBase64 (generateKey keyBytes) = keyBytes := fromBase64_toBase64 _ hkv
  have hargs := checkCipherArgs_ok keyBytes iv hk hiv
  constructor
  · simp only [encryptMessage, encryptMessageTry, hkey, hargs]
  · have hsplit := split_append_sep COLON (toBase64 iv)
      (toBase64 (aes.encrypt keyBytes iv (utf8Encode text)))
      (colon_not_mem_toBase64 iv hivv) (colon_not_mem_toBase64 _ hct)
    simp only [decryptMessage, decryptMessageTry, hkey, hsplit, List.length_cons,
      List.length_nil, ne_eq, not_true_eq_false, if_false, List.getD_cons_zero,
      List.getD_cons_succ, fromBase64_toBase64 iv hivv, hargs,
      fromBase64_toBase64 _ hct, hdec]

/-- C7 (as amended): for every plaintext that is well-formed UTF-16, every key
produced by `generateKey` from 32 random bytes and every 16-byte IV,
`decryptMessage(encryptMessage(p, k), k)` returns `p` without raising. -/
theorem decrypt_encrypt_wellFormed (aes : BlockCipher) (haes : aes.Lawful)
    (text : JSString) (keyBytes iv : Buffer) (htext : wellFormed text = true)
    (hk : keyBytes.length = 32) (hkv : Buffer.Valid keyBytes)
    (hiv : iv.length = 16) (hivv : Buffer.Valid iv) :
    ∃ envelope, encryptMessage aes text (generateKey keyBytes) iv = .ok envelope
      ∧ decryptMessage aes envelope (generateKey keyBytes) = .ok text := by
  obtain ⟨henc, hdec⟩ := decrypt_encrypt aes haes text keyBytes iv
    (utf8Encode_valid text htext) hk hkv hiv hivv
  rw [utf8Decode_utf8Encode text htext] at hdec
  exact ⟨_, henc, hdec⟩

theorem sampleKeyBytes_valid : Buffer.Valid sampleKeyBytes := by
  intro x hx
  have := List.eq_of_mem_replicate hx
  omega

theorem sampleIV_valid : Buffer.Valid sampleIV := by
  intro x hx
  have := List.eq_of_mem_replicate hx
  omega

theorem decrypt_encrypt_wellFormed_witness :
    ∃ envelope,
      encryptMessage toyCipher sampleText (generateKey sampleKeyBytes) sampleIV = .ok envelope
      ∧ decryptMessage toyCipher envelope (generateKey sampleKeyBytes) = .ok sampleText :=
  decrypt_encrypt_wellFormed toyCipher toyCipher_lawful sampleText sampleKeyBytes sampleIV
    (by decide) (by decide) sampleKeyBytes_valid (by decide) sampleIV_valid

/-- Under every lawful cipher the one-unit string `"\uD800"` (an unpaired high
surrogate) is encrypted as the bytes of U+FFFD and decrypts to `"\uFFFD"`. -/
theorem lone_surrogate_replaced (aes : BlockCipher) (haes : aes.Lawful)
    (keyBytes iv : Buffer) (hk : keyBytes.length = 32) (hkv : Buffer.Valid keyBytes)
    (hiv : iv.length = 16) (hivv : Buffer.Valid iv) :
    ∃ envelope, encryptMessage aes [0xD800] (generateKey keyBytes) iv = .ok envelope
      ∧ decryptMessage aes envelope (generateKey keyBytes) = .ok [0xFFFD] := by
  have hbytes : Buffer.Valid (utf8Encode [0xD800]) := by
    intro x hx
    have hmem : x ∈ [0xEF, 0xBF, 0xBD] := hx
    simp only [List.mem_cons, List.mem_singleton, List.mem_nil_iff, or_false] at hmem
    omega
  obtain ⟨henc, hdec⟩ := decrypt_encrypt aes haes [0xD800] keyBytes iv hbytes hk hkv hiv hivv
  exact ⟨_, henc, hdec⟩

/-- C7 (as stated) fails on a plaintext with an unpaired surrogate: the string
`"\uD800"` is encrypted as the bytes of U+FFFD, so decryption returns `"\uFFFD"` and
not the plaintext.  Shown with the stand-in cipher; `lone_surrogate_replaced` gives
the same for every lawful cipher. -/
theorem decrypt_encrypt_lone_surrogate :
    ∃ envelope,
      encryptMessage toyCipher [0xD800] (generateKey sampleKeyBytes) sampleIV = .ok envelope
      ∧ decryptMessage toyCipher envelope (generateKey sampleKeyBytes) = .ok [0xFFFD]
      ∧ decryptMessage toyCipher envelope (generateKey sampleKeyBytes) ≠ .ok [0xD800] := by
  obtain ⟨envelope, henc, hdec⟩ := lone_surrogate_replaced toyCipher toyCipher_lawful
    sampleKeyBytes sampleIV (by decide) sampleKeyBytes_valid (by decide) sampleIV_valid
  refine ⟨envelope, henc, hdec, ?_⟩
  rw [hdec]
  intro h
  have h' : ([0xFFFD] : JSString) = [0xD800] := Except.ok.inj h
  exact absurd h' (by decide)

/-- C8: for every key and every envelope that is not exactly two `':'`-separated
parts (no `':'`, or more than one), `decryptMessage` fails and does not return a
plaintext, and it fails with the malformed-envelope error, which differs from every
error it raises on an envelope of two parts (the cipher rejecting key, IV or data). -/
theorem decryptMessage_malformed (aes : BlockCipher) (encryptedData key : JSString)
    (h : encryptedData.count COLON ≠ 1) :
    (split COLON encryptedData).length ≠ 2
      ∧ decryptMessage aes encryptedData key = .error malformedEnvelopeError
      ∧ (∀ plaintext, decryptMessage aes encryptedData key ≠ .ok plaintext)
      ∧ (∀ (twoParts otherKey : JSString) (message : String),
          twoParts.count COLON = 1 →
          decryptMessage aes twoParts otherKey = .error message →
          message ≠ malformedEnvelopeError) := by
  have hlen : (split COLON encryptedData).length ≠ 2 := by
    rw [split_length]; omega
  have herr : decryptMessage aes encryptedData key = .error malformedEnvelopeError := by
    simp only [decryptMessage, decryptMessageTry, if_pos hlen]
    rfl
  refine ⟨hlen, herr, ?_, ?_⟩
  · intro plaintext hp
    rw [herr] at hp
    exact Except.noConfusion hp
  · intro twoParts otherKey message hcount hfail
    have hlen2 : ¬ (split COLON twoParts).length ≠ 2 := by
      rw [split_length]; omega
    simp only [decryptMessage, decryptMessageTry, if_neg hlen2] at hfail
    generalize fromBase64 otherKey = keyBuffer at hfail
    generalize fromBase64 ((split COLON twoParts).getD 0 []) = iv at hfail
    unfold checkCipherArgs at hfail
    by_cases hk : keyBuffer.length ≠ KEY_LENGTH
    · rw [if_pos hk] at hfail
      have : message = "Decryption failed: " ++ "Invalid key length" :=
        (Except.error.inj hfail).symm
      rw [this]; decide
    · rw [if_neg hk] at hfail
      by_cases hi : iv.length ≠ IV_LENGTH
      · rw [if_pos hi] at hfail
        have : message = "Decryption failed: " ++ "Invalid initialization vector" :=
          (Except.error.inj hfail).symm
        rw [this]; decide
      · rw [if_neg hi] at hfail
        simp only at hfail
        cases hd : aes.decrypt keyBuffer iv (fromBase64 ((split COLON twoParts).getD 1 []))
          with
        | ok decrypted => rw [hd] at hfail; exact Except.noConfusion hfail
        | error failure =>
          rw [hd] at hfail
          have : message = "Decryption failed: " ++ failure.message :=
            (Except.error.inj hfail).symm
          rw [this]
          cases failure <;> decide

theorem decryptMessage_malformed_witness :
    (split COLON [65, 66, 67]).length ≠ 2
      ∧ decryptMessage toyCipher [65, 66, 67] (generateKey sampleKeyBytes)
          = .error malformedEnvelopeError
      ∧ (∀ plaintext,
          decryptMessage toyCipher [65, 66, 67] (generateKey sampleKeyBytes) ≠ .ok plaintext)
      ∧ (∀ (twoParts otherKey : JSString) (message : String),
          twoParts.count COLON = 1 →
          decryptMessage toyCipher twoParts otherKey = .error message →
          message ≠ malformedEnvelopeError) :=
  decryptMessage_malformed toyCipher [65, 66, 67] (generateKey sampleKeyBytes) (by decide)

/-! ## Remaining time -/

theorem remainingSeconds_pos_iff (createdAt : Int) (lifetime : Nat) (now : Int) :
    0 < remainingSeconds createdAt lifetime now ↔ now + 1000 ≤ createdAt + lifetime * 1000 := by
  unfold remainingSeconds expiresAt
  rw [lt_max_iff, floorDiv_pos_iff]
  constructor
  · rintro (h | h)
    · exact absurd h (lt_irrefl 0)
    · omega
  · intro h; right; omega

theorem remainingSeconds_nonneg (createdAt : Int) (lifetime : Nat) (now : Int) :
    0 ≤ remainingSeconds createdAt lifetime now :=
  le_max_left 0 _

/-- C9 (as amended): the `remaining` value of the read path is 0 at every instant at
or after `T + L` seconds, and more generally from the instant less than one whole
second of the lifetime is left; it is positive exactly while at least one whole
second is left, `now + 1000 ms <= T + L * 1000 ms`. -/
theorem remainingSeconds_expiry (createdAt : Int) (lifetime : Nat) (now : Int) :
    (createdAt + lifetime * 1000 ≤ now → remainingSeconds createdAt lifetime now = 0)
      ∧ (0 < remainingSeconds createdAt lifetime now
          ↔ now + 1000 ≤ createdAt + lifetime * 1000)
      ∧ (remainingSeconds createdAt lifetime now = 0
          ↔ createdAt + lifetime * 1000 < now + 1000) := by
  have hpos := remainingSeconds_pos_iff createdAt lifetime now
  have hnn := remainingSeconds_nonneg createdAt lifetime now
  have hzero : remainingSeconds createdAt lifetime now = 0
      ↔ createdAt + lifetime * 1000 < now + 1000 := by
    constructor
    · intro h0
      by_contra hc
      have := hpos.mpr (by omega)
      omega
    · intro h
      by_contra hc
      have hp : 0 < remainingSeconds createdAt lifetime now := by omega
      have := hpos.mp hp
      omega
  exact ⟨fun h => hzero.mpr (by omega), hpos, hzero⟩

/-- C9 (as stated) fails in the last second before expiry: a message created at
instant 0 with a lifetime of one second, observed 500 ms later, strictly before its
expiry instant, already has `remaining = 0`. -/
theorem remainingSeconds_zero_before_expiry :
    (500 : Int) < 0 + (1 : Nat) * 1000 ∧ remainingSeconds 0 1 500 = 0 :=
  ⟨by decide, by decide!⟩

/-! ## The expiry sweep -/

/-- The test `remaining <= 0` of the periodic cleanup. -/
theorem sweepRemaining_le_zero_iff (msg : Message) (now : Int) :
    sweepRemaining msg now ≤ 0 ↔ msg.createdAt + msg.lifetime * 1000 < now + 1000 := by
  unfold sweepRemaining expiresAt
  have h := floorDiv_pos_iff (msg.createdAt + msg.lifetime * 1000 - now)
  constructor
  · intro hle
    by_contra hc
    have := h.mpr (by omega)
    omega
  · intro hlt
    by_contra hc
    have := h.mp (by omega)
    omega

theorem MessagesDb.remove_append (a b : MessagesDb) (id : String) :
    MessagesDb.remove (a ++ b) id = MessagesDb.remove a id ++ MessagesDb.remove b id := by
  simp [MessagesDb.remove]

theorem MessagesDb.remove_of_not_mem (db : MessagesDb) (id : String)
    (h : ∀ msg ∈ db, msg.id ≠ id) : MessagesDb.remove db id = db := by
  unfold MessagesDb.remove
  rw [List.filter_eq_self]
  intro msg hmsg
  simpa using h msg hmsg

theorem MessagesDb.remove_cons_self (msg : Message) (rest : MessagesDb)
    (h : ∀ other ∈ rest, other.id ≠ msg.id) :
    MessagesDb.remove (msg :: rest) msg.id = rest := by
  have hr := MessagesDb.remove_of_not_mem rest msg.id h
  unfold MessagesDb.remove at hr ⊢
  simp [List.filter_cons, hr]

/-- One sweep over the messages still to visit, `rest`, when the store holds the
already visited survivors `done` followed by `rest`: a message stays if and only if
it is not expired or its removal failed. -/
theorem sweep_fold (faults : DbFaults) (now : Int) (rest : MessagesDb) :
    ∀ (done : MessagesDb) (expired : List String),
      (∀ msg ∈ rest, ∀ kept ∈ done, kept.id ≠ msg.id) → MessagesDb.WF rest →
      rest.foldl (sweepMessage faults now) { db := done ++ rest, expired := expired } =
        { db := done ++ rest.filter
            (fun msg => !decide (sweepRemaining msg now ≤ 0) || faults.removeFails msg.id),
          expired := expired ++ (rest.filter
            (fun msg => decide (sweepRemaining msg now ≤ 0) && !faults.removeFails msg.id)).map
              (fun msg => msg.id) } := by
  induction rest with
  | nil => intro done expired _ _; simp
  | cons msg rest ih =>
    intro done expired hdone hwf
    unfold MessagesDb.WF at hwf
    rw [List.map_cons, List.nodup_cons] at hwf
    have hrest : ∀ other ∈ rest, other.id ≠ msg.id := by
      intro other hother heq
      exact hwf.1 (heq ▸ List.mem_map_of_mem (fun m : Message => m.id) hother)
    have hd : ∀ kept ∈ done, kept.id ≠ msg.id := hdone msg (List.mem_cons_self _ _)
    have hnext : ∀ m ∈ rest, ∀ kept ∈ done, kept.id ≠ m.id :=
      fun m hm => hdone m (List.mem_cons_of_mem _ hm)
    rw [List.foldl_cons]
    by_cases hexp : sweepRemaining msg now ≤ 0
    · by_cases hfail : faults.removeFails msg.id = true
      · -- expired, removal failed: the message stays
        have hstep : sweepMessage faults now { db := done ++ msg :: rest, expired := expired }
            msg = { db := (done ++ [msg]) ++ rest, expired := expired } := by
          simp [sweepMessage, hexp, hfail]
        rw [hstep, ih (done ++ [msg]) expired
          (by
            intro m hm kept hkept
            rw [List.mem_append, List.mem_singleton] at hkept
            rcases hkept with h | h
            · exact hnext m hm kept h
            · rw [h]; exact fun heq => hrest m hm heq.symm)
          hwf.2]
        simp [List.filter_cons, hexp, hfail]
      · -- expired, removal applied: the message goes and is announced
        have hfail' : faults.removeFails msg.id = false := by simpa using hfail
        have hstep : sweepMessage faults now { db := done ++ msg :: rest, expired := expired }
            msg = { db := done ++ rest, expired := expired ++ [msg.id] } := by
          simp only [sweepMessage, hexp, if_true, hfail', Bool.false_eq_true, if_false]
          rw [MessagesDb.remove_append, MessagesDb.remove_of_not_mem done _ hd,
            MessagesDb.remove_cons_self msg rest hrest]
        rw [hstep, ih done (expired ++ [msg.id]) hnext hwf.2]
        simp [List.filter_cons, hexp, hfail']
    · -- not expired: nothing happens
      have hstep : sweepMessage faults now { db := done ++ msg :: rest, expired := expired }
          msg = { db := (done ++ [msg]) ++ rest, expired := expired } := by
        simp [sweepMessage, hexp]
      rw [hstep, ih (done ++ [msg]) expired
        (by
          intro m hm kept hkept
          rw [List.mem_append, List.mem_singleton] at hkept
          rcases hkept with h | h
          · exact hnext m hm kept h
          · rw [h]; exact fun heq => hrest m hm heq.symm)
        hwf.2]
      simp [List.filter_cons, hexp]

theorem expirySweep_eq (faults : DbFaults) (db : MessagesDb) (now : Int)
    (hfind : faults.findFails = false) (hwf : MessagesDb.WF db) :
    expirySweep faults db now =
      { db := db.filter
          (fun msg => !decide (sweepRemaining msg now ≤ 0) || faults.removeFails msg.id),
        expired := (db.filter
          (fun msg => decide (sweepRemaining msg now ≤ 0) && !faults.removeFails msg.id)).map
            (fun msg => msg.id) } := by
  have h := sweep_fold faults now db [] [] (by intro _ _ kept hk; simp at hk) hwf
  simpa [expirySweep, hfind] using h

/-- C10 (as amended): with `find` and every `remove` succeeding, one expiry sweep
removes a stored message if and only if less than one whole second of its lifetime
is left, `createdAt + lifetime * 1000 ms < now + 1000 ms` (the floored `remaining` is
`<= 0`); every message with at least one whole second left stays in the store
unchanged, in its place. -/
theorem expirySweep_removes (faults : DbFaults) (db : MessagesDb) (now : Int)
    (hfind : faults.findFails = false) (hremove : ∀ id, faults.removeFails id = false)
    (hwf : MessagesDb.WF db) :
    (expirySweep faults db now).db
        = db.filter (fun msg => decide (now + 1000 ≤ msg.createdAt + msg.lifetime * 1000))
      ∧ (∀ msg ∈ db, msg ∉ (expirySweep faults db now).db
          ↔ msg ∈ db ∧ msg.createdAt + msg.lifetime * 1000 < now + 1000)
      ∧ (∀ msg ∈ db, now + 1000 ≤ msg.createdAt + msg.lifetime * 1000 →
          msg ∈ (expirySweep faults db now).db) := by
  have hdb : (expirySweep faults db now).db
      = db.filter (fun msg => decide (now + 1000 ≤ msg.createdAt + msg.lifetime * 1000)) := by
    rw [expirySweep_eq faults db now hfind hwf]
    apply List.filter_congr
    intro msg _
    have h := sweepRemaining_le_zero_iff msg now
    rw [hremove msg.id, Bool.or_false]
    by_cases hexp : sweepRemaining msg now ≤ 0
    · have := h.mp hexp
      simp only [hexp, decide_True, Bool.not_true]
      symm
      rw [decide_eq_false_iff_not]
      omega
    · have : ¬ (msg.createdAt + msg.lifetime * 1000 < now + 1000) := fun hc => hexp (h.mpr hc)
      simp only [hexp, decide_False, Bool.not_false]
      symm
      rw [decide_eq_true_iff]
      omega
  refine ⟨hdb, ?_, ?_⟩
  · intro msg hmsg
    rw [hdb, List.mem_filter, decide_eq_true_iff]
    constructor
    · intro hnot
      refine ⟨hmsg, ?_⟩
      by_contra hc
      exact hnot ⟨hmsg, by omega⟩
    · rintro ⟨_, hlt⟩ ⟨_, hge⟩
      omega
  · intro msg hmsg hge
    rw [hdb, List.mem_filter, decide_eq_true_iff]
    exact ⟨hmsg, hge⟩

theorem expirySweep_removes_witness :
    (expirySweep DbFaults.none [sampleMessage, sampleLongMessage] 2000).db
        = [sampleMessage, sampleLongMessage].filter
            (fun msg => decide ((2000 : Int) + 1000 ≤ msg.createdAt + msg.lifetime * 1000))
      ∧ (∀ msg ∈ [sampleMessage, sampleLongMessage],
          msg ∉ (expirySweep DbFaults.none [sampleMessage, sampleLongMessage] 2000).db
          ↔ msg ∈ [sampleMessage, sampleLongMessage]
            ∧ msg.createdAt + msg.lifetime * 1000 < (2000 : Int) + 1000)
      ∧ (∀ msg ∈ [sampleMessage, sampleLongMessage],
          (2000 : Int) + 1000 ≤ msg.createdAt + msg.lifetime * 1000 →
          msg ∈ (expirySweep DbFaults.none [sampleMessage, sampleLongMessage] 2000).db) :=
  expirySweep_removes DbFaults.none [sampleMessage, sampleLongMessage] 2000 rfl
    (fun _ => rfl) (by unfold MessagesDb.WF; decide)

/-- C10 (as stated) fails in the last second before expiry: a message created at
instant 0 with a lifetime of one second is removed by a sweep 500 ms later, while its
expiry instant is still in the future. -/
theorem expirySweep_removes_before_expiry :
    (500 : Int) < sampleMessage.createdAt + sampleMessage.lifetime * 1000
      ∧ sampleMessage ∈ [sampleMessage]
      ∧ (expirySweep DbFaults.none [sampleMessage] 500).db = [] := by
  refine ⟨by decide, by simp, ?_⟩
  decide!

/-! ## Envelopes -/

theorem base64Value_lt (c v : Nat) (h : base64Value c = some v) : v < 64 := by
  unfold base64Value at h
  split at h
  · injection h with h; omega
  · split at h
    · injection h with h; omega
    · split at h
      · injection h with h; omega
      · split at h
        · injection h with h; omega
        · split at h
          · injection h with h; omega
          · exact Option.noConfusion h

theorem base64Digits_lt (s : JSString) : ∀ v ∈ base64Digits s, v < 64 := by
  induction s with
  | nil => intro v hv; exact absurd hv (List.not_mem_nil v)
  | cons c rest ih =>
    intro v hv
    unfold base64Digits at hv
    split at hv
    · exact absurd hv (List.not_mem_nil v)
    · split at hv
      · rename_i w hw
        rw [List.mem_cons] at hv
        rcases hv with h | h
        · rw [h]; exact base64Value_lt c w hw
        · exact ih v h
      · exact ih v hv

theorem bytesOfDigits_valid (digits : List Nat) (h : ∀ v ∈ digits, v < 64) :
    Buffer.Valid (bytesOfDigits digits) := by
  induction digits using bytesOfDigits.induct with
  | case1 w x y z rest ih =>
    have hw := h w (by simp)
    have hx := h x (by simp)
    have hy := h y (by simp)
    have hz := h z (by simp)
    have hrest : ∀ v ∈ rest, v < 64 := fun v hv => h v (by simp [hv])
    intro b hb
    rw [bytesOfDigits] at hb
    simp only [List.mem_cons] at hb
    rcases hb with hb | hb | hb | hb
    · omega
    · omega
    · omega
    · exact ih hrest b hb
  | case2 w x y =>
    have hw := h w (by simp)
    have hx := h x (by simp)
    have hy := h y (by simp)
    intro b hb
    rw [bytesOfDigits] at hb
    simp only [List.mem_cons, List.mem_singleton, List.mem_nil_iff, or_false] at hb
    rcases hb with hb | hb
    · omega
    · omega
  | case3 w x =>
    have hw := h w (by simp)
    have hx := h x (by simp)
    intro b hb
    rw [bytesOfDigits] at hb
    have hb' : b = w * 4 + x / 16 := List.mem_singleton.mp hb
    omega
  | case4 digits h1 h2 h3 =>
    intro b hb
    rw [bytesOfDigits] at hb
    · exact absurd hb (List.not_mem_nil b)
    · exact h1
    · exact h2
    · exact h3

/-- Whatever the string, `Buffer.from(s, 'base64')` is a sequence of bytes. -/
theorem fromBase64_valid (s : JSString) : Buffer.Valid (fromBase64 s) :=
  bytesOfDigits_valid _ (base64Digits_lt s)

theorem replacementBytes_valid : Buffer.Valid replacementBytes := by
  intro b hb
  have hmem : b ∈ [0xEF, 0xBF, 0xBD] := hb
  simp only [List.mem_cons, List.mem_singleton, List.mem_nil_iff, or_false] at hmem
  omega

/-- The UTF-8 bytes of any sequence of 16-bit code units are bytes, paired surrogates
or not. -/
theorem utf8Encode_valid_aux (n : Nat) : ∀ s : JSString, s.length ≤ n →
    (∀ u ∈ s, u < 65536) → Buffer.Valid (utf8Encode s) := by
  induction n with
  | zero =>
    intro s hlen _
    have : s = [] := List.length_eq_zero.mp (by omega)
    subst this
    exact fun x hx => absurd hx (List.not_mem_nil x)
  | succ n ih =>
    intro s hlen hunits
    cases s with
    | nil => exact fun x hx => absurd hx (List.not_mem_nil x)
    | cons u rest =>
      have hu : u < 65536 := hunits u (List.mem_cons_self _ _)
      have hrestUnits : ∀ v ∈ rest, v < 65536 :=
        fun v hv => hunits v (List.mem_cons_of_mem _ hv)
      have hlen' : rest.length ≤ n := by simp at hlen; omega
      have ihrest := ih rest hlen' hrestUnits
      rw [utf8Encode_cons]
      split
      · intro b hb
        rw [List.mem_cons] at hb
        rcases hb with hb | hb
        · omega
        · exact ihrest b hb
      · split
        · intro b hb
          simp only [List.mem_cons] at hb
          rcases hb with hb | hb | hb
          · omega
          · omega
          · exact ihrest b hb
        · split
          · rename_i hhigh
            have hur : 0xD800 ≤ u ∧ u < 0xDC00 := by simpa [isHighSurrogate] using hhigh
            cases rest with
            | nil => exact replacementBytes_valid
            | cons l rest2 =>
              simp only
              split
              · rename_i hlow
                have hlr : 0xDC00 ≤ l ∧ l < 0xE000 := by simpa [isLowSurrogate] using hlow
                have ih2 := ih rest2 (by simp at hlen'; omega)
                  (fun v hv => hrestUnits v (List.mem_cons_of_mem _ hv))
                intro b hb
                simp only [List.mem_cons] at hb
                rcases hb with hb | hb | hb | hb | hb
                · omega
                · omega
                · omega
                · omega
                · exact ih2 b hb
              · intro b hb
                rw [List.mem_append] at hb
                rcases hb with hb | hb
                · exact replacementBytes_valid b hb
                · exact ihrest b hb
          · split
            · intro b hb
              rw [List.mem_append] at hb
              rcases hb with hb | hb
              · exact replacementBytes_valid b hb
              · exact ihrest b hb
            · intro b hb
              simp only [List.mem_cons] at hb
              rcases hb with hb | hb | hb | hb
              · omega
              · omega
              · omega
              · exact ihrest b hb

theorem utf8Encode_valid_of_units (s : JSString) (h : ∀ u ∈ s, u < 65536) :
    Buffer.Valid (utf8Encode s) :=
  utf8Encode_valid_aux s.length s (Nat.le_refl _) h

theorem toBase64_injective (a b : Buffer) (ha : Buffer.Valid a) (hb : Buffer.Valid b)
    (h : toBase64 a = toBase64 b) : a = b := by
  rw [← fromBase64_toBase64 a ha, ← fromBase64_toBase64 b hb, h]

theorem count_colon_envelope (ivText encrypted : JSString) (h1 : COLON ∉ ivText)
    (h2 : COLON ∉ encrypted) : (ivText ++ COLON :: encrypted).count COLON = 1 := by
  rw [List.count_append, List.count_cons_self, List.count_eq_zero_of_not_mem h1,
    List.count_eq_zero_of_not_mem h2]

/-- What a successful `encryptMessage` tells: the key decodes to 32 bytes, the IV has
16 bytes, and the envelope is the base64 of the IV, a `':'`, and the base64 of the
ciphertext. -/
theorem encryptMessage_ok (aes : BlockCipher) (text key : JSString) (iv : Buffer)
    (envelope : JSString) (h : encryptMessage aes text key iv = .ok envelope) :
    (fromBase64 key).length = KEY_LENGTH ∧ iv.length = IV_LENGTH
      ∧ envelope = toBase64 iv ++ COLON ::
          toBase64 (aes.encrypt (fromBase64 key) iv (utf8Encode text)) := by
  unfold encryptMessage encryptMessageTry checkCipherArgs at h
  simp only at h
  by_cases hk : (fromBase64 key).length ≠ KEY_LENGTH
  · rw [if_pos hk] at h
    exact Except.noConfusion h
  · rw [if_neg hk] at h
    by_cases hi : iv.length ≠ IV_LENGTH
    · rw [if_pos hi] at h
      exact Except.noConfusion h
    · rw [if_neg hi] at h
      exact ⟨not_not.mp hk, not_not.mp hi, (Except.ok.inj h).symm⟩

/-- C20: for every plaintext, key and IV, the envelope returned by `encryptMessage`
contains exactly one `':'`; the part before it is the base64 encoding of the 16-byte
IV and the part after is base64 text without `':'`; so the structure check of
`decryptMessage` never rejects an envelope produced by `encryptMessage`. -/
theorem encryptMessage_envelope (aes : BlockCipher) (haes : aes.Lawful)
    (text key : JSString) (iv : Buffer) (envelope : JSString)
    (htext : ∀ u ∈ text, u < 65536) (hivv : Buffer.Valid iv)
    (henc : encryptMessage aes text key iv = .ok envelope) :
    envelope.count COLON = 1
      ∧ iv.length = 16
      ∧ split COLON envelope
          = [toBase64 iv, toBase64 (aes.encrypt (fromBase64 key) iv (utf8Encode text))]
      ∧ COLON ∉ toBase64 (aes.encrypt (fromBase64 key) iv (utf8Encode text))
      ∧ (split COLON envelope).length = 2
      ∧ ∀ anyKey, decryptMessage aes envelope anyKey ≠ .error malformedEnvelopeError := by
  obtain ⟨hk, hiv, henv⟩ := encryptMessage_ok aes text key iv envelope henc
  have hct := (haes (fromBase64 key) iv (utf8Encode text) hk hiv (fromBase64_valid key)
    hivv (utf8Encode_valid_of_units text htext)).1
  have h1 := colon_not_mem_toBase64 iv hivv
  have h2 := colon_not_mem_toBase64 _ hct
  have hsplit := split_append_sep COLON _ _ h1 h2
  rw [henv]
  refine ⟨count_colon_envelope _ _ h1 h2, hiv, hsplit, h2, by rw [hsplit]; rfl, ?_⟩
  intro anyKey hbad
  have hcount : (toBase64 iv ++ COLON ::
      toBase64 (aes.encrypt (fromBase64 key) iv (utf8Encode text))).count COLON = 1 :=
    count_colon_envelope _ _ h1 h2
  have hlen2 : ¬ (split COLON (toBase64 iv ++ COLON ::
      toBase64 (aes.encrypt (fromBase64 key) iv (utf8Encode text)))).length ≠ 2 := by
    rw [hsplit]; simp
  simp only [decryptMessage, decryptMessageTry, if_neg hlen2] at hbad
  generalize fromBase64 anyKey = keyBuffer at hbad
  generalize fromBase64 ((split COLON (toBase64 iv ++ COLON ::
      toBase64 (aes.encrypt (fromBase64 key) iv (utf8Encode text)))).getD 0 []) = iv2 at hbad
  unfold checkCipherArgs at hbad
  by_cases hk2 : keyBuffer.length ≠ KEY_LENGTH
  · rw [if_pos hk2] at hbad
    exact absurd (Except.error.inj hbad) (by decide)
  · rw [if_neg hk2] at hbad
    by_cases hi2 : iv2.length ≠ IV_LENGTH
    · rw [if_pos hi2] at hbad
      exact absurd (Except.error.inj hbad) (by decide)
    · rw [if_neg hi2] at hbad
      simp only at hbad
      cases hd : aes.decrypt keyBuffer iv2 (fromBase64 ((split COLON (toBase64 iv ++ COLON ::
          toBase64 (aes.encrypt (fromBase64 key) iv (utf8Encode text)))).getD 1 [])) with
      | ok decrypted => rw [hd] at hbad; exact Except.noConfusion hbad
      | error failure =>
        rw [hd] at hbad
        have := Except.error.inj hbad
        cases failure
        · exact absurd this (by decide)
        · exact absurd this (by decide)

theorem encryptMessage_envelope_witness :
    (toBase64 sampleIV ++ COLON ::
        toBase64 (toyCipher.encrypt sampleKeyBytes sampleIV (utf8Encode sampleText))).count
        COLON = 1
      ∧ sampleIV.length = 16
      ∧ split COLON (toBase64 sampleIV ++ COLON ::
          toBase64 (toyCipher.encrypt sampleKeyBytes sampleIV (utf8Encode sampleText)))
          = [toBase64 sampleIV,
             toBase64 (toyCipher.encrypt (fromBase64 (generateKey sampleKeyBytes)) sampleIV
               (utf8Encode sampleText))]
      ∧ COLON ∉ toBase64 (toyCipher.encrypt (fromBase64 (generateKey sampleKeyBytes))
          sampleIV (utf8Encode sampleText))
      ∧ (split COLON (toBase64 sampleIV ++ COLON ::
          toBase64 (toyCipher.encrypt sampleKeyBytes sampleIV
            (utf8Encode sampleText)))).length = 2
      ∧ ∀ anyKey, decryptMessage toyCipher (toBase64 sampleIV ++ COLON ::
          toBase64 (toyCipher.encrypt sampleKeyBytes sampleIV (utf8Encode sampleText)))
          anyKey ≠ .error malformedEnvelopeError :=
  encryptMessage_envelope toyCipher toyCipher_lawful sampleText
    (generateKey sampleKeyBytes) sampleIV _ (by decide) sampleIV_valid
    (decrypt_encrypt toyCipher toyCipher_lawful sampleText sampleKeyBytes sampleIV
      (utf8Encode_valid sampleText (by decide)) (by decide) sampleKeyBytes_valid
      (by decide) sampleIV_valid).1

/-- Under any key that decodes to 32 bytes and any 16-byte IV, encryption succeeds
and decryption of the envelope returns the text as read back from its UTF-8 bytes. -/
theorem decrypt_encrypt_key (aes : BlockCipher) (haes : aes.Lawful) (text key : JSString)
    (iv : Buffer) (hbytes : Buffer.Valid (utf8Encode text))
    (hk : (fromBase64 key).length = 32) (hiv : iv.length = 16) (hivv : Buffer.Valid iv) :
    encryptMessage aes text key iv
        = .ok (toBase64 iv ++ COLON ::
            toBase64 (aes.encrypt (fromBase64 key) iv (utf8Encode text)))
      ∧ decryptMessage aes
          (toBase64 iv ++ COLON :: toBase64 (aes.encrypt (fromBase64 key) iv (utf8Encode text)))
          key = .ok (utf8Decode (utf8Encode text)) := by
  obtain ⟨hct, hdec⟩ := haes (fromBase64 key) iv (utf8Encode text) hk hiv
    (fromBase64_valid key) hivv hbytes
  have hargs := checkCipherArgs_ok (fromBase64 key) iv hk hiv
  constructor
  · simp only [encryptMessage, encryptMessageTry, hargs]
  · have hsplit := split_append_sep COLON (toBase64 iv)
      (toBase64 (aes.encrypt (fromBase64 key) iv (utf8Encode text)))
      (colon_not_mem_toBase64 iv hivv) (colon_not_mem_toBase64 _ hct)
    simp only [decryptMessage, decryptMessageTry, hsplit, List.length_cons,
      List.length_nil, ne_eq, not_true_eq_false, if_false, List.getD_cons_zero,
      List.getD_cons_succ, fromBase64_toBase64 iv hivv, hargs,
      fromBase64_toBase64 _ hct, hdec]

/-- C19 (as amended): for every plaintext that is well-formed UTF-16 and every key
under which encryption succeeds (one that decodes to 32 bytes), two encryptions that
draw different IVs produce different envelopes, and both envelopes decrypt under the
key to the plaintext. -/
theorem encryptions_differ (aes : BlockCipher) (haes : aes.Lawful) (text key : JSString)
    (iv1 iv2 : Buffer) (htext : wellFormed text = true)
    (hk : (fromBase64 key).length = 32)
    (hiv1 : iv1.length = 16) (hivv1 : Buffer.Valid iv1)
    (hiv2 : iv2.length = 16) (hivv2 : Buffer.Valid iv2) (hne : iv1 ≠ iv2) :
    ∃ envelope1 envelope2,
      encryptMessage aes text key iv1 = .ok envelope1
      ∧ encryptMessage aes text key iv2 = .ok envelope2
      ∧ envelope1 ≠ envelope2
      ∧ decryptMessage aes envelope1 key = .ok text
      ∧ decryptMessage aes envelope2 key = .ok text := by
  have hbytes := utf8Encode_valid text htext
  obtain ⟨henc1, hdec1⟩ := decrypt_encrypt_key aes haes text key iv1 hbytes hk hiv1 hivv1
  obtain ⟨henc2, hdec2⟩ := decrypt_encrypt_key aes haes text key iv2 hbytes hk hiv2 hivv2
  rw [utf8Decode_utf8Encode text htext] at hdec1 hdec2
  refine ⟨_, _, henc1, henc2, ?_, hdec1, hdec2⟩
  intro heq
  have hct1 := (haes (fromBase64 key) iv1 (utf8Encode text) hk hiv1
    (fromBase64_valid key) hivv1 hbytes).1
  have hct2 := (haes (fromBase64 key) iv2 (utf8Encode text) hk hiv2
    (fromBase64_valid key) hivv2 hbytes).1
  have hs1 := split_append_sep COLON (toBase64 iv1) _
    (colon_not_mem_toBase64 iv1 hivv1) (colon_not_mem_toBase64 _ hct1)
  have hs2 := split_append_sep COLON (toBase64 iv2) _
    (colon_not_mem_toBase64 iv2 hivv2) (colon_not_mem_toBase64 _ hct2)
  rw [heq, hs2] at hs1
  have hhead : toBase64 iv2 = toBase64 iv1 := (List.cons_eq_cons.mp hs1).1
  exact hne (toBase64_injective iv1 iv2 hivv1 hivv2 hhead.symm)

theorem sampleIV2_valid : Buffer.Valid sampleIV2 := by
  intro x hx
  have := List.eq_of_mem_replicate hx
  omega

theorem encryptions_differ_witness :
    ∃ envelope1 envelope2,
      encryptMessage toyCipher sampleText (generateKey sampleKeyBytes) sampleIV
        = .ok envelope1
      ∧ encryptMessage toyCipher sampleText (generateKey sampleKeyBytes) sampleIV2
        = .ok envelope2
      ∧ envelope1 ≠ envelope2
      ∧ decryptMessage toyCipher envelope1 (generateKey sampleKeyBytes) = .ok sampleText
      ∧ decryptMessage toyCipher envelope2 (generateKey sampleKeyBytes) = .ok sampleText :=
  encryptions_differ toyCipher toyCipher_lawful sampleText (generateKey sampleKeyBytes)
    sampleIV sampleIV2 (by decide)
    (by show (fromBase64 (toBase64 sampleKeyBytes)).length = 32
        rw [fromBase64_toBase64 _ sampleKeyBytes_valid]; rfl)
    (by decide) sampleIV_valid (by decide) sampleIV2_valid (by decide)

/-- C19 (as stated) fails on a plaintext with an unpaired surrogate: the two
envelopes of `"\uD800"` under different IVs differ, but both decrypt to `"\uFFFD"`,
not to the plaintext. -/
theorem encryptions_of_lone_surrogate :
    ∃ envelope1 envelope2,
      encryptMessage toyCipher [0xD800] (generateKey sampleKeyBytes) sampleIV
        = .ok envelope1
      ∧ encryptMessage toyCipher [0xD800] (generateKey sampleKeyBytes) sampleIV2
        = .ok envelope2
      ∧ decryptMessage toyCipher envelope1 (generateKey sampleKeyBytes) = .ok [0xFFFD]
      ∧ decryptMessage toyCipher envelope2 (generateKey sampleKeyBytes) = .ok [0xFFFD]
      ∧ decryptMessage toyCipher envelope1 (generateKey sampleKeyBytes) ≠ .ok [0xD800] := by
  have hbytes : Buffer.Valid (utf8Encode [0xD800]) :=
    utf8Encode_valid_of_units [0xD800] (by decide)
  have hk : (fromBase64 (generateKey sampleKeyBytes)).length = 32 := by
    show (fromBase64 (toBase64 sampleKeyBytes)).length = 32
    rw [fromBase64_toBase64 _ sampleKeyBytes_valid]; rfl
  obtain ⟨henc1, hdec1⟩ := decrypt_encrypt_key toyCipher toyCipher_lawful [0xD800]
    (generateKey sampleKeyBytes) sampleIV hbytes hk (by decide) sampleIV_valid
  obtain ⟨henc2, hdec2⟩ := decrypt_encrypt_key toyCipher toyCipher_lawful [0xD800]
    (generateKey sampleKeyBytes) sampleIV2 hbytes hk (by decide) sampleIV2_valid
  refine ⟨_, _, henc1, henc2, hdec1, hdec2, ?_⟩
  rw [hdec1]
  intro h
  have h' : utf8Decode (utf8Encode [0xD800]) = [0xD800] := Except.ok.inj h
  exact absurd h' (by decide)

/-! ## Broadcast -/

theorem broadcast_eq (activeConnections : ActiveConnections) (readyState : ChannelId → Nat)
    (event : ServerEvent) :
    broadcast activeConnections readyState event =
      ((registrations activeConnections).filter
        (fun client => readyState client == WebSocket.OPEN)).map
        (fun client => (client, event)) := by
  induction activeConnections with
  | nil => rfl
  | cons entry rest ih =>
    unfold broadcast registrations at ih ⊢
    simp only [List.flatMap_cons, List.filter_append, List.map_append, ih]

theorem mem_broadcast (activeConnections : ActiveConnections) (readyState : ChannelId → Nat)
    (event : ServerEvent) (delivery : Delivery) :
    delivery ∈ broadcast activeConnections readyState event ↔
      delivery.1 ∈ registrations activeConnections
        ∧ readyState delivery.1 = WebSocket.OPEN ∧ delivery.2 = event := by
  rw [broadcast_eq]
  simp only [List.mem_map, List.mem_filter, beq_iff_eq]
  constructor
  · rintro ⟨client, ⟨hreg, hopen⟩, rfl⟩
    exact ⟨hreg, hopen, rfl⟩
  · rintro ⟨hreg, hopen, hev⟩
    exact ⟨delivery.1, ⟨hreg, hopen⟩, by rw [← hev]⟩

theorem nodup_broadcast (activeConnections : ActiveConnections)
    (readyState : ChannelId → Nat) (event : ServerEvent)
    (hreg : (registrations activeConnections).Nodup) :
    (broadcast activeConnections readyState event).Nodup := by
  rw [broadcast_eq]
  apply List.Nodup.map
  · intro a b h
    exact (Prod.mk.inj h).1
  · exact hreg.filter _

/-! ## Notifications of the periodic cleanup -/

theorem sentBy_append (a b : List SweepEffect) : sentBy (a ++ b) = sentBy a ++ sentBy b := by
  induction a with
  | nil => rfl
  | cons effect rest ih =>
    cases effect with
    | removed id => simpa [sentBy] using ih
    | sent channel event => simp [sentBy, ih]

theorem sentBy_map_sent (deliveries : List Delivery) :
    sentBy (deliveries.map (fun delivery => SweepEffect.sent delivery.1 delivery.2))
      = deliveries := by
  induction deliveries with
  | nil => rfl
  | cons delivery rest ih => simp [sentBy, ih]

theorem announcements_append (activeConnections : ActiveConnections)
    (readyState : ChannelId → Nat) (a b : List String) :
    announcements activeConnections readyState (a ++ b) =
      announcements activeConnections readyState a
        ++ announcements activeConnections readyState b := by
  simp [announcements, List.flatMap_append]

theorem announcements_cons (activeConnections : ActiveConnections)
    (readyState : ChannelId → Nat) (id : String) (ids : List String) :
    announcements activeConnections readyState (id :: ids) =
      SweepEffect.removed id ::
        ((broadcast activeConnections readyState (.messageExpired id)).map
          (fun delivery => SweepEffect.sent delivery.1 delivery.2)
        ++ announcements activeConnections readyState ids) := by
  simp [announcements, List.flatMap_cons]

/-- The sweep with notifications is the sweep of the store, each announced id giving
its removal followed by its broadcast. -/
theorem cleanup_fold_eq (faults : DbFaults) (activeConnections : ActiveConnections)
    (readyState : ChannelId → Nat) (now : Int) (rest : MessagesDb) :
    ∀ state : SweepState,
      rest.foldl (cleanupMessage faults activeConnections readyState now)
          (state.db, announcements activeConnections readyState state.expired) =
        ((rest.foldl (sweepMessage faults now) state).db,
          announcements activeConnections readyState
            (rest.foldl (sweepMessage faults now) state).expired) := by
  induction rest with
  | nil => intro state; rfl
  | cons msg rest ih =>
    intro state
    rw [List.foldl_cons, List.foldl_cons]
    have hstep : cleanupMessage faults activeConnections readyState now
        (state.db, announcements activeConnections readyState state.expired) msg =
        ((sweepMessage faults now state msg).db,
          announcements activeConnections readyState
            (sweepMessage faults now state msg).expired) := by
      unfold cleanupMessage sweepMessage
      simp only
      by_cases hexp : sweepRemaining msg now ≤ 0
      · by_cases hfail : faults.removeFails msg.id = true
        · simp only [hexp, if_true, hfail]
        · simp only [hexp, if_true, hfail, Bool.false_eq_true, if_false,
            announcements_append]
          rw [announcements_cons]
          simp [announcements]
      · simp only [hexp, if_false]
    rw [hstep]
    exact ih _

theorem periodicCleanup_eq (faults : DbFaults) (activeConnections : ActiveConnections)
    (readyState : ChannelId → Nat) (db : MessagesDb) (now : Int) :
    periodicCleanup faults activeConnections readyState db now =
      ((expirySweep faults db now).db,
        announcements activeConnections readyState (expirySweep faults db now).expired) := by
  unfold periodicCleanup expirySweep
  by_cases hfind : faults.findFails = true
  · simp [hfind, announcements]
  · simp only [hfind, Bool.false_eq_true, if_false]
    exact cleanup_fold_eq faults activeConnections readyState now db
      { db := db, expired := [] }

theorem sentBy_announcements (activeConnections : ActiveConnections)
    (readyState : ChannelId → Nat) (ids : List String) :
    sentBy (announcements activeConnections readyState ids) =
      ids.flatMap (fun id => broadcast activeConnections readyState (.messageExpired id)) := by
  induction ids with
  | nil => rfl
  | cons id rest ih =>
    rw [announcements_cons, List.flatMap_cons]
    simp only [sentBy, sentBy_append, sentBy_map_sent, ih]

/-- In the effects of a sweep every `message-expired` is sent after the removal of its
message. -/
theorem removed_before_sent (activeConnections : ActiveConnections)
    (readyState : ChannelId → Nat) (ids : List String) :
    ∀ (before after : List SweepEffect) (channel : ChannelId) (id : String),
      announcements activeConnections readyState ids
        = before ++ SweepEffect.sent channel (.messageExpired id) :: after →
      SweepEffect.removed id ∈ before := by
  induction ids with
  | nil =>
    intro before after channel id h
    have : announcements activeConnections readyState [] = [] := rfl
    rw [this] at h
    exact absurd h (by simp)
  | cons first rest ih =>
    intro before after channel id h
    rw [announcements_cons] at h
    cases before with
    | nil => simp at h
    | cons effect before' =>
      rw [List.cons_append, List.cons_eq_cons] at h
      obtain ⟨heff, htail⟩ := h
      rw [List.append_eq_append_iff] at htail
      rcases htail with ⟨mid, hbefore, hrest⟩ | ⟨mid, hblock, hmid⟩
      · -- the send lies in the announcements of the later ids
        have := ih mid after channel id hrest
        rw [hbefore]
        exact List.mem_cons_of_mem _ (List.mem_append_right _ this)
      · cases mid with
        | nil =>
          have := ih [] after channel id (by simpa using hmid.symm)
          exact absurd this (List.not_mem_nil _)
        | cons effect2 mid' =>
          -- the send lies in the broadcast of the first id
          rw [List.cons_append, List.cons_eq_cons] at hmid
          have hmem : SweepEffect.sent channel (.messageExpired id)
              ∈ (broadcast activeConnections readyState (.messageExpired first)).map
                (fun delivery => SweepEffect.sent delivery.1 delivery.2) := by
            rw [hblock, ← hmid.1]
            exact List.mem_append_right _ (List.mem_cons_self _ _)
          rw [List.mem_map] at hmem
          obtain ⟨delivery, hdel, hsent⟩ := hmem
          have hev := ((mem_broadcast _ _ _ _).mp hdel).2.2
          have hinj : delivery.2 = ServerEvent.messageExpired id := by
            injection hsent
          rw [hev] at hinj
          have hid : first = id := by injection hinj
          rw [← heff, hid]
          exact List.mem_cons_self _ _

/-! ## Expiry events -/

theorem MessagesDb.eq_of_id_eq (db : MessagesDb) (hwf : MessagesDb.WF db) (a b : Message)
    (ha : a ∈ db) (hb : b ∈ db) (h : a.id = b.id) : a = b :=
  List.inj_on_of_nodup_map hwf ha hb h

theorem MessagesDb.WF_filter (db : MessagesDb) (hwf : MessagesDb.WF db)
    (p : Message → Bool) : MessagesDb.WF (db.filter p) :=
  List.Nodup.sublist ((List.filter_sublist db).map _) hwf

/-- The sends of one sweep: for every message classified as expired whose removal was
applied, in store order, the broadcast of its `message-expired`. -/
theorem sentBy_periodicCleanup (faults : DbFaults) (activeConnections : ActiveConnections)
    (readyState : ChannelId → Nat) (db : MessagesDb) (now : Int)
    (hfind : faults.findFails = false) (hwf : MessagesDb.WF db) :
    sentBy (periodicCleanup faults activeConnections readyState db now).2 =
      (db.filter (fun msg =>
          decide (sweepRemaining msg now ≤ 0) && !faults.removeFails msg.id)).flatMap
        (fun msg => broadcast activeConnections readyState (.messageExpired msg.id)) := by
  rw [periodicCleanup_eq, sentBy_announcements, expirySweep_eq faults db now hfind hwf]
  simp only [List.flatMap_map]

theorem mem_sentBy_periodicCleanup (faults : DbFaults)
    (activeConnections : ActiveConnections) (readyState : ChannelId → Nat)
    (db : MessagesDb) (now : Int) (hfind : faults.findFails = false)
    (hwf : MessagesDb.WF db) (channel : ChannelId) (event : ServerEvent) :
    (channel, event) ∈ sentBy (periodicCleanup faults activeConnections readyState db now).2
      ↔ ∃ msg ∈ db, event = .messageExpired msg.id
          ∧ msg.createdAt + msg.lifetime * 1000 < now + 1000
          ∧ faults.removeFails msg.id = false
          ∧ channel ∈ registrations activeConnections
          ∧ readyState channel = WebSocket.OPEN := by
  rw [sentBy_periodicCleanup faults activeConnections readyState db now hfind hwf,
    List.mem_flatMap]
  constructor
  · rintro ⟨msg, hmsg, hdel⟩
    rw [List.mem_filter] at hmsg
    have hcond := hmsg.2
    rw [Bool.and_eq_true, decide_eq_true_iff, Bool.not_eq_true'] at hcond
    rw [mem_broadcast] at hdel
    exact ⟨msg, hmsg.1, hdel.2.2, (sweepRemaining_le_zero_iff msg now).mp hcond.1, hcond.2,
      hdel.1, hdel.2.1⟩
  · rintro ⟨msg, hmsg, hev, hexp, hok, hreg, hopen⟩
    refine ⟨msg, List.mem_filter.mpr ⟨hmsg, ?_⟩, (mem_broadcast _ _ _ _).mpr ⟨hreg, hopen, hev⟩⟩
    rw [Bool.and_eq_true, decide_eq_true_iff, Bool.not_eq_true']
    exact ⟨(sweepRemaining_le_zero_iff msg now).mpr hexp, hok⟩

theorem nodup_sentBy_periodicCleanup (faults : DbFaults)
    (activeConnections : ActiveConnections) (readyState : ChannelId → Nat)
    (db : MessagesDb) (now : Int) (hfind : faults.findFails = false)
    (hwf : MessagesDb.WF db) (hreg : (registrations activeConnections).Nodup) :
    (sentBy (periodicCleanup faults activeConnections readyState db now).2).Nodup := by
  rw [sentBy_periodicCleanup faults activeConnections readyState db now hfind hwf,
    List.nodup_flatMap]
  constructor
  · intro msg _
    exact nodup_broadcast _ _ _ hreg
  · apply List.Pairwise.filter
    have hpair : List.Pairwise (fun a b : Message => a.id ≠ b.id) db :=
      List.pairwise_map.mp hwf
    refine hpair.imp ?_
    intro a b hne delivery ha hb
    rw [mem_broadcast] at ha hb
    have : ServerEvent.messageExpired a.id = ServerEvent.messageExpired b.id := by
      rw [← ha.2.2, ← hb.2.2]
    injection this with hid
    exact hne hid

/-- C11 (as amended): for every store content, every registry in which no connection
is registered twice, and every instant `now`, the events sent by one sweep are
exactly one `message-expired` carrying the message id, per open connection, for each
message with less than one whole second of lifetime left (floored `remaining <= 0`)
whose delete was applied; each is sent after that delete, when the store no longer
holds the message; none is sent for a message with a whole second left or whose
delete failed.  A message with lifetime 1 inserted at `t = 0` and swept at `t = 2 s`
is deleted and gives one event per connected channel. -/
theorem periodicCleanup_notifies (faults : DbFaults) (activeConnections : ActiveConnections)
    (readyState : ChannelId → Nat) (db : MessagesDb) (now : Int)
    (hfind : faults.findFails = false) (hwf : MessagesDb.WF db)
    (hreg : (registrations activeConnections).Nodup) :
    (sentBy (periodicCleanup faults activeConnections readyState db now).2).Nodup
      ∧ (∀ channel event,
          (channel, event)
              ∈ sentBy (periodicCleanup faults activeConnections readyState db now).2
            ↔ ∃ msg ∈ db, event = .messageExpired msg.id
                ∧ msg.createdAt + msg.lifetime * 1000 < now + 1000
                ∧ faults.removeFails msg.id = false
                ∧ channel ∈ registrations activeConnections
                ∧ readyState channel = WebSocket.OPEN)
      ∧ (∀ (before after : List SweepEffect) (channel : ChannelId) (id : String),
          (periodicCleanup faults activeConnections readyState db now).2
              = before ++ SweepEffect.sent channel (.messageExpired id) :: after →
            SweepEffect.removed id ∈ before)
      ∧ (∀ channel id,
          (channel, ServerEvent.messageExpired id)
              ∈ sentBy (periodicCleanup faults activeConnections readyState db now).2 →
            ∀ msg ∈ (periodicCleanup faults activeConnections readyState db now).1,
              msg.id ≠ id)
      ∧ periodicCleanup DbFaults.none threeChannels allOpen [sampleMessage] 2000
          = ([], [.removed "m1", .sent 1 (.messageExpired "m1"),
                  .sent 2 (.messageExpired "m1"), .sent 3 (.messageExpired "m1")]) := by
  refine ⟨nodup_sentBy_periodicCleanup faults activeConnections readyState db now hfind
      hwf hreg,
    mem_sentBy_periodicCleanup faults activeConnections readyState db now hfind hwf,
    ?_, ?_, by decide!⟩
  · intro before after channel id h
    rw [periodicCleanup_eq] at h
    exact removed_before_sent activeConnections readyState _ before after channel id h
  · intro channel id hsent msg hmsg hid
    obtain ⟨gone, hgone, hev, hexp, hok, _, _⟩ :=
      (mem_sentBy_periodicCleanup faults activeConnections readyState db now hfind hwf
        channel (.messageExpired id)).mp hsent
    have hgid : id = gone.id := by injection hev
    rw [periodicCleanup_eq, expirySweep_eq faults db now hfind hwf] at hmsg
    rw [List.mem_filter] at hmsg
    have hsame : msg = gone :=
      MessagesDb.eq_of_id_eq db hwf msg gone hmsg.1 hgone (by rw [hid, hgid])
    have hcond := hmsg.2
    rw [hsame, hok, Bool.or_false, Bool.not_eq_true', decide_eq_false_iff_not] at hcond
    exact hcond ((sweepRemaining_le_zero_iff gone now).mpr hexp)

theorem periodicCleanup_notifies_witness :
    (sentBy (periodicCleanup failingRemove threeChannels allOpen
          [sampleMessage, sampleLongMessage] 2000).2).Nodup
      ∧ (∀ channel event,
          (channel, event)
              ∈ sentBy (periodicCleanup failingRemove threeChannels allOpen
                  [sampleMessage, sampleLongMessage] 2000).2
            ↔ ∃ msg ∈ [sampleMessage, sampleLongMessage], event = .messageExpired msg.id
                ∧ msg.createdAt + msg.lifetime * 1000 < (2000 : Int) + 1000
                ∧ failingRemove.removeFails msg.id = false
                ∧ channel ∈ registrations threeChannels
                ∧ allOpen channel = WebSocket.OPEN)
      ∧ (∀ (before after : List SweepEffect) (channel : ChannelId) (id : String),
          (periodicCleanup failingRemove threeChannels allOpen
              [sampleMessage, sampleLongMessage] 2000).2
              = before ++ SweepEffect.sent channel (.messageExpired id) :: after →
            SweepEffect.removed id ∈ before)
      ∧ (∀ channel id,
          (channel, ServerEvent.messageExpired id)
              ∈ sentBy (periodicCleanup failingRemove threeChannels allOpen
                  [sampleMessage, sampleLongMessage] 2000).2 →
            ∀ msg ∈ (periodicCleanup failingRemove threeChannels allOpen
                [sampleMessage, sampleLongMessage] 2000).1,
              msg.id ≠ id)
      ∧ periodicCleanup DbFaults.none threeChannels allOpen [sampleMessage] 2000
          = ([], [.removed "m1", .sent 1 (.messageExpired "m1"),
                  .sent 2 (.messageExpired "m1"), .sent 3 (.messageExpired "m1")]) :=
  periodicCleanup_notifies failingRemove threeChannels allOpen
    [sampleMessage, sampleLongMessage] 2000 rfl (by unfold MessagesDb.WF; decide)
    (by decide)

/-- C11 (as stated) fails in two ways.  A message created at instant 0 with a
lifetime of one second, swept 500 ms later, is announced as expired while its expiry
instant is still in the future; and a connection registered under two usernames
receives the `message-expired` of one message twice. -/
theorem periodicCleanup_early_and_twice :
    ((500 : Int) < sampleMessage.createdAt + sampleMessage.lifetime * 1000
        ∧ periodicCleanup DbFaults.none [("alice", [1])] allOpen [sampleMessage] 500
          = ([], [.removed "m1", .sent 1 (.messageExpired "m1")]))
      ∧ sentBy (periodicCleanup DbFaults.none [("alice", [1]), ("bob", [1])] allOpen
          [sampleMessage] 2000).2
        = [(1, .messageExpired "m1"), (1, .messageExpired "m1")] := by
  refine ⟨⟨by decide, by decide!⟩, by decide!⟩

/-- C17: when the delete of some expired messages fails, every other expired message
is still deleted and announced in the same sweep, and each message whose delete failed
stays in the store, where every later sweep classifies it as expired again and
removes it once its delete succeeds. -/
theorem periodicCleanup_isolation (faults : DbFaults) (activeConnections : ActiveConnections)
    (readyState : ChannelId → Nat) (db : MessagesDb) (now : Int)
    (hfind : faults.findFails = false) (hwf : MessagesDb.WF db) :
    (∀ msg ∈ db, sweepRemaining msg now ≤ 0 → faults.removeFails msg.id = false →
        msg ∉ (periodicCleanup faults activeConnections readyState db now).1
        ∧ SweepEffect.removed msg.id
            ∈ (periodicCleanup faults activeConnections readyState db now).2
        ∧ ∀ channel ∈ registrations activeConnections,
            readyState channel = WebSocket.OPEN →
            (channel, ServerEvent.messageExpired msg.id)
              ∈ sentBy (periodicCleanup faults activeConnections readyState db now).2)
      ∧ (∀ msg ∈ db, sweepRemaining msg now ≤ 0 → faults.removeFails msg.id = true →
          msg ∈ (periodicCleanup faults activeConnections readyState db now).1
          ∧ ∀ later, now ≤ later →
              sweepRemaining msg later ≤ 0
              ∧ ∀ next : DbFaults, next.findFails = false →
                  next.removeFails msg.id = false →
                  msg ∉ (periodicCleanup next activeConnections readyState
                    (periodicCleanup faults activeConnections readyState db now).1
                    later).1) := by
  have hdb : (periodicCleanup faults activeConnections readyState db now).1
      = db.filter (fun msg =>
          !decide (sweepRemaining msg now ≤ 0) || faults.removeFails msg.id) := by
    rw [periodicCleanup_eq, expirySweep_eq faults db now hfind hwf]
  constructor
  · intro msg hmsg hexp hok
    refine ⟨?_, ?_, ?_⟩
    · rw [hdb, List.mem_filter]
      rintro ⟨_, hcond⟩
      simp [hexp, hok] at hcond
    · rw [periodicCleanup_eq, expirySweep_eq faults db now hfind hwf]
      simp only [announcements, List.mem_flatMap, List.mem_map, List.mem_filter]
      refine ⟨msg.id, ⟨msg, ⟨hmsg, ?_⟩, rfl⟩, List.mem_cons_self _ _⟩
      simp [hexp, hok]
    · intro channel hreg hopen
      exact (mem_sentBy_periodicCleanup faults activeConnections readyState db now hfind
        hwf channel _).mpr
        ⟨msg, hmsg, rfl, (sweepRemaining_le_zero_iff msg now).mp hexp, hok, hreg, hopen⟩
  · intro msg hmsg hexp hfail
    have hkept : msg ∈ (periodicCleanup faults activeConnections readyState db now).1 := by
      rw [hdb, List.mem_filter]
      exact ⟨hmsg, by simp [hfail]⟩
    refine ⟨hkept, ?_⟩
    intro later hlater
    have hexp' : sweepRemaining msg later ≤ 0 := by
      rw [sweepRemaining_le_zero_iff] at hexp ⊢
      omega
    refine ⟨hexp', ?_⟩
    intro next hnfind hnok
    have hwf' : MessagesDb.WF
        (periodicCleanup faults activeConnections readyState db now).1 := by
      rw [hdb]; exact MessagesDb.WF_filter db hwf _
    rw [periodicCleanup_eq, expirySweep_eq next _ later hnfind hwf', List.mem_filter]
    rintro ⟨_, hcond⟩
    simp [hexp', hnok] at hcond

theorem periodicCleanup_isolation_witness :
    (∀ msg ∈ [sampleMessage, sampleLongMessage], sweepRemaining msg 700000 ≤ 0 →
        failingRemove.removeFails msg.id = false →
        msg ∉ (periodicCleanup failingRemove threeChannels allOpen
            [sampleMessage, sampleLongMessage] 700000).1
        ∧ SweepEffect.removed msg.id
            ∈ (periodicCleanup failingRemove threeChannels allOpen
                [sampleMessage, sampleLongMessage] 700000).2
        ∧ ∀ channel ∈ registrations threeChannels,
            allOpen channel = WebSocket.OPEN →
            (channel, ServerEvent.messageExpired msg.id)
              ∈ sentBy (periodicCleanup failingRemove threeChannels allOpen
                  [sampleMessage, sampleLongMessage] 700000).2)
      ∧ (∀ msg ∈ [sampleMessage, sampleLongMessage], sweepRemaining msg 700000 ≤ 0 →
          failingRemove.removeFails msg.id = true →
          msg ∈ (periodicCleanup failingRemove threeChannels allOpen
              [sampleMessage, sampleLongMessage] 700000).1
          ∧ ∀ later, (700000 : Int) ≤ later →
              sweepRemaining msg later ≤ 0
              ∧ ∀ next : DbFaults, next.findFails = false →
                  next.removeFails msg.id = false →
                  msg ∉ (periodicCleanup next threeChannels allOpen
                    (periodicCleanup failingRemove threeChannels allOpen
                      [sampleMessage, sampleLongMessage] 700000).1
                    later).1) :=
  periodicCleanup_isolation failingRemove threeChannels allOpen
    [sampleMessage, sampleLongMessage] 700000 rfl (by unfold MessagesDb.WF; decide)

/-! ## Initial load -/

theorem reduceOption_filter_isActive_map (views : List (Option ActiveMessage)) :
    (views.filter isActive).reduceOption =
      views.filterMap (fun view =>
        match view with
        | some active => if active.remaining > 0 then some active else none
        | none => none) := by
  induction views with
  | nil => rfl
  | cons view rest ih =>
    cases view with
    | none => simpa [isActive, List.filter_cons, List.filterMap_cons] using ih
    | some active =>
      by_cases hpos : active.remaining > 0
      · simp [isActive, List.filter_cons, List.filterMap_cons, hpos,
          List.reduceOption_cons_of_some, ih]
      · simp only [isActive, List.filter_cons, List.filterMap_cons, hpos, decide_False,
          Bool.false_eq_true, if_false]
        exact ih

/-- The response of `GET /api/messages`, document by document: the `i`-th document
is listed when it decrypts and has a whole second left at the instant `clock i`. -/
theorem listActive_eq (aes : BlockCipher) (faults : DbFaults) (db : MessagesDb)
    (clock : Nat → Int) (hfind : faults.findFails = false) :
    listActive aes faults db clock =
      .ok (db.enum.filterMap (fun indexed => activeView aes (clock indexed.1) indexed.2)) := by
  unfold listActive
  simp only [hfind, Bool.false_eq_true, if_false]
  rw [reduceOption_filter_isActive_map, List.filterMap_map]
  rfl

theorem filterMap_enumFrom_const {β : Type} (f : Message → Option β) (db : MessagesDb) :
    ∀ start, (List.enumFrom start db).filterMap (fun indexed => f indexed.2)
      = db.filterMap f := by
  induction db with
  | nil => intro start; rfl
  | cons msg rest ih =>
    intro start
    rw [List.enumFrom_cons, List.filterMap_cons, List.filterMap_cons, ih (start + 1)]

theorem listActive_at (aes : BlockCipher) (faults : DbFaults) (db : MessagesDb)
    (now : Int) (hfind : faults.findFails = false) :
    listActive aes faults db (fun _ => now) = .ok (db.filterMap (activeView aes now)) := by
  rw [listActive_eq aes faults db _ hfind]
  exact congrArg Except.ok (filterMap_enumFrom_const (activeView aes now) db 0)

theorem activeView_eq_some (aes : BlockCipher) (now : Int) (msg : Message)
    (active : ActiveMessage) :
    activeView aes now msg = some active ↔
      ∃ text, decryptMessage aes msg.encryptedContent msg.encryptionKey = .ok text
        ∧ remainingSeconds msg.createdAt msg.lifetime now > 0
        ∧ active = { id := msg.id, username := msg.username, message := text,
                     createdAt := msg.createdAt, lifetime := msg.lifetime,
                     expiresAt := expiresAt msg.createdAt msg.lifetime,
                     remaining := remainingSeconds msg.createdAt msg.lifetime now } := by
  unfold activeView viewMessage
  cases hdec : decryptMessage aes msg.encryptedContent msg.encryptionKey with
  | error message => simp
  | ok text =>
    simp only
    by_cases hpos : remainingSeconds msg.createdAt msg.lifetime now > 0
    · simp only [hpos, if_true, Option.some.injEq, Except.ok.injEq]
      constructor
      · intro h; exact ⟨text, rfl, trivial, h.symm⟩
      · rintro ⟨text', rfl, _, h⟩; exact h.symm
    · simp only [hpos, if_false]
      constructor
      · intro h; exact absurd h (by simp)
      · rintro ⟨_, _, h, _⟩; exact h.elim

theorem activeView_of_decrypt_error (aes : BlockCipher) (now : Int) (msg : Message)
    (message : String)
    (h : decryptMessage aes msg.encryptedContent msg.encryptionKey = .error message) :
    activeView aes now msg = none := by
  unfold activeView viewMessage
  rw [h]

/-- C12: for every store content and instant `now`, `GET /api/messages` returns
exactly the stored messages that decrypt under their stored key and whose `remaining`
at `now` is positive, in store order, each with its plaintext, id, sender, createdAt,
lifetime and remaining; a message whose decryption fails is left out, and neither
makes the call fail nor changes which other messages are returned. -/
theorem listActive_returns (aes : BlockCipher) (faults : DbFaults) (db : MessagesDb)
    (now : Int) (hfind : faults.findFails = false) :
    listActive aes faults db (fun _ => now) = .ok (db.filterMap (activeView aes now))
      ∧ (∀ active, active ∈ db.filterMap (activeView aes now) ↔
          ∃ msg ∈ db, ∃ text,
            decryptMessage aes msg.encryptedContent msg.encryptionKey = .ok text
            ∧ remainingSeconds msg.createdAt msg.lifetime now > 0
            ∧ active = { id := msg.id, username := msg.username, message := text,
                         createdAt := msg.createdAt, lifetime := msg.lifetime,
                         expiresAt := expiresAt msg.createdAt msg.lifetime,
                         remaining := remainingSeconds msg.createdAt msg.lifetime now })
      ∧ (∀ (before after : MessagesDb) (corrupted : Message) (message : String),
          db = before ++ corrupted :: after →
          decryptMessage aes corrupted.encryptedContent corrupted.encryptionKey
            = .error message →
          listActive aes faults db (fun _ => now)
            = listActive aes faults (before ++ after) (fun _ => now)) := by
  refine ⟨listActive_at aes faults db now hfind, ?_, ?_⟩
  · intro active
    rw [List.mem_filterMap]
    constructor
    · rintro ⟨msg, hmsg, hview⟩
      exact ⟨msg, hmsg, (activeView_eq_some aes now msg active).mp hview⟩
    · rintro ⟨msg, hmsg, hrest⟩
      exact ⟨msg, hmsg, (activeView_eq_some aes now msg active).mpr hrest⟩
  · intro before after corrupted message hdb hfail
    rw [listActive_at aes faults db now hfind, listActive_at aes faults _ now hfind, hdb,
      List.filterMap_append, List.filterMap_append,
      List.filterMap_cons_none (activeView_of_decrypt_error aes now corrupted message hfail)]

theorem listActive_returns_witness :
    listActive toyCipher DbFaults.none [sampleMessage, sampleStored] (fun _ => 1000)
        = .ok ([sampleMessage, sampleStored].filterMap (activeView toyCipher 1000))
      ∧ (∀ active,
          active ∈ [sampleMessage, sampleStored].filterMap (activeView toyCipher 1000) ↔
          ∃ msg ∈ [sampleMessage, sampleStored], ∃ text,
            decryptMessage toyCipher msg.encryptedContent msg.encryptionKey = .ok text
            ∧ remainingSeconds msg.createdAt msg.lifetime 1000 > 0
            ∧ active = { id := msg.id, username := msg.username, message := text,
                         createdAt := msg.createdAt, lifetime := msg.lifetime,
                         expiresAt := expiresAt msg.createdAt msg.lifetime,
                         remaining := remainingSeconds msg.createdAt msg.lifetime 1000 })
      ∧ (∀ (before after : MessagesDb) (corrupted : Message) (message : String),
          [sampleMessage, sampleStored] = before ++ corrupted :: after →
          decryptMessage toyCipher corrupted.encryptedContent corrupted.encryptionKey
            = .error message →
          listActive toyCipher DbFaults.none [sampleMessage, sampleStored] (fun _ => 1000)
            = listActive toyCipher DbFaults.none (before ++ after) (fun _ => 1000)) :=
  listActive_returns toyCipher DbFaults.none [sampleMessage, sampleStored] 1000 rfl

theorem mem_enum_mem {α : Type} (l : List α) (indexed : Nat × α) (h : indexed ∈ l.enum) :
    indexed.2 ∈ l := by
  have := List.mem_enumFrom h
  rw [this.2.2]
  exact List.getElem_mem _

/-- C13: if a sweep at `t` classifies a stored message as expired, then
`GET /api/messages` evaluated at any later instants does not return that message,
whether or not the record is still in the store. -/
theorem no_reappearance (aes : BlockCipher) (faults : DbFaults) (db : MessagesDb)
    (msg : Message) (t : Int) (clock : Nat → Int)
    (hwf : MessagesDb.WF db) (hmsg : msg ∈ db)
    (hexpired : sweepRemaining msg t ≤ 0) (hlater : ∀ i, t ≤ clock i) :
    ∀ listed, listActive aes faults db clock = .ok listed →
      ∀ active ∈ listed, active.id ≠ msg.id := by
  intro listed hlisted active hactive hid
  have hfind : faults.findFails = false := by
    by_contra hc
    have hf : faults.findFails = true := by simpa using hc
    simp [listActive, hf] at hlisted
  rw [listActive_eq aes faults db clock hfind] at hlisted
  have hl := Except.ok.inj hlisted
  rw [← hl, List.mem_filterMap] at hactive
  obtain ⟨indexed, hindexed, hview⟩ := hactive
  obtain ⟨text, _, hpos, hshape⟩ :=
    (activeView_eq_some aes (clock indexed.1) indexed.2 active).mp hview
  have hsameId : indexed.2.id = msg.id := by
    rw [← hid, hshape]
  have hsame : indexed.2 = msg :=
    MessagesDb.eq_of_id_eq db hwf _ _ (mem_enum_mem db indexed hindexed) hmsg hsameId
  rw [hsame] at hpos
  have h1 := (sweepRemaining_le_zero_iff msg t).mp hexpired
  have h2 := (remainingSeconds_pos_iff msg.createdAt msg.lifetime (clock indexed.1)).mp hpos
  have h3 := hlater indexed.1
  omega

theorem no_reappearance_witness :
    sweepRemaining sampleMessage 500 ≤ 0
      ∧ sampleMessage ∈ [sampleMessage, sampleStored]
      ∧ ∀ listed, listActive toyCipher DbFaults.none [sampleMessage, sampleStored]
          (fun i => 500 + i) = .ok listed →
        ∀ active ∈ listed, active.id ≠ sampleMessage.id :=
  ⟨by decide!, by simp,
    no_reappearance toyCipher DbFaults.none [sampleMessage, sampleStored] sampleMessage 500
      (fun i => 500 + i) (by unfold MessagesDb.WF; decide) (by simp) (by decide!)
      (fun i => by show (500 : Int) ≤ 500 + (i : Int); omega)⟩

/-! ## Subscriber registry -/

theorem JSMap.mem_set {β : Type} (m : JSMap β) (k : String) (v : β) (entry : String × β)
    (h : entry ∈ JSMap.set m k v) : entry = (k, v) ∨ (entry ∈ m ∧ entry.1 ≠ k) := by
  unfold JSMap.set at h
  by_cases hhas : JSMap.has m k = true
  · rw [if_pos hhas] at h
    obtain ⟨kv, hkv, heq⟩ := List.mem_map.mp h
    by_cases hk : (kv.1 == k) = true
    · rw [if_pos hk] at heq
      exact Or.inl heq.symm
    · rw [if_neg hk] at heq
      subst heq
      exact Or.inr ⟨hkv, fun hcontra => hk (by rw [hcontra]; exact beq_self_eq_true k)⟩
  · rw [if_neg hhas] at h
    rcases List.mem_append.mp h with hm | hlast
    · refine Or.inr ⟨hm, fun hcontra => hhas ?_⟩
      unfold JSMap.has
      exact List.any_eq_true.mpr ⟨entry, hm, by rw [hcontra]; exact beq_self_eq_true k⟩
    · exact Or.inl (List.mem_singleton.mp hlast)

theorem JSSet.add_ne_nil (set : List ChannelId) (ws : ChannelId) : JSSet.add set ws ≠ [] := by
  unfold JSSet.add
  by_cases h : set.contains ws = true
  · rw [if_pos h]
    intro hnil
    rw [hnil] at h
    simp at h
  · rw [if_neg h]
    exact List.append_ne_nil_of_right_ne_nil _ (List.cons_ne_nil _ _)

/-- No handler leaves a username with an empty set of connections. -/
theorem hubStep_no_empty_set (server : Server) (event : HubEvent)
    (h : ∀ entry ∈ server.activeConnections, entry.2 ≠ []) :
    ∀ entry ∈ (hubStep server event).activeConnections, entry.2 ≠ [] := by
  cases event with
  | auth ws username =>
    intro entry hentry
    simp only [hubStep, onAuth] at hentry
    rcases JSMap.mem_set _ _ _ _ hentry with heq | ⟨hmem, hkey⟩
    · rw [heq]
      exact JSSet.add_ne_nil _ _
    · by_cases hhas : JSMap.has server.activeConnections username = true
      · simp only [hhas, Bool.not_true, Bool.false_eq_true, if_false] at hmem
        exact h entry hmem
      · simp only [hhas, Bool.not_false, if_true] at hmem
        rcases JSMap.mem_set _ _ _ _ hmem with heq | ⟨hmem', _⟩
        · exact absurd (congrArg Prod.fst heq) hkey
        · exact h entry hmem'
  | close ws =>
    intro entry hentry
    simp only [hubStep, onClose] at hentry
    cases hname : server.username ws with
    | none =>
      rw [hname] at hentry
      exact h entry hentry
    | some username =>
      rw [hname] at hentry
      simp only at hentry
      by_cases hcond : (truthy (some username)
          && JSMap.has server.activeConnections username) = true
      · rw [if_pos hcond] at hentry
        by_cases hlen : (JSSet.delete
            ((JSMap.get server.activeConnections username).getD []) ws).length = 0
        · rw [if_pos hlen] at hentry
          have hfilter := List.mem_filter.mp hentry
          have hkey : entry.1 ≠ username := by simpa using hfilter.2
          rcases JSMap.mem_set _ _ _ _ hfilter.1 with heq | ⟨hmem, _⟩
          · exact absurd (congrArg Prod.fst heq) hkey
          · exact h entry hmem
        · rw [if_neg hlen] at hentry
          rcases JSMap.mem_set _ _ _ _ hentry with heq | ⟨hmem, _⟩
          · rw [heq]
            intro hnil
            exact hlen (congrArg List.length (show JSSet.delete
              ((JSMap.get server.activeConnections username).getD []) ws = [] from hnil))
          · exact h entry hmem
      · rw [if_neg hcond] at hentry
        exact h entry hentry

theorem foldl_hubStep_no_empty_set (events : List HubEvent) (server : Server)
    (h : ∀ entry ∈ server.activeConnections, entry.2 ≠ []) :
    ∀ entry ∈ (events.foldl hubStep server).activeConnections, entry.2 ≠ [] := by
  induction events generalizing server with
  | nil => exact h
  | cons event rest ih => exact ih (hubStep server event) (hubStep_no_empty_set server event h)

/-- After any sequence of `auth` and `close` events no username of the registry has an
empty set of connections. -/
theorem runHub_no_empty_set (events : List HubEvent) :
    ∀ entry ∈ (runHub events).activeConnections, entry.2 ≠ [] :=
  foldl_hubStep_no_empty_set events Server.init (fun _ hentry => nomatch hentry)

/-- Three open connections under three usernames: one broadcast is three sends, one per
connection, in the order of registration; a connection that is not open is skipped and
the ones after it still receive the event. -/
theorem broadcast_threeChannels (event : ServerEvent) :
    (runHub [.auth 1 "alice", .auth 2 "bob", .auth 3 "carol"]).activeConnections
        = threeChannels
      ∧ broadcast threeChannels allOpen event = [(1, event), (2, event), (3, event)]
      ∧ broadcast threeChannels
          (fun client => if client = 2 then WebSocket.CLOSED else WebSocket.OPEN) event
          = [(1, event), (3, event)] :=
  ⟨by decide, rfl, rfl⟩

/-- C14 (divergence): a connection that sends `auth` as "alice" and then as "bob" is
registered under both usernames, and one broadcast sends the event to it twice. -/
theorem reauth_delivers_twice :
    (runHub [.auth 1 "alice", .auth 1 "bob"]).activeConnections
        = [("alice", [1]), ("bob", [1])]
      ∧ broadcast (runHub [.auth 1 "alice", .auth 1 "bob"]).activeConnections allOpen
          (.messageExpired "m1")
          = [(1, .messageExpired "m1"), (1, .messageExpired "m1")] := by
  decide

/-- C15 (divergence): a connection that sent `auth` as "alice" and then as "bob" is
still in the set of "alice" after its close has been handled; so is a connection that
sent `auth` with the empty username, which the close handler reads as not
authenticated. -/
theorem close_leaves_registration :
    (runHub [.auth 1 "alice", .auth 1 "bob", .close 1]).activeConnections
        = [("alice", [1])]
      ∧ 1 ∈ registrations
          (runHub [.auth 1 "alice", .auth 1 "bob", .close 1]).activeConnections
      ∧ (runHub [.auth 1 "", .close 1]).activeConnections = [("", [1])] := by
  decide

/-! ## The message handler -/

theorem onMessage_chat (aes : BlockCipher) (readyState : ChannelId → Nat)
    (inputs : ChatInputs) (ws : ChannelId) (text : Option JSString) (server : Server)
    (username : String) (hbound : server.username ws = some username)
    (hname : username ≠ "") :
    onMessage aes readyState inputs ws (.chat text) server
      = onChat aes readyState inputs ws username text server := by
  simp [onMessage, hbound, truthy, hname]

/-- With a 32-byte key and a 16-byte IV the chat handler gets as far as the insert,
with the envelope of the text and the lifetime of `calculateLifetime`. -/
theorem chatNewMessage_ok (aes : BlockCipher) (haes : aes.Lawful) (username : String)
    (text : JSString) (messageCounts : MessageCounts) (now createdAt : Int)
    (keyBytes iv : Buffer) (hbytes : Buffer.Valid (utf8Encode text))
    (hk : keyBytes.length = 32) (hkv : Buffer.Valid keyBytes)
    (hiv : iv.length = 16) (hivv : Buffer.Valid iv) :
    (chatNewMessage aes username text messageCounts now createdAt keyBytes iv).2 =
      .ok { username := username,
            encryptedContent := toBase64 iv ++ COLON ::
              toBase64 (aes.encrypt keyBytes iv (utf8Encode text)),
            encryptionKey := generateKey keyBytes, createdAt := createdAt,
            lifetime := (calculateLifetime username messageCounts now).1 } := by
  have henc := (decrypt_encrypt aes haes text keyBytes iv hbytes hk hkv hiv hivv).1
  simp only [chatNewMessage, henc]

/-- C16: if the store insert of a chat message fails, the send is aborted: the
sending channel receives exactly one error event, no `new-message` is delivered to
any channel, and the store holds no record for that message. -/
theorem insert_failure_aborts (aes : BlockCipher) (readyState : ChannelId → Nat)
    (inputs : ChatInputs) (ws : ChannelId) (text : JSString) (server : Server)
    (username : String) (newMessage : NewMessage)
    (hbound : server.username ws = some username) (hname : username ≠ "")
    (hbuilt : (chatNewMessage aes username text server.messageCounts inputs.now
      inputs.createdAt inputs.keyBytes inputs.iv).2 = .ok newMessage)
    (hinsert : inputs.insertResult = none) :
    (onMessage aes readyState inputs ws (.chat (some text)) server).2
        = [(ws, .error "Failed to send message")]
      ∧ (onMessage aes readyState inputs ws (.chat (some text)) server).1.messagesDb
        = server.messagesDb
      ∧ (∀ delivery ∈ (onMessage aes readyState inputs ws (.chat (some text)) server).2,
          ∀ id sender message createdAt lifetime expires remaining,
            delivery.2 ≠ .newMessage id sender message createdAt lifetime expires remaining)
      ∧ (onMessage aes readyState inputs ws (.chat (some text)) server).1.activeConnections
        = server.activeConnections := by
  rw [onMessage_chat aes readyState inputs ws (some text) server username hbound hname]
  have hrun : onChat aes readyState inputs ws username (some text) server =
      ({ server with messageCounts := (chatNewMessage aes username text
            server.messageCounts inputs.now inputs.createdAt inputs.keyBytes inputs.iv).1 },
        [(ws, .error "Failed to send message")]) := by
    simp only [onChat, hbuilt, hinsert]
  rw [hrun]
  refine ⟨rfl, rfl, ?_, rfl⟩
  intro delivery hdel
  rw [List.mem_singleton] at hdel
  rw [hdel]
  intro id sender message createdAt lifetime expires remaining h
  exact ServerEvent.noConfusion h

theorem insert_failure_aborts_witness :
    (onMessage toyCipher allOpen failingInsert 1 (.chat (some sampleText)) sampleServer).2
        = [(1, .error "Failed to send message")]
      ∧ (onMessage toyCipher allOpen failingInsert 1 (.chat (some sampleText))
          sampleServer).1.messagesDb = sampleServer.messagesDb
      ∧ (∀ delivery ∈ (onMessage toyCipher allOpen failingInsert 1
            (.chat (some sampleText)) sampleServer).2,
          ∀ id sender message createdAt lifetime expires remaining,
            delivery.2 ≠ .newMessage id sender message createdAt lifetime expires remaining)
      ∧ (onMessage toyCipher allOpen failingInsert 1 (.chat (some sampleText))
          sampleServer).1.activeConnections = sampleServer.activeConnections :=
  insert_failure_aborts toyCipher allOpen failingInsert 1 sampleText sampleServer "alice"
    { username := "alice",
      encryptedContent := toBase64 sampleIV ++ COLON ::
        toBase64 (toyCipher.encrypt sampleKeyBytes sampleIV (utf8Encode sampleText)),
      encryptionKey := generateKey sampleKeyBytes, createdAt := 5,
      lifetime := (calculateLifetime "alice" sampleServer.messageCounts 0).1 }
    (by decide) (by decide)
    (chatNewMessage_ok toyCipher toyCipher_lawful "alice" sampleText
      sampleServer.messageCounts 0 5 sampleKeyBytes sampleIV
      (utf8Encode_valid sampleText (by decide)) (by decide) sampleKeyBytes_valid
      (by decide) sampleIV_valid)
    rfl

/-- C18 (as amended): for a payload on which `JSON.parse` throws or that is the JSON
value `null`, and for a chat event from a channel bound to a non-empty username that
carries no text string, the sending channel receives exactly one error event, no
other channel receives anything, no message is inserted into the store, and the
channel stays registered.  (The chat event without text still records a send in the
sender's activity window.) -/
theorem malformed_event_reported (aes : BlockCipher) (readyState : ChannelId → Nat)
    (inputs : ChatInputs) (ws : ChannelId) (server : Server) :
    onMessage aes readyState inputs ws .syntaxError server
        = (server, [(ws, .error "Invalid message format")])
      ∧ onMessage aes readyState inputs ws .null server
        = (server, [(ws, .error "Invalid message format")])
      ∧ (∀ username, server.username ws = some username → username ≠ "" →
          (onMessage aes readyState inputs ws (.chat none) server).2
              = [(ws, .error "Invalid message format")]
            ∧ (onMessage aes readyState inputs ws (.chat none) server).1.messagesDb
              = server.messagesDb
            ∧ (onMessage aes readyState inputs ws (.chat none) server).1.activeConnections
              = server.activeConnections
            ∧ (onMessage aes readyState inputs ws (.chat none) server).1.username
              = server.username
            ∧ (onMessage aes readyState inputs ws (.chat none) server).1.messageCounts
              = (calculateLifetime username server.messageCounts inputs.now).2) := by
  refine ⟨rfl, rfl, ?_⟩
  intro username hbound hname
  rw [onMessage_chat aes readyState inputs ws none server username hbound hname]
  exact ⟨rfl, rfl, rfl, rfl, rfl⟩

/-- C18 (as stated) fails on a payload that is JSON but not an object: the payload
`5` parses to a number, its `type` reads `undefined`, and the handler returns without
sending anything. -/
theorem non_object_payload_ignored :
    (onMessage toyCipher allOpen failingInsert 1 .other sampleServer).2 = []
      ∧ (onMessage toyCipher allOpen failingInsert 1 .other sampleServer).1.messagesDb
        = sampleServer.messagesDb := by
  exact ⟨rfl, rfl⟩

/-! ## Connections without a username -/

/-- The closure variable `username` of a connection is assigned only by an `auth`
message on that connection. -/
theorem onMessage_username (aes : BlockCipher) (readyState : ChannelId → Nat)
    (inputs : ChatInputs) (sender ws : ChannelId) (parsed : Parsed) (server : Server)
    (h : sender ≠ ws ∨ ∀ username, parsed ≠ .auth username) :
    (onMessage aes readyState inputs sender parsed server).1.username ws
      = server.username ws := by
  cases parsed with
  | syntaxError => rfl
  | null => rfl
  | other => rfl
  | auth username =>
    rcases h with hne | hauth
    · simp only [onMessage, onAuth]
      exact Function.update_noteq (Ne.symm hne) _ _
    · exact absurd rfl (hauth username)
  | chat text =>
    simp only [onMessage]
    cases hname : server.username sender with
    | none => simp only [hname]
    | some username =>
      simp only
      by_cases htruthy : truthy (some username) = true
      · rw [if_pos htruthy]
        unfold onChat
        cases text with
        | none => rfl
        | some text =>
          simp only
          cases (chatNewMessage aes username text server.messageCounts inputs.now
            inputs.createdAt inputs.keyBytes inputs.iv).2 with
          | error message => rfl
          | ok newMessage =>
            simp only
            cases inputs.insertResult with
            | none => rfl
            | some id => rfl
      · rw [if_neg htruthy]

theorem onClose_username (sender : ChannelId) (server : Server) :
    (onClose sender server).username = server.username := by
  unfold onClose
  cases server.username sender with
  | none => rfl
  | some username =>
    simp only
    split
    · split <;> rfl
    · rfl

/-- A chat message with text from a connection bound to a username, when the insert
succeeds, does have effects: the document is stored and `new-message` is sent to
every open connection. -/
theorem bound_chat_delivers :
    ((onMessage toyCipher allOpen sampleInputs 1 (.chat (some sampleText))
        sampleServer).2.map Prod.fst = [1, 2])
      ∧ (onMessage toyCipher allOpen sampleInputs 1 (.chat (some sampleText))
          sampleServer).1.messagesDb.map Message.id = ["m9"] := by
  have hbuilt := chatNewMessage_ok toyCipher toyCipher_lawful "alice" sampleText
    sampleServer.messageCounts 0 5 sampleKeyBytes sampleIV
    (utf8Encode_valid sampleText (by decide)) (by decide) sampleKeyBytes_valid
    (by decide) sampleIV_valid
  have hchat := onMessage_chat toyCipher allOpen sampleInputs 1 (some sampleText)
    sampleServer "alice" (by decide) (by decide)
  have hbuilt2 : (chatNewMessage toyCipher "alice" sampleText sampleServer.messageCounts
      sampleInputs.now sampleInputs.createdAt sampleInputs.keyBytes sampleInputs.iv).2
      = _ := hbuilt
  rw [hchat]
  unfold onChat
  simp only [hbuilt2]
  exact ⟨by decide, rfl⟩

/-- C21: a chat event received on a connection whose `username` is still `null` (no
`auth` message was handled on it) has no effect: no activity window is created or
changed, nothing is inserted into the store, no event is sent on any connection, not
even an error to the sender, and the registry is unchanged. -/
theorem chat_before_auth_ignored (aes : BlockCipher) (readyState : ChannelId → Nat)
    (inputs : ChatInputs) (ws : ChannelId) (text : Option JSString) (server : Server)
    (hunbound : server.username ws = none) :
    onMessage aes readyState inputs ws (.chat text) server = (server, [])
      ∧ (onMessage aes readyState inputs ws (.chat text) server).1.messageCounts
          = server.messageCounts
      ∧ (onMessage aes readyState inputs ws (.chat text) server).1.messagesDb
          = server.messagesDb
      ∧ (onMessage aes readyState inputs ws (.chat text) server).2 = []
      ∧ (onMessage aes readyState inputs ws (.chat text) server).1.activeConnections
          = server.activeConnections
      ∧ (onMessage aes readyState inputs ws (.chat text) server).1.username ws = none := by
  have h : onMessage aes readyState inputs ws (.chat text) server = (server, []) := by
    simp only [onMessage, hunbound]
  rw [h]
  exact ⟨rfl, rfl, rfl, rfl, rfl, hunbound⟩

theorem chat_before_auth_ignored_witness :
    sampleServer.username 3 = none
      ∧ onMessage toyCipher allOpen sampleInputs 3 (.chat (some sampleText)) sampleServer
          = (sampleServer, [])
      ∧ (onMessage toyCipher allOpen sampleInputs 3 (.chat (some sampleText))
          sampleServer).1.messageCounts = sampleServer.messageCounts
      ∧ (onMessage toyCipher allOpen sampleInputs 3 (.chat (some sampleText))
          sampleServer).1.messagesDb = sampleServer.messagesDb
      ∧ (onMessage toyCipher allOpen sampleInputs 3 (.chat (some sampleText))
          sampleServer).2 = []
      ∧ (onMessage toyCipher allOpen sampleInputs 3 (.chat (some sampleText))
          sampleServer).1.activeConnections = sampleServer.activeConnections
      ∧ (onMessage toyCipher allOpen sampleInputs 3 (.chat (some sampleText))
          sampleServer).1.username 3 = none :=
  ⟨by decide,
    chat_before_auth_ignored toyCipher allOpen sampleInputs 3 (some sampleText)
      sampleServer (by decide)⟩

end Fadechat
